import Mathlib

/-!
The data2parquet core: record normalisation, in-memory buffer and receiver

A shallow embedding of `pkg/domain/log.go`, `pkg/buffer/mem.go` and
`pkg/receiver/receiver.go`, followed by theorems about them.

Conventions of the embedding.

* A Go `string` is a Lean `String`; the string functions of the Go standard
  library are written over the list of characters of the string.
* A Go `interface{}` value is a `Value`; a Go map that is ranged over is the
  list of its entries in the order in which that `range` visits them, so a
  statement over all lists covers every iteration order.
* A function that can panic returns `Except String`, the error being the
  panic message.
* Code of the repository that is not among the files embedded here (the
  `config` package, `LogInfo`, `GetStringP`, `GetMD5Sum`, the `writer`
  package) is a field of `Env`, or an argument of the function using it. So
  are the codecs and the case table of the package `unicode` of the standard
  library.
-/

namespace Data2Parquet

set_option autoImplicit false

/-! ## Strings -/

/-- Worker of `ReplaceAll`: the number is how many characters of a match
found earlier remain to be skipped. -/
def replaceAllGo (old new : List Char) : Nat → List Char → List Char
  | _, [] => []
  | k + 1, _ :: cs => replaceAllGo old new k cs
  | 0, c :: cs =>
    if old.isPrefixOf (c :: cs) then new ++ replaceAllGo old new (old.length - 1) cs
    else c :: replaceAllGo old new 0 cs

/-- The Go function `strings.ReplaceAll(s, old, new)` for a non-empty `old`
(both calls in the source pass a non-empty literal): the non-overlapping
occurrences of `old`, found from the left, are replaced by `new`. -/
def ReplaceAll (s old new : String) : String :=
  String.mk (replaceAllGo old.data new.data 0 s.data)

/-- Worker of `Split` over characters. -/
def splitGo (sep : Char) : List Char → List (List Char)
  | [] => [[]]
  | c :: cs =>
    if c = sep then [] :: splitGo sep cs
    else match splitGo sep cs with
      | [] => [[c]]
      | w :: ws => (c :: w) :: ws

/-- The Go function `strings.Split(s, sep)` for a separator of one
character (the source splits on a comma). -/
def Split (s : String) (sep : Char) : List String :=
  (splitGo sep s.data).map String.mk

/-- The Go function `strings.Join(elems, sep)`. -/
def Join : List String → String → String
  | [], _ => ""
  | [x], _ => x
  | x :: y :: xs, sep => x ++ sep ++ Join (y :: xs) sep

/-! ## Dynamic values and `fmt` -/

/-- A value of Go type `interface{}`, by dynamic type. `strP` and `boolP` are
the pointer types `*string` and `*bool` (`none` is the nil pointer); `strList`
is `[]string`, `list` is `[]interface{}`, `strMap` is `map[string]string`,
`map` is `map[string]interface{}` and `anyMap` is
`map[interface{}]interface{}`. -/
inductive Value where
  | nil
  | str (s : String)
  | int (n : Int)
  | bool (b : Bool)
  | strP (p : Option String)
  | boolP (p : Option Bool)
  | strList (xs : List String)
  | list (xs : List Value)
  | strMap (m : List (String × String))
  | map (m : List (String × Value))
  | anyMap (m : List (Value × Value))

/-- The text `fmt` prints for the address held by a non-nil pointer. The
address itself is outside the embedding. -/
def pointerText : String := "0xc000000000"

/-- Elements of a slice as `fmt` prints them: separated by one blank. -/
def spaced : List String → String
  | [] => ""
  | [x] => x
  | x :: y :: xs => x ++ " " ++ spaced (y :: xs)

/-- Lexicographic order on strings by code point, the order of Go strings. -/
def leChars : List Char → List Char → Bool
  | [], _ => true
  | _ :: _, [] => false
  | a :: as, b :: bs =>
    if a.toNat < b.toNat then true
    else if b.toNat < a.toNat then false
    else leChars as bs

/-- Insertion of an entry into a list of entries sorted by key. -/
def insertEntry (e : String × String) : List (String × String) → List (String × String)
  | [] => [e]
  | x :: xs => if leChars e.1.data x.1.data then e :: x :: xs else x :: insertEntry e xs

/-- Entries sorted by key, as `fmt` orders the keys of a map before printing. -/
def sortEntries : List (String × String) → List (String × String)
  | [] => []
  | e :: es => insertEntry e (sortEntries es)

/-- Entries of a map with string keys as `fmt` prints them: sorted by key,
each as `key:value`, separated by one blank. -/
def printEntries (es : List (String × String)) : String :=
  spaced ((sortEntries es).map (fun e => e.1 ++ ":" ++ e.2))

mutual
/-- The text `fmt.Sprintf("%s", v)`. A value that is not a string has no
`%s` form and `fmt` prints the bad-verb marker for it. The entries of a
`map[interface{}]interface{}` are printed in the order given. -/
def fmtS : Value → String
  | .nil => "%!s(<nil>)"
  | .str s => s
  | .int n => "%!s(int=" ++ toString n ++ ")"
  | .bool b => "%!s(bool=" ++ toString b ++ ")"
  | .strP none => "%!s(*string=<nil>)"
  | .strP (some _) => "%!s(*string=" ++ pointerText ++ ")"
  | .boolP none => "%!s(*bool=<nil>)"
  | .boolP (some _) => "%!s(*bool=" ++ pointerText ++ ")"
  | .strList xs => "[" ++ spaced xs ++ "]"
  | .list xs => "[" ++ spaced (fmtSElems xs) ++ "]"
  | .strMap m => "map[" ++ printEntries m ++ "]"
  | .map m => "map[" ++ printEntries (fmtSEntries m) ++ "]"
  | .anyMap m => "map[" ++ spaced (fmtSPairs m) ++ "]"
/-- The element of a slice or map under `%s`: a nil element prints as
`<nil>`, any other as `fmtS`. -/
def fmtSElem : Value → String
  | .nil => "<nil>"
  | .str s => s
  | .int n => "%!s(int=" ++ toString n ++ ")"
  | .bool b => "%!s(bool=" ++ toString b ++ ")"
  | .strP none => "%!s(*string=<nil>)"
  | .strP (some _) => "%!s(*string=" ++ pointerText ++ ")"
  | .boolP none => "%!s(*bool=<nil>)"
  | .boolP (some _) => "%!s(*bool=" ++ pointerText ++ ")"
  | .strList xs => "[" ++ spaced xs ++ "]"
  | .list xs => "[" ++ spaced (fmtSElems xs) ++ "]"
  | .strMap m => "map[" ++ printEntries m ++ "]"
  | .map m => "map[" ++ printEntries (fmtSEntries m) ++ "]"
  | .anyMap m => "map[" ++ spaced (fmtSPairs m) ++ "]"
/-- The elements of a `[]interface{}` under `%s`. -/
def fmtSElems : List Value → List String
  | [] => []
  | x :: xs => fmtSElem x :: fmtSElems xs
/-- The entries of a `map[string]interface{}` under `%s`. -/
def fmtSEntries : List (String × Value) → List (String × String)
  | [] => []
  | (k, v) :: es => (k, fmtSElem v) :: fmtSEntries es
/-- The entries of a `map[interface{}]interface{}` under `%s`. -/
def fmtSPairs : List (Value × Value) → List String
  | [] => []
  | (k, v) :: es => (fmtSElem k ++ ":" ++ fmtSElem v) :: fmtSPairs es
end

mutual
/-- The text `fmt.Sprintf("%v", v)`. -/
def fmtV : Value → String
  | .nil => "<nil>"
  | .str s => s
  | .int n => toString n
  | .bool b => toString b
  | .strP none => "<nil>"
  | .strP (some _) => pointerText
  | .boolP none => "<nil>"
  | .boolP (some _) => pointerText
  | .strList xs => "[" ++ spaced xs ++ "]"
  | .list xs => "[" ++ spaced (fmtVElems xs) ++ "]"
  | .strMap m => "map[" ++ printEntries m ++ "]"
  | .map m => "map[" ++ printEntries (fmtVEntries m) ++ "]"
  | .anyMap m => "map[" ++ spaced (fmtVPairs m) ++ "]"
/-- The elements of a `[]interface{}` under `%v`. -/
def fmtVElems : List Value → List String
  | [] => []
  | x :: xs => fmtV x :: fmtVElems xs
/-- The entries of a `map[string]interface{}` under `%v`. -/
def fmtVEntries : List (String × Value) → List (String × String)
  | [] => []
  | (k, v) :: es => (k, fmtV v) :: fmtVEntries es
/-- The entries of a `map[interface{}]interface{}` under `%v`. -/
def fmtVPairs : List (Value × Value) → List String
  | [] => []
  | (k, v) :: es => (fmtV k ++ ":" ++ fmtV v) :: fmtVPairs es
end

/-- The name of the dynamic type of a value, as it appears in the message of
a failed type assertion. -/
def typeName : Value → String
  | .nil => "nil"
  | .str _ => "string"
  | .int _ => "int"
  | .bool _ => "bool"
  | .strP _ => "*string"
  | .boolP _ => "*bool"
  | .strList _ => "[]string"
  | .list _ => "[]interface \x7b\x7d"
  | .strMap _ => "map[string]string"
  | .map _ => "map[string]interface \x7b\x7d"
  | .anyMap _ => "map[interface \x7b\x7d]interface \x7b\x7d"

/-- The type assertion `v.(string)`: it panics on any other dynamic type. -/
def assertString : Value → Except String String
  | .str s => .ok s
  | v => .error ("interface conversion: interface \x7b\x7d is " ++ typeName v ++ ", not string")

/-- The type assertion `v.(bool)`: it panics on any other dynamic type. -/
def assertBool : Value → Except String Bool
  | .bool b => .ok b
  | v => .error ("interface conversion: interface \x7b\x7d is " ++ typeName v ++ ", not bool")

deriving instance DecidableEq for Except

/-! ## Go maps with string keys -/

/-- The read `m[k]` with its presence flag. -/
def mapGet {β : Type} : List (String × β) → String → Option β
  | [], _ => none
  | (k', v) :: m, k => if k' = k then some v else mapGet m k

/-- The write `m[k] = v`. -/
def mapSet {β : Type} : List (String × β) → String → β → List (String × β)
  | [], k, v => [(k, v)]
  | (k', v') :: m, k, v => if k' = k then (k, v) :: m else (k', v') :: mapSet m k v

/-- The builtin `delete(m, k)`. -/
def mapDelete {β : Type} : List (String × β) → String → List (String × β)
  | [], _ => []
  | (k', v) :: m, k => if k' = k then mapDelete m k else (k', v) :: mapDelete m k

/-- A field of type `map[string]string`: `none` is the nil map. -/
abbrev StrMap := Option (List (String × String))

/-- The read `m[k]` on a possibly nil map. -/
def StrMap.get (m : StrMap) (k : String) : Option String :=
  match m with
  | none => none
  | some es => mapGet es k

/-- The write `m[k] = v` on a possibly nil map: a write to the nil map
panics. -/
def StrMap.assign (m : StrMap) (k v : String) : Except String StrMap :=
  match m with
  | none => .error "assignment to entry in nil map"
  | some es => .ok (some (mapSet es k v))

/-- The builtin `delete(m, k)` on a possibly nil map (no effect on nil). -/
def StrMap.delete (m : StrMap) (k : String) : StrMap :=
  match m with
  | none => none
  | some es => some (mapDelete es k)

/-! ## The record model (`pkg/domain/log.go`) -/

/-- The partition info of a record. The type `LogInfo` is declared outside
the embedded files; `UpdateInfo` fills these four attributes, and `key` is
what its method `makeKey` stores and its method `Key` returns. -/
structure LogInfo where
  BusinessCapability : String
  BusinessDomain : String
  BusinessService : String
  ApplicationService : String
  key : String
  deriving DecidableEq, Repr

/-- The struct `Log`. A pointer field is an `Option` (`none` is nil). -/
structure Log where
  info : Option LogInfo
  Time : String
  Level : String
  Message : String
  CorrelationId : Option String
  BusinessCapability : String
  BusinessDomain : String
  BusinessService : String
  ApplicationService : String
  Args : StrMap
  Audit : Option Bool
  AutoIndex : Option Bool
  AZ : Option String
  CloudProvider : Option String
  DeviceId : Option String
  Duration : Option String
  Error : Option String
  ErrorCode : Option String
  ExtraFields : StrMap
  HMAC : String
  HTTPResponse : Option String
  LoggerName : Option String
  MessageId : Option String
  PersonId : Option String
  Region : Option String
  ResourceType : Option String
  SessionId : Option String
  SourceId : Option String
  StackTrace : Option String
  Tags : List String
  ThreadName : Option String
  TraceIP : List String
  TransactionMessageReference : Option String
  Ttl : Option String
  UserId : Option String
  deriving DecidableEq, Repr

/-- The level constant `LevelInfo`. -/
def LevelInfo : String := "info"

/-- What the embedded files take from the rest of the repository and from
libraries: the globals `config.IgnoredFields`, `config.MaskFields` (their key
sets) and `config.UseHMAC`; the helpers `GetStringP` and `GetMD5Sum`; the key
computed by `LogInfo.makeKey` from the four attributes of a `LogInfo`; the
MsgPack and JSON codecs (an unmarshal yields the struct as the codec leaves
it, and the error if any); and `caseLower`, the lower case that the case table
`unicode.CaseRanges` gives for a rune above ASCII (`unicode.To(LowerCase, r)`,
which for instance maps U+00C9 to U+00E9 and U+0130 to `i`). -/
structure Env where
  IgnoredFields : List String
  MaskFields : List String
  UseHMAC : Bool
  GetStringP : Value → Option String
  GetMD5Sum : List Nat → String
  keyOf : String → String → String → String → String
  msgpMarshal : Log → Except String (List Nat)
  msgpUnmarshal : List Nat → Log → Log × Option String
  jsonUnmarshal : String → Log → Log × Option String
  caseLower : Char → Char

/-- The Go function `unicode.ToLower`: a rune up to `unicode.MaxASCII` is
lowered by the arithmetic on `'A'..'Z'`, any other rune by the case table. -/
def unicodeToLower (env : Env) (c : Char) : Char :=
  if c.toNat ≤ 127 then c.toLower else env.caseLower c

/-- The Go function `strings.ToLower`: every rune of the string is mapped by
`unicode.ToLower`. A string is the list of its runes, as for every key that
is valid UTF-8. -/
def ToLower (env : Env) (s : String) : String :=
  String.mk (s.data.map (unicodeToLower env))

/-- The method `LogInfo.makeKey`, which stores the key of the four
attributes. -/
def LogInfo.makeKey (env : Env) (i : LogInfo) : LogInfo :=
  let k := env.keyOf i.BusinessCapability i.BusinessDomain i.BusinessService i.ApplicationService
  { i with key := k }

/-- The method `LogInfo.Key`. -/
def LogInfo.Key (i : LogInfo) : String := i.key

/-- The method `Log.ToMsgPack`: the encoding, or nil on an encoding
error. -/
def Log.ToMsgPack (env : Env) (l : Log) : List Nat :=
  match env.msgpMarshal l with
  | .ok data => data
  | .error _ => []

/-- The method `Log.UpdateInfo`. -/
def Log.UpdateInfo (env : Env) (l : Log) : Log :=
  let ret : LogInfo :=
    { BusinessCapability := l.BusinessCapability
      BusinessDomain := l.BusinessDomain
      BusinessService := l.BusinessService
      ApplicationService := l.ApplicationService
      key := "" }
  let ret := ret.makeKey env
  let l := if env.UseHMAC then { l with HMAC := env.GetMD5Sum (l.ToMsgPack env) } else l
  { l with info := some ret }

/-- The function `makeKey(prefix, key)` of `log.go`; every call passes a
string as `key`. -/
def makeKey (env : Env) (pfx key : String) : String :=
  let pfx := if pfx.length > 0 then pfx ++ "-" else pfx
  ReplaceAll (ToLower env (pfx ++ key)) "_" "-"

/-- The loop `for _, x := range xs: if len(x) > 0, append x`. -/
def appendNonEmpty (dst : List String) (xs : List String) : List String :=
  xs.foldl (fun acc x => if x.length > 0 then acc ++ [x] else acc) dst

/-- One iteration of the inner loop of `getMap` over a
`map[string]interface{}`. -/
def getMapEntry (env : Env) (pfx : String) (src : List (String × String)) (argKey : String)
    (argVal : Value) : List (String × String) :=
  match argVal with
  | .str _ => mapSet src (makeKey env pfx argKey) (fmtS argVal)
  | .strList _ => src
  | .list xs =>
    let joinValues := appendNonEmpty [] (xs.map fmtS)
    mapSet src (makeKey env pfx argKey) (Join joinValues ",")
  | .nil => src
  | _ => mapSet src (makeKey env pfx argKey) (fmtS argVal)

/-- The function `getMap(prefix, v, src)`. -/
def getMap (env : Env) (pfx : String) (v : Value) (src : StrMap) : StrMap :=
  match v with
  | .nil => src
  | _ =>
    let src : List (String × String) := src.getD []
    match v with
    | .strMap m => some (m.foldl (fun acc e => mapSet acc (makeKey env pfx e.1) e.2) src)
    | .anyMap _ => some src
    | .map m => some (m.foldl (fun acc e => getMapEntry env pfx acc e.1 e.2) src)
    | .strList xs => some (mapSet src (makeKey env pfx "value") (Join xs ","))
    | _ => some (mapSet src (makeKey env pfx "value") (fmtS v))

/-- The write `l.Args[k] = s`. -/
def Log.setArg (l : Log) (k s : String) : Except String Log := do
  let a ← l.Args.assign k s
  pure { l with Args := a }

/-- The loop of `case "args"` over a map: `if len(item) > 0, l.Args[k] = item`. -/
def Log.setArgs (l : Log) (es : List (String × String)) : Except String Log :=
  es.foldlM (fun (acc : Log) e => if e.2.length > 0 then acc.setArg e.1 e.2 else pure acc) l

/-- The write `l.ExtraFields[k] = s`. -/
def Log.setExtra (l : Log) (k s : String) : Except String Log := do
  let a ← l.ExtraFields.assign k s
  pure { l with ExtraFields := a }

/-- The inner `switch filtered` of the default case of `Decode`. -/
def decodeFiltered (env : Env) (l : Log) (filtered : String) (v : Value) :
    Except String Log :=
  match filtered with
  | "owner-squad" => l.setArg "squad" (fmtS v)
  | "owner-sre" => l.setArg "sre" (fmtS v)
  | "platform" => l.setArg "platform" (fmtS v)
  | "service" => l.setArg "service" (fmtS v)
  | "product" => l.setArg "product" (fmtS v)
  | "fluent-tag" => l.setArg "fluent-tag" (fmtS v)
  | "fluent-time" => l.setArg "fluent-time" (fmtS v)
  | "env" => pure l
  | "enviroment" => l.setArg "enviroment" (fmtS v)
  | "-container-type" => l.setArg "container-type" (fmtS v)
  | "context" => pure { l with Args := getMap env "ctx" v l.Args }
  | "trace" => pure { l with Args := getMap env "trace" v l.Args }
  | "fields" => pure { l with Args := getMap env "fields" v l.Args }
  | _ => l.setExtra (makeKey env "" filtered) (fmtS v)

/-- The body of `case "trace-ip"`. -/
def decodeTraceIP (l : Log) (v : Value) : Log :=
  match v with
  | .str s => if s.length > 0 then { l with TraceIP := l.TraceIP ++ [s] } else l
  | .strList xs => { l with TraceIP := appendNonEmpty l.TraceIP xs }
  | .list xs => { l with TraceIP := appendNonEmpty l.TraceIP (xs.map fmtS) }
  | _ => { l with TraceIP := l.TraceIP ++ [fmtS v] }

/-- The body of `case "tags"`. -/
def decodeTags (l : Log) (v : Value) : Log :=
  match v with
  | .strList xs => { l with Tags := appendNonEmpty l.Tags xs }
  | .list xs => { l with Tags := appendNonEmpty l.Tags (xs.map fmtS) }
  | _ => { l with Tags := l.Tags ++ [fmtS v] }

/-- The body of `case "args"`. -/
def decodeArgs (l : Log) (v : Value) : Except String Log :=
  match v with
  | .strMap m => l.setArgs m
  | .map m => l.setArgs (m.map (fun e => (e.1, fmtS e.2)))
  | .anyMap m => l.setArgs (m.map (fun e => (fmtS e.1, fmtS e.2)))
  | _ => pure l

/-- The body of `case "details"`. -/
def decodeDetails (env : Env) (l : Log) (v : Value) : Log :=
  let l := { l with Args := getMap env "details" v l.Args }
  match l.Args.get "details-tags" with
  | some value =>
    let l := { l with Tags := appendNonEmpty l.Tags (Split value ',') }
    { l with Args := l.Args.delete "details-tags" }
  | none => l

/-- The outer `switch key` of `Decode`, on the normalised key and the value
after masking. -/
def decodeField (env : Env) (l : Log) (key : String) (v : Value) : Except String Log :=
  match key with
  | "time" => do let s ← assertString v; pure { l with Time := s }
  | "timestamp" => do let s ← assertString v; pure { l with Time := s }
  | "when" => do let s ← assertString v; pure { l with Time := s }
  | "level" => do let s ← assertString v; pure { l with Level := s }
  | "lvl" => do let s ← assertString v; pure { l with Level := s }
  | "correlation-id" => pure { l with CorrelationId := env.GetStringP v }
  | "session-id" => pure { l with SessionId := env.GetStringP v }
  | "message-id" => pure { l with MessageId := env.GetStringP v }
  | "person-id" => pure { l with PersonId := env.GetStringP v }
  | "user-id" => pure { l with UserId := env.GetStringP v }
  | "device-id" => pure { l with DeviceId := env.GetStringP v }
  | "message" => do let s ← assertString v; pure { l with Message := s }
  | "msg" => do let s ← assertString v; pure { l with Message := s }
  | "log" => do let s ← assertString v; pure { l with Message := s }
  | "business-capability" => do let s ← assertString v; pure { l with BusinessCapability := s }
  | "business-domain" => do let s ← assertString v; pure { l with BusinessDomain := s }
  | "business-service" => do let s ← assertString v; pure { l with BusinessService := s }
  | "application-service" => do let s ← assertString v; pure { l with ApplicationService := s }
  | "audit" => do let val ← assertBool v; pure { l with Audit := some val }
  | "resource-type" => pure { l with ResourceType := env.GetStringP v }
  | "cloud-provider" => pure { l with CloudProvider := env.GetStringP v }
  | "source-id" => pure { l with SourceId := env.GetStringP v }
  | "http-response" => pure { l with HTTPResponse := env.GetStringP v }
  | "error-code" => pure { l with ErrorCode := env.GetStringP v }
  | "error" => pure { l with ErrorCode := env.GetStringP v }
  | "error-message" => pure { l with ErrorCode := env.GetStringP v }
  | "error-msg" => pure { l with ErrorCode := env.GetStringP v }
  | "stack-trace" => pure { l with StackTrace := env.GetStringP v }
  | "duration" => pure { l with Duration := env.GetStringP v }
  | "elapsed" => pure { l with Duration := env.GetStringP v }
  | "elapsed-time" => pure { l with Duration := env.GetStringP v }
  | "ip" => pure l
  | "trace-ip" => pure (decodeTraceIP l v)
  | "region" => pure { l with Region := env.GetStringP v }
  | "az" => pure { l with AZ := env.GetStringP v }
  | "tags" => pure (decodeTags l v)
  | "args" => decodeArgs l v
  | "transaction-message-reference" =>
    pure { l with TransactionMessageReference := env.GetStringP v }
  | "ttl" => pure { l with Ttl := env.GetStringP v }
  | "auto-index" => do let val ← assertBool v; pure { l with AutoIndex := some val }
  | "logger-name" => pure { l with LoggerName := env.GetStringP v }
  | "thread-name" => pure { l with ThreadName := env.GetStringP v }
  | "host" => l.setArg "host" (fmtV v)
  | "hostname" => l.setArg "host" (fmtV v)
  | "container-image" => l.setArg "container-image" (fmtS v)
  | "vendor" => l.setArg "vendor" (fmtS v)
  | "details" => pure (decodeDetails env l v)
  | _ => decodeFiltered env l (ReplaceAll key "tags-" "") v

/-- The normalised form of an incoming key: the first statement of the loop
body of `Decode` (`fmt.Sprintf("%v", k)` is `k` itself for a string key). -/
def normKey (env : Env) (k : String) : String :=
  ReplaceAll (ToLower env k) "_" "-"

/-- The body of the loop of `Decode` for one entry of the bag. -/
def decodeEntry (env : Env) (l : Log) (k : String) (v : Value) : Except String Log :=
  let key := normKey env k
  if key.length = 0 then pure l
  else if env.IgnoredFields.contains key then pure l
  else
    let v := if env.MaskFields.contains key then Value.str "*" else v
    decodeField env l key v

/-- The loop of `Decode` over the entries of the bag, in the order in which
the `range` visits them. -/
def decodeLoop (env : Env) (l : Log) (data : List (String × Value)) : Except String Log :=
  data.foldlM (fun acc e => decodeEntry env acc e.1 e.2) l

/-- The method `Log.Decode`: the record after the call, or the panic. -/
def Log.Decode (env : Env) (l : Log) (data : List (String × Value)) : Except String Log := do
  let l ← decodeLoop env l data
  pure (l.UpdateInfo env)

/-- The record `NewLog` builds before it decodes the bag. -/
def emptyLog : Log :=
  { info := none, Time := "", Level := LevelInfo, Message := "", CorrelationId := none,
    BusinessCapability := "", BusinessDomain := "", BusinessService := "",
    ApplicationService := "", Args := some [], Audit := some false, AutoIndex := some false,
    AZ := none, CloudProvider := none, DeviceId := none, Duration := none, Error := none,
    ErrorCode := none, ExtraFields := some [], HMAC := "", HTTPResponse := none,
    LoggerName := none, MessageId := none, PersonId := none, Region := none,
    ResourceType := none, SessionId := none, SourceId := none, StackTrace := none,
    Tags := [], ThreadName := none, TraceIP := [], TransactionMessageReference := none,
    Ttl := none, UserId := none }

/-- The function `NewLog`: the record, or the panic of `Decode`. -/
def NewLog (env : Env) (data : List (String × Value)) : Except String Log :=
  emptyLog.Decode env data

/-- A field of type `map[string]string` as an `interface{}` value. -/
def StrMap.toValue (m : StrMap) : Value := .strMap (m.getD [])

/-- The method `Log.GetData`: the entries of the map it builds, in the order
of its assignments. -/
def Log.GetData (l : Log) : List (String × Value) :=
  [ ("time", .str l.Time), ("level", .str l.Level), ("correlation-id", .strP l.CorrelationId),
    ("session-id", .strP l.SessionId), ("message-id", .strP l.MessageId),
    ("person-id", .strP l.PersonId), ("user-id", .strP l.UserId),
    ("device-id", .strP l.DeviceId), ("message", .str l.Message),
    ("business-capability", .str l.BusinessCapability),
    ("business-domain", .str l.BusinessDomain), ("business-service", .str l.BusinessService),
    ("application-service", .str l.ApplicationService), ("audit", .boolP l.Audit),
    ("resource-type", .strP l.ResourceType), ("cloud-provider", .strP l.CloudProvider),
    ("source-id", .strP l.SourceId), ("http-response", .strP l.HTTPResponse),
    ("error-code", .strP l.ErrorCode), ("error", .strP l.ErrorCode),
    ("stack-trace", .strP l.StackTrace), ("duration", .strP l.Duration),
    ("trace-ip", .strList l.TraceIP), ("region", .strP l.Region), ("az", .strP l.AZ),
    ("tags", .strList l.Tags), ("args", l.Args.toValue),
    ("transaction-message-reference", .strP l.TransactionMessageReference),
    ("ttl", .strP l.Ttl), ("auto-index", .boolP l.AutoIndex),
    ("logger-name", .strP l.LoggerName), ("thread-name", .strP l.ThreadName),
    ("extra-fields", l.ExtraFields.toValue) ]

/-- The method `Log.GetInfo`: the info, and the record after the call (the
info is computed first when it is nil). -/
def Log.GetInfo (env : Env) (l : Log) : LogInfo × Log :=
  match l.info with
  | some i => (i, l)
  | none =>
    let l := l.UpdateInfo env
    let ret : LogInfo :=
      { BusinessCapability := l.BusinessCapability
        BusinessDomain := l.BusinessDomain
        BusinessService := l.BusinessService
        ApplicationService := l.ApplicationService
        key := "" }
    (l.info.getD ret, l)

/-- The method `Log.Key`: the key, and the record after the call. -/
def Log.Key (env : Env) (l : Log) : String × Log :=
  let r := l.GetInfo env
  (r.1.Key, r.2)

/-- The method `Log.FromJson`: the record after the call and the error
returned. The codec cannot reach the unexported field `info`. -/
def Log.FromJson (env : Env) (l : Log) (data : String) : Log × Option String :=
  let r := env.jsonUnmarshal data l
  let l := { r.1 with info := l.info }
  match r.2 with
  | some err => (l, some err)
  | none => (l.UpdateInfo env, none)

/-- The method `Log.FromMsgPack`: the record after the call and the error
returned. The codec cannot reach the unexported field `info`. -/
def Log.FromMsgPack (env : Env) (l : Log) (data : List Nat) : Log × Option String :=
  let r := env.msgpUnmarshal data l
  let l := { r.1 with info := l.info }
  match r.2 with
  | some err => (l, some err)
  | none => (l.UpdateInfo env, none)

/-- The case labels of the outer `switch key` of `Decode`. -/
def outerKeys : List String :=
  ["time", "timestamp", "when", "level", "lvl", "correlation-id", "session-id", "message-id",
   "person-id", "user-id", "device-id", "message", "msg", "log", "business-capability",
   "business-domain", "business-service", "application-service", "audit", "resource-type",
   "cloud-provider", "source-id", "http-response", "error-code", "error", "error-message",
   "error-msg", "stack-trace", "duration", "elapsed", "elapsed-time", "ip", "trace-ip",
   "region", "az", "tags", "args", "transaction-message-reference", "ttl", "auto-index",
   "logger-name", "thread-name", "host", "hostname", "container-image", "vendor", "details"]

/-- The case labels of the inner `switch filtered` of `Decode`. -/
def innerKeys : List String :=
  ["owner-squad", "owner-sre", "platform", "service", "product", "fluent-tag", "fluent-time",
   "env", "enviroment", "-container-type", "context", "trace", "fields"]

/-- The value `Decode` works with after the mask check. -/
def maskedValue (env : Env) (k : String) (v : Value) : Value :=
  if env.MaskFields.contains (normKey env k) then Value.str "*" else v

/-- The key of `extra-fields` that the entry with key `k` is written to, if
the entry reaches the default case of both switches of `Decode`. -/
def extraTarget (env : Env) (k : String) : Option String :=
  let key := normKey env k
  if key.length = 0 then none
  else if env.IgnoredFields.contains key then none
  else if outerKeys.contains key then none
  else
    let filtered := ReplaceAll key "tags-" ""
    if innerKeys.contains filtered then none else some (makeKey env "" filtered)

/-- An environment for the examples: empty ignore and mask lists, no HMAC,
`GetStringP` as the pointer to the `%v` text (nil for nil), keys joined by a
bar, codecs that leave the record alone, and of the case table the entries of
the three runes U+00C9 (lower case U+00E9), U+0130 (lower case `i`) and U+212A
(lower case `k`). -/
def exampleEnv : Env :=
  { IgnoredFields := []
    MaskFields := []
    UseHMAC := false
    GetStringP := fun v => match v with
      | .nil => none
      | _ => some (fmtV v)
    GetMD5Sum := fun _ => ""
    keyOf := fun a b c d => a ++ "|" ++ b ++ "|" ++ c ++ "|" ++ d
    msgpMarshal := fun _ => .ok []
    msgpUnmarshal := fun _ l => (l, none)
    jsonUnmarshal := fun _ l => (l, none)
    caseLower := fun c =>
      if c.toNat = 0xC9 then Char.ofNat 0xE9
      else if c.toNat = 0x130 then 'i'
      else if c.toNat = 0x212A then 'k'
      else c }

/-- A string in normal form: ASCII characters only, no upper-case letter and
no underscore. -/
def Clean (cs : List Char) : Prop := ∀ c ∈ cs, c.toNat ≤ 127 ∧ c.toLower = c ∧ c ≠ '_'

/-- A record as `NewLog`, `Decode`, `FromJson` or `FromMsgPack` hands it
over: `NewLog` and `Decode` returned (no panic), `FromJson` and `FromMsgPack`
returned no error. -/
inductive Produced (env : Env) : Log → Prop where
  | newLog (bag : List (String × Value)) (l : Log) :
      NewLog env bag = .ok l → Produced env l
  | decode (l0 : Log) (bag : List (String × Value)) (l : Log) :
      l0.Decode env bag = .ok l → Produced env l
  | fromJson (l0 : Log) (data : String) (l : Log) :
      l0.FromJson env data = (l, none) → Produced env l
  | fromMsgPack (l0 : Log) (data : List Nat) (l : Log) :
      l0.FromMsgPack env data = (l, none) → Produced env l

/-- The info of a record that went through `UpdateInfo` holds the key of the
record's own four classification attributes. -/
def InfoFresh (env : Env) (l : Log) : Prop :=
  ∃ i, l.info = some i ∧
    i.key = env.keyOf l.BusinessCapability l.BusinessDomain l.BusinessService
      l.ApplicationService

/-! ## The in-memory buffer (`pkg/buffer/mem.go`) -/

/-- The fields of `config.Config` that the buffer and the receiver read. -/
structure Config where
  BufferSize : Int
  FlushInterval : Int
  TryAutoRecover : Bool
  RecoveryAttempts : Int
  deriving DecidableEq, Repr

/-- The struct `BuffItem`. -/
structure BuffItem where
  key : String
  item : Log
  deriving DecidableEq, Repr

/-- The struct `DLQData`; the time stamp is in nanoseconds. -/
structure DLQData where
  Key : String
  Data : List Nat
  Timestamp : Int
  deriving DecidableEq, Repr

/-- The struct `Mem`. The maps are the ones `NewMem` makes (never nil), each
the list of its entries; the channel `buff` is its content, oldest item
first, together with the item the worker goroutine may hold, and the flag
`closed`, which tells whether `close(m.buff)` has run. -/
structure Mem where
  config : Config
  data : List (String × List Log)
  recovery : List (String × List Log)
  dlq : List DLQData
  buff : List BuffItem
  closed : Bool
  Ready : Bool
  deriving DecidableEq, Repr

/-- The function `NewMem`, once the worker goroutine has signalled. -/
def NewMem (config : Config) : Mem :=
  { config := config, data := [], recovery := [], dlq := [], buff := [], closed := false,
    Ready := true }

/-- One iteration of the loop of the worker goroutine of `NewMem`: the oldest
item of the channel is appended to its partition. -/
def Mem.worker (m : Mem) : Mem :=
  match m.buff with
  | [] => m
  | it :: rest =>
    let data := match mapGet m.data it.key with
      | some _ => m.data
      | none => mapSet m.data it.key []
    let data := mapSet data it.key ((mapGet data it.key).getD [] ++ [it.item])
    { m with data := data, buff := rest }

/-- The worker goroutine run until the channel is empty. -/
def Mem.drain (m : Mem) : Mem :=
  m.buff.foldl (fun acc _ => acc.worker) m

/-- The method `Mem.Close`: it clears `Ready` and closes the channel; closing
a channel that is closed already panics. -/
def Mem.Close (m : Mem) : Except String Mem :=
  if m.closed then .error "close of closed channel"
  else pure { m with Ready := false, closed := true }

/-- The method `Mem.Len`. -/
def Mem.Len (m : Mem) (key : String) : Int :=
  match mapGet m.data key with
  | none => 0
  | some recs => recs.length

/-- The statement `m.buff <- BuffItem{...}` of `Mem.Push` on a channel that is
open: a send on a full channel waits until the worker has taken an item. -/
def Mem.send (m : Mem) (key : String) (it : Log) : Mem :=
  let m := if (m.buff.length : Int) < m.config.BufferSize then m else m.worker
  { m with buff := m.buff ++ [{ key := key, item := it }] }

/-- The method `Mem.Push`: the buffer after the call and the error returned
(`item` is `none` for a nil record). The method has no `recover`, so that the
send on a channel that `Close` has closed is a panic of the caller. -/
def Mem.Push (m : Mem) (key : String) (item : Option Log) :
    Except String (Mem × Option String) :=
  match item with
  | none => pure (m, some "item is nil")
  | some it =>
    if m.closed then .error "send on closed channel"
    else pure (m.send key it, none)

/-- The method `Mem.PushRecovery`. -/
def Mem.PushRecovery (m : Mem) (key : String) (item : Option Log) : Mem × Option String :=
  match item with
  | none => (m, some "item is nil")
  | some it =>
    let recovery := match mapGet m.recovery key with
      | some _ => m.recovery
      | none => mapSet m.recovery key []
    let recovery := mapSet recovery key ((mapGet recovery key).getD [] ++ [it])
    ({ m with recovery := recovery }, none)

/-- The body of the loop of `Mem.RecoveryData` for one entry of the recovery
map. -/
def Mem.recoverEntry (m : Mem) (key : String) (records : List Log) : Mem :=
  let data := match mapGet m.data key with
    | some _ => m.data
    | none => mapSet m.data key []
  let data := mapSet data key ((mapGet data key).getD [] ++ records)
  { m with data := data, recovery := mapSet m.recovery key [] }

/-- The method `Mem.RecoveryData`: the loop visits the entries that the
recovery map has when it starts. -/
def Mem.RecoveryData (m : Mem) : Mem :=
  m.recovery.foldl (fun acc e => acc.recoverEntry e.1 e.2) m

/-- The method `Mem.Get` (the nil slice is the empty list). -/
def Mem.Get (m : Mem) (key : String) : List Log :=
  match mapGet m.data key with
  | none => []
  | some recs => recs

/-- The method `Mem.Clear`. The slice expression `m.data[key][size:]` panics
for a negative `size`. -/
def Mem.Clear (m : Mem) (key : String) (size : Int) : Except String Mem :=
  match mapGet m.data key with
  | none => pure m
  | some recs =>
    if size = -1 ∨ size > recs.length then pure { m with data := mapDelete m.data key }
    else if size < 0 then .error "slice bounds out of range"
    else pure { m with data := mapSet m.data key (recs.drop size.toNat) }

/-- The method `Mem.Keys`. -/
def Mem.Keys (m : Mem) : List String := m.data.map Prod.fst

/-- The method `Mem.IsReady`. -/
def Mem.IsReady (m : Mem) : Bool := m.Ready

/-- The method `Mem.HasRecovery`: `len` of the recovery map is the number of
its keys. -/
def Mem.HasRecovery (m : Mem) : Bool := decide (m.recovery.length > 0)

/-- The method `Mem.PushDLQ`, with the bytes of the buffer and the reading of
the clock. -/
def Mem.PushDLQ (m : Mem) (key : String) (buf : List Nat) (now : Int) : Mem :=
  { m with dlq := m.dlq ++ [{ Key := key, Data := buf, Timestamp := now }] }

/-- The method `Mem.GetDLQ`. -/
def Mem.GetDLQ (m : Mem) : List DLQData := m.dlq

/-- The method `Mem.ClearDLQ`. -/
def Mem.ClearDLQ (m : Mem) : Mem := { m with dlq := [] }

/-! ## The receiver (`pkg/receiver/receiver.go`) -/

/-- The constant `time.Second`, a duration in nanoseconds. -/
def Second : Int := 1000000000

/-- The struct `BufferControl`; `Last` is a reading of the clock in
nanoseconds. The mutex is left out: the steps of the embedding run one at a
time. -/
structure BufferControl where
  Last : Int
  Count : Int
  running : Bool
  deriving DecidableEq, Repr

/-- The struct `writer.WriterReturn`: the records of one report and its
error, `none` for nil. -/
structure WriterReturn where
  Error : Option String
  Records : List Log
  deriving DecidableEq, Repr

/-- A writer, as `FlushKey` uses it: the reports that `Write(key, data)`
returns. -/
abbrev WriterFn := String → List Log → List WriterReturn

/-- One call of `writer.Write` as the embedding records it: the key, the
batch, the reports returned, and whether `FlushKey` started
`RecoveryWriteError` for them. -/
structure WriteCall where
  key : String
  data : List Log
  reports : List WriterReturn
  recovering : Bool
  deriving DecidableEq, Repr

/-- The struct `Receiver`. The last three fields are not fields of the Go
struct: `calls` lists the calls of `writer.Write` made so far, `pending` the
arguments of the `RecoveryWriteError` goroutines started and not yet run,
`timers` the keys whose timer goroutine was started. -/
structure Receiver where
  config : Config
  buffer : Mem
  running : Bool
  control : List (String × BufferControl)
  recoveryCount : Int
  calls : List WriteCall
  pending : List (List WriterReturn)
  timers : List String
  deriving DecidableEq, Repr

/-- Modelled from the spec: `writer.CheckWriterError` belongs to the package
`writer`, which is not among the embedded files; by section 4.D it tells
whether any report has an error. -/
def CheckWriterError (writerRet : List WriterReturn) : Bool :=
  writerRet.any (fun item => item.Error.isSome)

/-- The function `NewReceiver`, for a buffer and a writer that are ready. -/
def NewReceiver (config : Config) : Receiver :=
  { config := config, buffer := NewMem config, running := true, control := [],
    recoveryCount := 0, calls := [], pending := [], timers := [] }

/-- The deferred function of `FlushKey`. -/
def Receiver.flushDone (r : Receiver) (now : Int) (key : String) (ctrl : BufferControl) :
    Receiver :=
  { r with control := mapSet r.control key { ctrl with Last := now, running := false } }

/-- The method `Receiver.FlushKey`, with the writer and the reading of the
clock. -/
def Receiver.FlushKey (r : Receiver) (w : WriterFn) (now : Int) (key : String) :
    Except String Receiver :=
  let found := mapGet r.control key
  let skip := match found with
    | some ctrl => decide (now - ctrl.Last < r.config.FlushInterval * Second)
    | none => false
  if skip then pure r
  else
    let ctrl : BufferControl := found.getD { Last := now, Count := 0, running := false }
    if ctrl.running then pure r
    else
      let data := r.buffer.Get key
      if data.length = 0 then pure (r.flushDone now key ctrl)
      else
        let writerRet := w key data
        let recovering := CheckWriterError writerRet && r.config.TryAutoRecover &&
          decide (r.recoveryCount < r.config.RecoveryAttempts)
        let call : WriteCall :=
          { key := key, data := data, reports := writerRet, recovering := recovering }
        let r := { r with calls := r.calls ++ [call] }
        let r := if recovering then { r with pending := r.pending ++ [writerRet] } else r
        match r.buffer.Clear key data.length with
        | .error e => .error e
        | .ok buffer =>
          let r := { r with buffer := buffer }
          let ctrl := { ctrl with Count := 0 }
          let r := { r with control := mapSet r.control key ctrl }
          pure (r.flushDone now key ctrl)

/-- The method `Receiver.Write`: the receiver after the call and the error
returned. -/
def Receiver.Write (env : Env) (r : Receiver) (w : WriterFn) (now : Int) (record : Log) :
    Except String (Receiver × Option String) :=
  let k := record.Key env
  let key := k.1
  match r.buffer.Push key (some k.2) with
  | .error e => .error e
  | .ok p =>
    let r := { r with buffer := p.1 }
    match mapGet r.control key with
    | some c =>
      let c := { c with Count := c.Count + 1 }
      let r := { r with control := mapSet r.control key c }
      if c.Count ≥ r.config.BufferSize ∧ c.running = false then do
        let r ← r.FlushKey w now key
        pure (r, p.2)
      else pure (r, p.2)
    | none =>
      let first : BufferControl := { Last := now, Count := 1, running := false }
      let r := { r with control := mapSet r.control key first, timers := r.timers ++ [key] }
      pure (r, p.2)

/-- One turn of the loop of the timer goroutine that `Write` starts, from the
end of its sleep. -/
def Receiver.timerWake (r : Receiver) (w : WriterFn) (now : Int) (key : String) :
    Except String Receiver :=
  if r.running = false then r.FlushKey w now key else pure r

/-- The loop of `Receiver.Flush` over the keys of `control`. -/
def Receiver.flushKeys (r : Receiver) (w : WriterFn) (now : Int) (keys : List String) :
    Except String Receiver :=
  keys.foldlM (fun acc key => acc.FlushKey w now key) r

/-- The method `Receiver.Flush`. -/
def Receiver.Flush (r : Receiver) (w : WriterFn) (now : Int) : Except String Receiver :=
  r.flushKeys w now (r.control.map Prod.fst)

/-- The inner loop of `RecoveryWriteError` over the records of one report. -/
def Receiver.pushRecords (env : Env) (m : Mem) (recs : List Log) : Mem × Bool :=
  recs.foldl (fun acc rec =>
    let k := rec.Key env
    let p := acc.1.PushRecovery k.1 (some k.2)
    match p.2 with
    | some _ => (p.1, acc.2)
    | none => (p.1, true)) (m, false)

/-- The outer loop of `RecoveryWriteError` over the reports: the buffer and
the flag `resend`. -/
def Receiver.pushFailed (env : Env) (m : Mem) (writerRet : List WriterReturn) : Mem × Bool :=
  writerRet.foldl (fun acc item =>
    match item.Error with
    | none => acc
    | some _ =>
      let p := Receiver.pushRecords env acc.1 item.Records
      (p.1, acc.2 || p.2)) (m, false)

/-- The method `Receiver.RecoveryWriteError`. -/
def Receiver.RecoveryWriteError (env : Env) (r : Receiver) (w : WriterFn) (now : Int)
    (writerRet : List WriterReturn) : Except String Receiver :=
  let p := Receiver.pushFailed env r.buffer writerRet
  let r := { r with buffer := p.1 }
  let resend := p.2
  if resend ∧ r.recoveryCount < r.config.RecoveryAttempts ∧ r.config.TryAutoRecover then do
    let r := { r with recoveryCount := r.recoveryCount + 1 }
    let r := { r with buffer := r.buffer.RecoveryData }
    let r ← r.Flush w now
    pure { r with recoveryCount := 0 }
  else pure r

/-- The loop of `Receiver.Close` over the keys of `control`. -/
def Receiver.closeKeys (r : Receiver) (w : WriterFn) (now : Int) (keys : List String) :
    Except String Receiver :=
  keys.foldlM (fun (acc : Receiver) key =>
    let acc := match mapGet acc.control key with
      | some ctrl =>
        let forced : BufferControl :=
          { ctrl with Count := acc.config.BufferSize,
                      Last := now - acc.config.FlushInterval * Second }
        { acc with control := mapSet acc.control key forced }
      | none => acc
    acc.FlushKey w now key) r

/-- The method `Receiver.Close`. -/
def Receiver.Close (r : Receiver) (w : WriterFn) (now : Int) : Except String Receiver :=
  let r := { r with running := false }
  r.closeKeys w now (r.control.map Prod.fst)

/-- The method `Receiver.Healthcheck`, with the answer of `writer.IsReady`:
the error returned, `none` for nil. -/
def Receiver.Healthcheck (r : Receiver) (writerReady : Bool) : Option String :=
  if r.running = false then some "receiver is not running"
  else if r.buffer.IsReady = false then some "buffer is not ready"
  else if writerReady = false then some "writer is not ready"
  else none

/-- A step of a run of the receiver. `recover` runs the oldest
`RecoveryWriteError` goroutine that was started and has not run; `worker` is
one turn of the worker goroutine of the buffer; `timer` one turn of the timer
goroutine of a key. -/
inductive Step where
  | write (record : Log)
  | flushKey (key : String)
  | flush
  | recover
  | close
  | worker
  | timer (key : String)

/-- A step with the reading of the clock and the behaviour of the writer
during the step. -/
structure Event where
  step : Step
  now : Int
  w : WriterFn

/-- The effect of one step. -/
def Receiver.step (env : Env) (r : Receiver) (e : Event) : Except String Receiver :=
  match e.step with
  | .write record => do
    let p ← r.Write env e.w e.now record
    pure p.1
  | .flushKey key => r.FlushKey e.w e.now key
  | .flush => r.Flush e.w e.now
  | .recover =>
    match r.pending with
    | [] => pure r
    | writerRet :: rest => Receiver.RecoveryWriteError env { r with pending := rest } e.w e.now writerRet
  | .close => r.Close e.w e.now
  | .worker => pure { r with buffer := r.buffer.worker }
  | .timer key => r.timerWake e.w e.now key

/-- A run: the steps one after the other. -/
def Receiver.run (env : Env) (r : Receiver) (es : List Event) : Except String Receiver :=
  es.foldlM (fun acc e => acc.step env e) r

/-- The receiver after a call of `FlushKey` that reaches the writer. -/
def Receiver.flushed (r : Receiver) (w : WriterFn) (now : Int) (key : String) : Receiver :=
  let ctrl : BufferControl := (mapGet r.control key).getD { Last := now, Count := 0, running := false }
  let data := r.buffer.Get key
  let writerRet := w key data
  let recovering := CheckWriterError writerRet && r.config.TryAutoRecover &&
    decide (r.recoveryCount < r.config.RecoveryAttempts)
  let call : WriteCall :=
    { key := key, data := data, reports := writerRet, recovering := recovering }
  { r with
    calls := r.calls ++ [call]
    pending := if recovering then r.pending ++ [writerRet] else r.pending
    buffer := { r.buffer with data := mapSet r.buffer.data key [] }
    control := mapSet (mapSet r.control key { ctrl with Count := 0 }) key
      { Last := now, Count := 0, running := false } }

/-- A record of the examples, told apart by its message. -/
def exampleRecord (msg : String) : Log :=
  { emptyLog with Message := msg, info := some ⟨"", "", "", "", "|||"⟩ }

/-- A writer that accepts every batch: one report without error. -/
def writerOk : WriterFn := fun _ data => [{ Error := none, Records := data }]

/-- A writer that fails every batch: one report with an error. -/
def writerFail : WriterFn := fun _ data => [{ Error := some "upload failed", Records := data }]

/-- A writer that fails the first two records of a batch and accepts the
others. -/
def writerFailTwo : WriterFn := fun _ data =>
  [{ Error := some "upload failed", Records := data.take 2 },
   { Error := none, Records := data.drop 2 }]

/-! ## Counting records over a run -/

/-- The number of records held by a map of partitions. -/
def countRecords (xs : List (String × List Log)) : Nat :=
  (xs.map (fun e => e.2.length)).sum

/-- The number of records the buffer holds: in the channel, in the data pool
and in the recovery pool. -/
def Mem.held (m : Mem) : Nat :=
  m.buff.length + countRecords m.data + countRecords m.recovery

/-- The number of records in the reports without error. -/
def okRecords (reports : List WriterReturn) : Nat :=
  (reports.map (fun item => if item.Error.isSome then 0 else item.Records.length)).sum

/-- The number of records in the reports with an error. -/
def failedRecords (reports : List WriterReturn) : Nat :=
  (reports.map (fun item => if item.Error.isSome then item.Records.length else 0)).sum

/-- The number of records in writer reports without error, over all calls. -/
def writtenOk (calls : List WriteCall) : Nat :=
  (calls.map (fun c => okRecords c.reports)).sum

/-- The number of records in reports with an error for which `FlushKey`
started no `RecoveryWriteError`. -/
def droppedFailed (calls : List WriteCall) : Nat :=
  (calls.map (fun c => if c.recovering then 0 else failedRecords c.reports)).sum

/-- The number of records in reports with an error that wait for a
`RecoveryWriteError` goroutine that was started and has not run. -/
def pendingFailed (pending : List (List WriterReturn)) : Nat :=
  (pending.map failedRecords).sum

/-- The number of `Write` steps of a run. -/
def accepted (es : List Event) : Nat :=
  (es.map (fun e => match e.step with
    | .write _ => 1
    | _ => 0)).sum

/-- The reports of the writer partition the batch, as section 4.C asks: they
hold as many records as the batch. -/
def Partitions (w : WriterFn) : Prop :=
  ∀ key data, okRecords (w key data) + failedRecords (w key data) = data.length

/-- The records the receiver accounts for: written without error, held by the
buffer, waiting for a recovery goroutine, or dropped after a failed write. -/
def Receiver.tally (r : Receiver) : Nat :=
  writtenOk r.calls + r.buffer.held + pendingFailed r.pending + droppedFailed r.calls

/-- The invariant of the runs: the recovery map has each key once, the DLQ is
empty, and the tally is `n`. -/
def Balanced (r : Receiver) (n : Nat) : Prop :=
  (r.buffer.recovery.map Prod.fst).Nodup ∧ r.buffer.dlq = [] ∧ r.tally = n

/-! ## Examples for the content hash and the buffer -/

/-- An environment for the examples of the content hash: `UseHMAC` is on, the
codec writes the message and then the hmac (the MsgPack library writes every
exported field that no tag excludes, and `HMAC` has no such tag), and the
digest is a stand-in for MD5 that gives different digests to different
encodings. -/
def hmacEnv : Env :=
  { exampleEnv with
    UseHMAC := true
    msgpMarshal := fun l => .ok ((l.Message.data ++ l.HMAC.data).map Char.toNat)
    GetMD5Sum := fun bytes => String.mk (bytes.map Char.ofNat ++ ['.']) }

/-- A sequence of calls of `Mem.Push` with non-nil records: the buffer after
the last call and the errors returned, or the panic of the first call that
panics. -/
def Mem.pushAll (m : Mem) : List (String × Log) → Except String (Mem × List (Option String))
  | [] => pure (m, [])
  | p :: ps => do
    let r ← m.Push p.1 (some p.2)
    let rest ← Mem.pushAll r.1 ps
    pure (rest.1, r.2 :: rest.2)

/-- The records of key `k` that wait in the channel, oldest first. -/
def Mem.queued (m : Mem) (k : String) : List Log :=
  (m.buff.filter (fun it => decide (it.key = k))).map (fun it => it.item)


/-! ## Examples for the field rules -/

/-- An environment whose ignore list and mask list both hold `time` and
`audit`. -/
def ignoreEnv : Env :=
  { exampleEnv with IgnoredFields := ["time", "audit"], MaskFields := ["time", "audit"] }


/-- An environment whose mask list holds `audit` and `message`. -/
def maskEnv : Env :=
  { exampleEnv with MaskFields := ["audit", "message"] }

/-! ## The recovery pool -/

/-- The records of the recovery partition of a key, `m.recovery[key]` (the nil
slice is the empty list). -/
def Mem.recovered (m : Mem) (key : String) : List Log :=
  (mapGet m.recovery key).getD []

/-- The calls of `PushRecovery` that the loops of `RecoveryWriteError` make for
a list of reports, in their order: for each report with an error, one call per
record, with the key `Key()` returns and the record as `Key()` leaves it. -/
def failedPushes (env : Env) : List WriterReturn → List (String × Log)
  | [] => []
  | item :: rest =>
    (match item.Error with
      | none => []
      | some _ => item.Records.map (fun rec => rec.Key env)) ++ failedPushes env rest

/-- The receiver of the recovery example right after a failed flush at 20 s:
`BufferSize = 3`, `FlushInterval = 10`, the three records of the key were
handed to the writer and the partition was cleared. -/
def afterFailedFlush : Receiver :=
  { NewReceiver ⟨3, 10, true, 1⟩ with
    buffer := { NewMem ⟨3, 10, true, 1⟩ with data := [("|||", [])] }
    control := [("|||", ⟨20000000000, 0, false⟩)]
    calls := [⟨"|||", [exampleRecord "r1", exampleRecord "r2", exampleRecord "r3"],
      writerFailTwo "|||" [exampleRecord "r1", exampleRecord "r2", exampleRecord "r3"], true⟩]
    timers := ["|||"] }

/-! ## The effect of one entry of the bag -/

/-- The columns of type `string` that `Decode` assigns. -/
inductive StrCol where
  | time | level | message | businessCapability | businessDomain | businessService
  | applicationService
  deriving DecidableEq, Repr

/-- The columns of type `*string` that `Decode` assigns. -/
inductive PtrCol where
  | correlationId | sessionId | messageId | personId | userId | deviceId | resourceType
  | cloudProvider | sourceId | httpResponse | errorCode | stackTrace | duration | region | az
  | transactionMessageReference | ttl | loggerName | threadName
  deriving DecidableEq, Repr

/-- The columns of type `*bool`. -/
inductive FlagCol where
  | audit | autoIndex
  deriving DecidableEq, Repr

/-- What an entry of the bag can resolve to: a scalar column, an entry of
`args`, an entry of `extra-fields`, the list `tags` or the list `trace-ip`. -/
inductive Target where
  | str (c : StrCol)
  | ptr (c : PtrCol)
  | flag (c : FlagCol)
  | arg (key : String)
  | extra (key : String)
  | tags
  | traceIP
  deriving DecidableEq, Repr

/-- The value of a `string` column. -/
def Log.str (l : Log) : StrCol → String
  | .time => l.Time
  | .level => l.Level
  | .message => l.Message
  | .businessCapability => l.BusinessCapability
  | .businessDomain => l.BusinessDomain
  | .businessService => l.BusinessService
  | .applicationService => l.ApplicationService

/-- The assignment to a `string` column. -/
def Log.setStr (l : Log) (c : StrCol) (s : String) : Log :=
  match c with
  | .time => { l with Time := s }
  | .level => { l with Level := s }
  | .message => { l with Message := s }
  | .businessCapability => { l with BusinessCapability := s }
  | .businessDomain => { l with BusinessDomain := s }
  | .businessService => { l with BusinessService := s }
  | .applicationService => { l with ApplicationService := s }

/-- The value of a `*string` column. -/
def Log.ptr (l : Log) : PtrCol → Option String
  | .correlationId => l.CorrelationId
  | .sessionId => l.SessionId
  | .messageId => l.MessageId
  | .personId => l.PersonId
  | .userId => l.UserId
  | .deviceId => l.DeviceId
  | .resourceType => l.ResourceType
  | .cloudProvider => l.CloudProvider
  | .sourceId => l.SourceId
  | .httpResponse => l.HTTPResponse
  | .errorCode => l.ErrorCode
  | .stackTrace => l.StackTrace
  | .duration => l.Duration
  | .region => l.Region
  | .az => l.AZ
  | .transactionMessageReference => l.TransactionMessageReference
  | .ttl => l.Ttl
  | .loggerName => l.LoggerName
  | .threadName => l.ThreadName

/-- The assignment to a `*string` column. -/
def Log.setPtr (l : Log) (c : PtrCol) (p : Option String) : Log :=
  match c with
  | .correlationId => { l with CorrelationId := p }
  | .sessionId => { l with SessionId := p }
  | .messageId => { l with MessageId := p }
  | .personId => { l with PersonId := p }
  | .userId => { l with UserId := p }
  | .deviceId => { l with DeviceId := p }
  | .resourceType => { l with ResourceType := p }
  | .cloudProvider => { l with CloudProvider := p }
  | .sourceId => { l with SourceId := p }
  | .httpResponse => { l with HTTPResponse := p }
  | .errorCode => { l with ErrorCode := p }
  | .stackTrace => { l with StackTrace := p }
  | .duration => { l with Duration := p }
  | .region => { l with Region := p }
  | .az => { l with AZ := p }
  | .transactionMessageReference => { l with TransactionMessageReference := p }
  | .ttl => { l with Ttl := p }
  | .loggerName => { l with LoggerName := p }
  | .threadName => { l with ThreadName := p }

/-- The value of a `*bool` column. -/
def Log.flag (l : Log) : FlagCol → Option Bool
  | .audit => l.Audit
  | .autoIndex => l.AutoIndex

/-- The assignment of a pointer to `b` to a `*bool` column. -/
def Log.setFlag (l : Log) (c : FlagCol) (b : Bool) : Log :=
  match c with
  | .audit => { l with Audit := some b }
  | .autoIndex => { l with AutoIndex := some b }

/-- The writes `m[k] = v` of a list, in its order. -/
def writeAll (m : List (String × String)) (ws : List (String × String)) :
    List (String × String) :=
  ws.foldl (fun acc e => mapSet acc e.1 e.2) m

/-- What the loop body of `Decode` does for one entry once its value has
passed the type assertions: nothing, an assignment to a scalar column, an
append to `trace-ip` or to `tags`, writes to `args`, the writes of the case
`details` (followed by its handling of `details-tags`), or a write to
`extra-fields`. -/
inductive Effect where
  | skip
  | setStr (c : StrCol) (s : String)
  | setPtr (c : PtrCol) (p : Option String)
  | setFlag (c : FlagCol) (b : Bool)
  | addTraceIP (xs : List String)
  | addTags (xs : List String)
  | setArgs (ws : List (String × String))
  | details (ws : List (String × String))
  | setExtra (key s : String)

/-- An effect carried out on a record whose maps are not nil. -/
def Effect.apply (eff : Effect) (l : Log) : Log :=
  match eff with
  | .skip => l
  | .setStr c s => l.setStr c s
  | .setPtr c p => l.setPtr c p
  | .setFlag c b => l.setFlag c b
  | .addTraceIP xs => { l with TraceIP := l.TraceIP ++ xs }
  | .addTags xs => { l with Tags := l.Tags ++ xs }
  | .setArgs ws => { l with Args := some (writeAll (l.Args.getD []) ws) }
  | .details ws =>
    let a := writeAll (l.Args.getD []) ws
    match mapGet a "details-tags" with
    | some value =>
      { l with Tags := appendNonEmpty l.Tags (Split value ','),
               Args := some (mapDelete a "details-tags") }
    | none => { l with Args := some a }
  | .setExtra key s => { l with ExtraFields := some (mapSet (l.ExtraFields.getD []) key s) }

/-- The write one iteration of the inner loop of `getMap` makes, if any. -/
def getMapEntryWrite (env : Env) (pfx : String) (argKey : String) (argVal : Value) :
    List (String × String) :=
  match argVal with
  | .str _ => [(makeKey env pfx argKey, fmtS argVal)]
  | .strList _ => []
  | .list xs => [(makeKey env pfx argKey, Join (appendNonEmpty [] (xs.map fmtS)) ",")]
  | .nil => []
  | _ => [(makeKey env pfx argKey, fmtS argVal)]

/-- The writes of the inner loop of `getMap` over a `map[string]interface{}`. -/
def getMapEntryWrites (env : Env) (pfx : String) :
    List (String × Value) → List (String × String)
  | [] => []
  | e :: es => getMapEntryWrite env pfx e.1 e.2 ++ getMapEntryWrites env pfx es

/-- The writes `getMap(prefix, v, src)` makes to `src`, in their order. -/
def getMapWrites (env : Env) (pfx : String) (v : Value) : List (String × String) :=
  match v with
  | .nil => []
  | .strMap m => m.map (fun e => (makeKey env pfx e.1, e.2))
  | .anyMap _ => []
  | .map m => getMapEntryWrites env pfx m
  | .strList xs => [(makeKey env pfx "value", Join xs ",")]
  | _ => [(makeKey env pfx "value", fmtS v)]

/-- The strings the case `trace-ip` appends. -/
def traceItems (v : Value) : List String :=
  match v with
  | .str s => if s.length > 0 then [s] else []
  | .strList xs => xs.filter (fun x => decide (x.length > 0))
  | .list xs => (xs.map fmtS).filter (fun x => decide (x.length > 0))
  | _ => [fmtS v]

/-- The strings the case `tags` appends. -/
def tagItems (v : Value) : List String :=
  match v with
  | .strList xs => xs.filter (fun x => decide (x.length > 0))
  | .list xs => (xs.map fmtS).filter (fun x => decide (x.length > 0))
  | _ => [fmtS v]

/-- The writes of the case `args`: the entries with a non-empty value. -/
def argWrites (v : Value) : List (String × String) :=
  match v with
  | .strMap m => m.filter (fun e => decide (e.2.length > 0))
  | .map m => (m.map (fun e => (e.1, fmtS e.2))).filter (fun e => decide (e.2.length > 0))
  | .anyMap m =>
    (m.map (fun e => (fmtS e.1, fmtS e.2))).filter (fun e => decide (e.2.length > 0))
  | _ => []

/-- The effect of the inner `switch filtered` of `Decode`. -/
def effectFiltered (env : Env) (filtered : String) (v : Value) : Effect :=
  match filtered with
  | "owner-squad" => .setArgs [("squad", fmtS v)]
  | "owner-sre" => .setArgs [("sre", fmtS v)]
  | "platform" => .setArgs [("platform", fmtS v)]
  | "service" => .setArgs [("service", fmtS v)]
  | "product" => .setArgs [("product", fmtS v)]
  | "fluent-tag" => .setArgs [("fluent-tag", fmtS v)]
  | "fluent-time" => .setArgs [("fluent-time", fmtS v)]
  | "env" => .skip
  | "enviroment" => .setArgs [("enviroment", fmtS v)]
  | "-container-type" => .setArgs [("container-type", fmtS v)]
  | "context" => .setArgs (getMapWrites env "ctx" v)
  | "trace" => .setArgs (getMapWrites env "trace" v)
  | "fields" => .setArgs (getMapWrites env "fields" v)
  | _ => .setExtra (makeKey env "" filtered) (fmtS v)

/-- The effect of the outer `switch key` of `Decode` on the normalised key and
the value after masking, or the panic of its type assertion. -/
def effectField (env : Env) (key : String) (v : Value) : Except String Effect :=
  match key with
  | "time" => (assertString v).map (Effect.setStr .time)
  | "timestamp" => (assertString v).map (Effect.setStr .time)
  | "when" => (assertString v).map (Effect.setStr .time)
  | "level" => (assertString v).map (Effect.setStr .level)
  | "lvl" => (assertString v).map (Effect.setStr .level)
  | "correlation-id" => .ok (.setPtr .correlationId (env.GetStringP v))
  | "session-id" => .ok (.setPtr .sessionId (env.GetStringP v))
  | "message-id" => .ok (.setPtr .messageId (env.GetStringP v))
  | "person-id" => .ok (.setPtr .personId (env.GetStringP v))
  | "user-id" => .ok (.setPtr .userId (env.GetStringP v))
  | "device-id" => .ok (.setPtr .deviceId (env.GetStringP v))
  | "message" => (assertString v).map (Effect.setStr .message)
  | "msg" => (assertString v).map (Effect.setStr .message)
  | "log" => (assertString v).map (Effect.setStr .message)
  | "business-capability" => (assertString v).map (Effect.setStr .businessCapability)
  | "business-domain" => (assertString v).map (Effect.setStr .businessDomain)
  | "business-service" => (assertString v).map (Effect.setStr .businessService)
  | "application-service" => (assertString v).map (Effect.setStr .applicationService)
  | "audit" => (assertBool v).map (Effect.setFlag .audit)
  | "resource-type" => .ok (.setPtr .resourceType (env.GetStringP v))
  | "cloud-provider" => .ok (.setPtr .cloudProvider (env.GetStringP v))
  | "source-id" => .ok (.setPtr .sourceId (env.GetStringP v))
  | "http-response" => .ok (.setPtr .httpResponse (env.GetStringP v))
  | "error-code" => .ok (.setPtr .errorCode (env.GetStringP v))
  | "error" => .ok (.setPtr .errorCode (env.GetStringP v))
  | "error-message" => .ok (.setPtr .errorCode (env.GetStringP v))
  | "error-msg" => .ok (.setPtr .errorCode (env.GetStringP v))
  | "stack-trace" => .ok (.setPtr .stackTrace (env.GetStringP v))
  | "duration" => .ok (.setPtr .duration (env.GetStringP v))
  | "elapsed" => .ok (.setPtr .duration (env.GetStringP v))
  | "elapsed-time" => .ok (.setPtr .duration (env.GetStringP v))
  | "ip" => .ok .skip
  | "trace-ip" => .ok (.addTraceIP (traceItems v))
  | "region" => .ok (.setPtr .region (env.GetStringP v))
  | "az" => .ok (.setPtr .az (env.GetStringP v))
  | "tags" => .ok (.addTags (tagItems v))
  | "args" => .ok (.setArgs (argWrites v))
  | "transaction-message-reference" =>
    .ok (.setPtr .transactionMessageReference (env.GetStringP v))
  | "ttl" => .ok (.setPtr .ttl (env.GetStringP v))
  | "auto-index" => (assertBool v).map (Effect.setFlag .autoIndex)
  | "logger-name" => .ok (.setPtr .loggerName (env.GetStringP v))
  | "thread-name" => .ok (.setPtr .threadName (env.GetStringP v))
  | "host" => .ok (.setArgs [("host", fmtV v)])
  | "hostname" => .ok (.setArgs [("host", fmtV v)])
  | "container-image" => .ok (.setArgs [("container-image", fmtS v)])
  | "vendor" => .ok (.setArgs [("vendor", fmtS v)])
  | "details" => .ok (.details (getMapWrites env "details" v))
  | _ => .ok (effectFiltered env (ReplaceAll key "tags-" "") v)

/-- The effect of the loop body of `Decode` for one entry of the bag, or the
panic of its type assertion. -/
def effectOf (env : Env) (k : String) (v : Value) : Except String Effect :=
  let key := normKey env k
  if key.length = 0 then .ok .skip
  else if env.IgnoredFields.contains key then .ok .skip
  else effectField env key (if env.MaskFields.contains key then Value.str "*" else v)

/-- The targets of an effect: the column assigned, the list appended to, the
keys of `args` or `extra-fields` written. The case `details` also reads and
deletes the entry `details-tags` of `args`, and appends to `tags` when its own
writes set that entry. -/
def Effect.targets : Effect → List Target
  | .skip => []
  | .setStr c _ => [.str c]
  | .setPtr c _ => [.ptr c]
  | .setFlag c _ => [.flag c]
  | .addTraceIP _ => [.traceIP]
  | .addTags _ => [.tags]
  | .setArgs ws => ws.map (fun e => Target.arg e.1)
  | .details ws =>
    Target.arg "details-tags" :: ws.map (fun e => Target.arg e.1) ++
      (if (ws.map Prod.fst).contains "details-tags" then [Target.tags] else [])
  | .setExtra key _ => [.extra key]

/-- The effect of an entry of the bag (`skip` for an entry at which `Decode`
panics). -/
def entryEffect (env : Env) (e : String × Value) : Effect :=
  match effectOf env e.1 e.2 with
  | .ok eff => eff
  | .error _ => .skip

/-- The targets an entry of the bag resolves to (none for an entry at which
`Decode` panics). -/
def targets (env : Env) (e : String × Value) : List Target :=
  (entryEffect env e).targets

/-- No two entries of the bag resolve to the same target. -/
def DistinctTargets (env : Env) (bag : List (String × Value)) : Prop :=
  bag.Pairwise (fun a b => ∀ t ∈ targets env a, t ∉ targets env b)

/-- A record whose maps `args` and `extra-fields` are not nil, as every record
that `NewLog` works on. -/
def Log.Ready (l : Log) : Prop :=
  (∃ a, l.Args = some a) ∧ (∃ x, l.ExtraFields = some x)

/-- The effects of a list carried out one after the other. -/
def applyAll (l : Log) (effs : List Effect) : Log :=
  effs.foldl (fun acc eff => eff.apply acc) l

/-- The receivers reachable from `NewReceiver` by calls of `Write`, `FlushKey`,
`Flush`, `RecoveryWriteError` (with any reports) and `Close` that run one at a
time, each with any writer and any reading of the clock, and by turns of the
worker goroutine of the buffer and of the timer goroutines. The step `started`
takes the `RecoveryWriteError` goroutine that runs next off the list of the
goroutines started. -/
inductive Reachable (env : Env) (config : Config) : Receiver → Prop where
  | init : Reachable env config (NewReceiver config)
  | write (r r' : Receiver) (w : WriterFn) (now : Int) (record : Log) (err : Option String) :
      Reachable env config r → r.Write env w now record = .ok (r', err) →
      Reachable env config r'
  | flushKey (r r' : Receiver) (w : WriterFn) (now : Int) (key : String) :
      Reachable env config r → r.FlushKey w now key = .ok r' → Reachable env config r'
  | flush (r r' : Receiver) (w : WriterFn) (now : Int) :
      Reachable env config r → r.Flush w now = .ok r' → Reachable env config r'
  | recovery (r r' : Receiver) (w : WriterFn) (now : Int) (writerRet : List WriterReturn) :
      Reachable env config r → Receiver.RecoveryWriteError env r w now writerRet = .ok r' →
      Reachable env config r'
  | close (r r' : Receiver) (w : WriterFn) (now : Int) :
      Reachable env config r → r.Close w now = .ok r' → Reachable env config r'
  | worker (r : Receiver) :
      Reachable env config r → Reachable env config { r with buffer := r.buffer.worker }
  | timer (r r' : Receiver) (w : WriterFn) (now : Int) (key : String) :
      Reachable env config r → r.timerWake w now key = .ok r' → Reachable env config r'
  | started (r : Receiver) (writerRet : List WriterReturn) (rest : List (List WriterReturn)) :
      Reachable env config r → r.pending = writerRet :: rest →
      Reachable env config { r with pending := rest }

/-- The receiver on which `RecoveryWriteError` calls `Flush()` when it resends:
the failed records are pushed and moved back to the data pool, and the recovery
counter is incremented. -/
def Receiver.resending (env : Env) (r : Receiver) (writerRet : List WriterReturn) : Receiver :=
  { r with
    buffer := (Receiver.pushFailed env r.buffer writerRet).1.RecoveryData
    recoveryCount := r.recoveryCount + 1 }

/-! ## Theorems -/

/-! ### Frame lemmas for the helpers of `Decode` -/

theorem setArg_frame {l l' : Log} {k s : String} (h : l.setArg k s = .ok l') :
    l' = { l with Args := l'.Args } := by
  unfold Log.setArg StrMap.assign at h
  cases hA : l.Args <;> simp [hA, bind, Except.bind, pure, Except.pure] at h
  subst h; rfl

theorem setExtra_frame {l l' : Log} {k s : String} (h : l.setExtra k s = .ok l') :
    l' = { l with ExtraFields := l'.ExtraFields } := by
  unfold Log.setExtra StrMap.assign at h
  cases hA : l.ExtraFields <;> simp [hA, bind, Except.bind, pure, Except.pure] at h
  subst h; rfl

theorem setArgs_frame {es : List (String × String)} {l l' : Log} (h : l.setArgs es = .ok l') :
    l' = { l with Args := l'.Args } := by
  induction es generalizing l with
  | nil =>
    simp [Log.setArgs, pure, Except.pure] at h
    subst h; rfl
  | cons e es ih =>
    simp only [Log.setArgs, List.foldlM_cons, bind, Except.bind] at h
    split at h
    · cases h
    · rename_i l1 h1
      have h2 := ih h
      split at h1
      · have h3 := setArg_frame h1
        rw [h2, h3]
      · simp [pure, Except.pure] at h1
        subst h1; exact h2

theorem decodeArgs_frame {l l' : Log} {v : Value} (h : decodeArgs l v = .ok l') :
    l' = { l with Args := l'.Args } := by
  unfold decodeArgs at h
  split at h
  · exact setArgs_frame h
  · exact setArgs_frame h
  · exact setArgs_frame h
  · simp [pure, Except.pure] at h
    subst h; rfl

theorem decodeTraceIP_frame (l : Log) (v : Value) :
    decodeTraceIP l v = { l with TraceIP := (decodeTraceIP l v).TraceIP } := by
  unfold decodeTraceIP
  split
  · split <;> rfl
  · rfl
  · rfl
  · rfl

theorem decodeTags_frame (l : Log) (v : Value) :
    decodeTags l v = { l with Tags := (decodeTags l v).Tags } := by
  unfold decodeTags
  split <;> rfl

theorem decodeDetails_frame {env : Env} (l : Log) (v : Value) :
    decodeDetails env l v =
      { l with Args := (decodeDetails env l v).Args, Tags := (decodeDetails env l v).Tags } := by
  unfold decodeDetails
  simp only
  split <;> rfl

theorem decodeFiltered_frame {env : Env} {l l' : Log} {f : String} {v : Value}
    (h : decodeFiltered env l f v = .ok l') :
    l' = { l with Args := l'.Args, ExtraFields := l'.ExtraFields } := by
  unfold decodeFiltered at h
  split at h
  all_goals first
    | (have h2 := setArg_frame h; rw [h2])
    | (have h2 := setExtra_frame h; rw [h2])
    | (simp only [pure, Except.pure, Except.ok.injEq] at h; subst h; rfl)
theorem decodeField_default {env : Env} {l : Log} {key : String} {v : Value}
    (h : outerKeys.contains key = false) :
    decodeField env l key v = decodeFiltered env l (ReplaceAll key "tags-" "") v := by
  unfold decodeField
  split
  all_goals first
    | rfl
    | (exfalso; revert h; decide)

theorem decodeFiltered_default {env : Env} {l : Log} {f : String} {v : Value}
    (h : innerKeys.contains f = false) :
    decodeFiltered env l f v = l.setExtra (makeKey env "" f) (fmtS v) := by
  unfold decodeFiltered
  split
  all_goals first
    | rfl
    | (exfalso; revert h; decide)

theorem decodeFiltered_inner {env : Env} {l l' : Log} {f : String} {v : Value}
    (hf : innerKeys.contains f = true) (h : decodeFiltered env l f v = .ok l') :
    l'.ExtraFields = l.ExtraFields := by
  unfold decodeFiltered at h
  split at h
  all_goals first
    | (have h2 := setArg_frame h; rw [h2])
    | (simp only [pure, Except.pure, Except.ok.injEq] at h; subst h; rfl)
    | skip
  rename_i h1 h2 h3 h4 h5 h6 h7 h8 h9 h10 h11 h12 h13
  simp [innerKeys] at hf
  rcases hf with hf | hf | hf | hf | hf | hf | hf | hf | hf | hf | hf | hf | hf <;> simp_all

theorem decodeField_frame {env : Env} {l l' : Log} {key : String} {v : Value}
    (h : decodeField env l key v = .ok l') :
    (key ∉ ["time", "timestamp", "when"] → l'.Time = l.Time) ∧
    (key ∉ ["level", "lvl"] → l'.Level = l.Level) ∧
    (key ∉ ["message", "msg", "log"] → l'.Message = l.Message) ∧
    (outerKeys.contains key = true → l'.ExtraFields = l.ExtraFields) := by
  unfold decodeField at h
  split at h
  all_goals first
    | (simp only [bind, Except.bind, pure, Except.pure] at h
       split at h
       · cases h
       · cases h; simp)
    | (simp only [pure, Except.pure, Except.ok.injEq] at h; subst h
       first
         | (rw [decodeTraceIP_frame]; simp)
         | (rw [decodeTags_frame]; simp)
         | (rw [decodeDetails_frame]; simp))
    | (simp only [pure, Except.pure, Except.ok.injEq] at h; subst h; simp)
    | (have h2 := setArg_frame h; rw [h2]; simp)
    | (have h2 := decodeArgs_frame h; rw [h2]; simp)
    | skip
  have h2 := decodeFiltered_frame h
  refine ⟨fun _ => ?_, fun _ => ?_, fun _ => ?_, fun hk => ?_⟩
  · rw [h2]
  · rw [h2]
  · rw [h2]
  · exfalso
    simp [outerKeys] at hk
    rcases hk with hk | hk | hk | hk | hk | hk | hk | hk | hk | hk | hk | hk | hk | hk | hk | hk | hk | hk | hk | hk | hk | hk | hk | hk | hk | hk | hk | hk | hk | hk | hk | hk | hk | hk | hk | hk | hk | hk | hk | hk | hk | hk | hk | hk | hk | hk | hk <;> simp_all

/-! ### The loop of `Decode` -/

theorem decodeLoop_nil (env : Env) (l : Log) : decodeLoop env l [] = .ok l := rfl

theorem decodeLoop_cons (env : Env) (l : Log) (e : String × Value) (es : List (String × Value)) :
    decodeLoop env l (e :: es) =
      (decodeEntry env l e.1 e.2 >>= fun l1 => decodeLoop env l1 es) := by
  simp [decodeLoop, List.foldlM_cons]

theorem decodeLoop_append (env : Env) (l : Log) (as bs : List (String × Value)) :
    decodeLoop env l (as ++ bs) = (decodeLoop env l as >>= fun l1 => decodeLoop env l1 bs) := by
  simp [decodeLoop, List.foldlM_append]

theorem except_bind_ok {α β : Type} {x : Except String α} {f : α → Except String β} {b : β}
    (h : (x >>= f) = .ok b) : ∃ a, x = .ok a ∧ f a = .ok b := by
  match x, h with
  | .ok a, h => exact ⟨a, rfl, h⟩

theorem decodeLoop_invariant (env : Env) (P : Log → Prop) {data : List (String × Value)}
    (hstep : ∀ e ∈ data, ∀ l l', P l → decodeEntry env l e.1 e.2 = .ok l' → P l')
    {l l' : Log} (h0 : P l) (h : decodeLoop env l data = .ok l') : P l' := by
  induction data generalizing l with
  | nil =>
    rw [decodeLoop_nil] at h
    cases h; exact h0
  | cons e es ih =>
    rw [decodeLoop_cons] at h
    obtain ⟨l1, h1, h2⟩ := except_bind_ok h
    exact ih (fun e' he' => hstep e' (List.mem_cons_of_mem _ he'))
      (hstep e (List.mem_cons_self _ _) l l1 h0 h1) h2

theorem UpdateInfo_frame (env : Env) (l : Log) :
    l.UpdateInfo env = { l with info := (l.UpdateInfo env).info, HMAC := (l.UpdateInfo env).HMAC } := by
  unfold Log.UpdateInfo
  simp only
  split <;> rfl

theorem NewLog_split {env : Env} {pre post : List (String × Value)} {e : String × Value}
    {l r : Log} (h : l.Decode env (pre ++ e :: post) = .ok r) :
    ∃ l1 l2 l3, decodeLoop env l pre = .ok l1 ∧ decodeEntry env l1 e.1 e.2 = .ok l2 ∧
      decodeLoop env l2 post = .ok l3 ∧ r = l3.UpdateInfo env := by
  unfold Log.Decode at h
  obtain ⟨l3, h3, hr⟩ := except_bind_ok h
  rw [decodeLoop_append] at h3
  obtain ⟨l1, h1, h4⟩ := except_bind_ok h3
  rw [decodeLoop_cons] at h4
  obtain ⟨l2, h2, h5⟩ := except_bind_ok h4
  simp only [pure, Except.pure, Except.ok.injEq] at hr
  exact ⟨l1, l2, l3, h1, h2, h5, hr.symm⟩

theorem decodeEntry_frame {env : Env} {l l' : Log} {k : String} {v : Value}
    (h : decodeEntry env l k v = .ok l') :
    (normKey env k ∉ ["time", "timestamp", "when"] → l'.Time = l.Time) ∧
    (normKey env k ∉ ["level", "lvl"] → l'.Level = l.Level) ∧
    (normKey env k ∉ ["message", "msg", "log"] → l'.Message = l.Message) := by
  unfold decodeEntry at h
  simp only at h
  split at h
  · simp only [pure, Except.pure, Except.ok.injEq] at h; subst h; simp
  · split at h
    · simp only [pure, Except.pure, Except.ok.injEq] at h; subst h; simp
    · have := decodeField_frame h
      exact ⟨this.1, this.2.1, this.2.2.1⟩

theorem decodeEntry_alias (env : Env) (l : Log) {k : String} (s : String)
    (hign : env.IgnoredFields.contains (normKey env k) = false)
    (hmask : env.MaskFields.contains (normKey env k) = false) :
    (normKey env k ∈ ["time", "timestamp", "when"] →
      decodeEntry env l k (.str s) = .ok { l with Time := s }) ∧
    (normKey env k ∈ ["level", "lvl"] →
      decodeEntry env l k (.str s) = .ok { l with Level := s }) ∧
    (normKey env k ∈ ["message", "msg", "log"] →
      decodeEntry env l k (.str s) = .ok { l with Message := s }) := by
  have hlen : ∀ s : String, normKey env k = s → s.length ≠ 0 → ¬ ((normKey env k).length = 0) := by
    intro s hs h0; rw [hs]; exact h0
  refine ⟨fun hk => ?_, fun hk => ?_, fun hk => ?_⟩
  · simp only [List.mem_cons, List.mem_singleton, List.not_mem_nil, or_false] at hk
    unfold decodeEntry
    rcases hk with hk | hk | hk <;>
    · simp only [hign, hmask, hlen _ hk (by decide)]
      rw [hk]; rfl
  · simp only [List.mem_cons, List.mem_singleton, List.not_mem_nil, or_false] at hk
    unfold decodeEntry
    rcases hk with hk | hk <;>
    · simp only [hign, hmask, hlen _ hk (by decide)]
      rw [hk]; rfl
  · simp only [List.mem_cons, List.mem_singleton, List.not_mem_nil, or_false] at hk
    unfold decodeEntry
    rcases hk with hk | hk | hk <;>
    · simp only [hign, hmask, hlen _ hk (by decide)]
      rw [hk]; rfl

theorem UpdateInfo_cols (env : Env) (l : Log) :
    (l.UpdateInfo env).Time = l.Time ∧ (l.UpdateInfo env).Level = l.Level ∧
    (l.UpdateInfo env).Message = l.Message ∧ (l.UpdateInfo env).ExtraFields = l.ExtraFields := by
  rw [UpdateInfo_frame]
  exact ⟨rfl, rfl, rfl, rfl⟩

/-! ### C2: alias collapse -/

/-- C2, as stated, fails on the code. Of two keys of one alias set the one
visited last is stored: the bag with `msg = "hello"` and then `log = "bye"`
gives `message = "bye"`. A key on the mask list stores `"*"`: with `message`
masked, `message = "secret"` gives `message = "*"`. A key on the ignore list
stores nothing: with `time` ignored, the column `time` stays empty. -/
theorem alias_collapse_counterexample :
    (∃ r, NewLog exampleEnv [("msg", Value.str "hello"), ("log", Value.str "bye")] = .ok r ∧
      r.Message = "bye" ∧ r.Message ≠ "hello") ∧
    (∃ r, NewLog maskEnv [("message", Value.str "secret")] = .ok r ∧
      r.Message = "*" ∧ r.Message ≠ "secret") ∧
    (∃ r, NewLog ignoreEnv [("time", Value.str "2024-01-01T00:00:00Z")] = .ok r ∧
      r.Time = "" ∧ r.Time ≠ "2024-01-01T00:00:00Z") := by
  refine ⟨⟨_, rfl, ?_, ?_⟩, ⟨_, rfl, ?_, ?_⟩, ⟨_, rfl, ?_, ?_⟩⟩ <;> decide

/-- C2, amended. `NewLog` works on the normalised key of every entry (every
rune lowered by `strings.ToLower`, underscores replaced by hyphens). For an
entry whose normalised key is neither ignored nor masked and whose value is a
string `s`: if the key is one of `time`, `timestamp`, `when` (resp. `level`,
`lvl`; resp. `message`, `msg`, `log`) and no entry visited later has a key of
the same alias set, the record built has `Time = s` (resp. `Level = s`,
`Message = s`); and decoding that entry into any record succeeds and leaves
`extra-fields` as it was. -/
theorem alias_collapse (env : Env) (pre post : List (String × Value)) (k s : String) (r : Log)
    (hign : env.IgnoredFields.contains (normKey env k) = false)
    (hmask : env.MaskFields.contains (normKey env k) = false)
    (hr : NewLog env (pre ++ (k, Value.str s) :: post) = .ok r) :
    (normKey env k ∈ ["time", "timestamp", "when"] →
      (∀ e ∈ post, normKey env e.1 ∉ ["time", "timestamp", "when"]) → r.Time = s) ∧
    (normKey env k ∈ ["level", "lvl"] →
      (∀ e ∈ post, normKey env e.1 ∉ ["level", "lvl"]) → r.Level = s) ∧
    (normKey env k ∈ ["message", "msg", "log"] →
      (∀ e ∈ post, normKey env e.1 ∉ ["message", "msg", "log"]) → r.Message = s) ∧
    (normKey env k ∈ ["time", "timestamp", "when", "level", "lvl", "message", "msg", "log"] →
      ∀ l : Log, ∃ l', decodeEntry env l k (Value.str s) = .ok l' ∧
        l'.ExtraFields = l.ExtraFields) := by
  obtain ⟨l1, l2, l3, _, h2, h3, hr'⟩ := NewLog_split hr
  have hal := decodeEntry_alias env l1 s hign hmask
  have hcols := UpdateInfo_cols env l3
  refine ⟨fun hk hpost => ?_, fun hk hpost => ?_, fun hk hpost => ?_, fun hk l => ?_⟩
  · rw [hal.1 hk] at h2
    cases h2
    have := decodeLoop_invariant env (fun l => l.Time = s)
      (fun e he l l' hl hs => ((decodeEntry_frame hs).1 (hpost e he)).trans hl) rfl h3
    rw [hr', hcols.1]; exact this
  · rw [hal.2.1 hk] at h2
    cases h2
    have := decodeLoop_invariant env (fun l => l.Level = s)
      (fun e he l l' hl hs => ((decodeEntry_frame hs).2.1 (hpost e he)).trans hl) rfl h3
    rw [hr', hcols.2.1]; exact this
  · rw [hal.2.2 hk] at h2
    cases h2
    have := decodeLoop_invariant env (fun l => l.Message = s)
      (fun e he l l' hl hs => ((decodeEntry_frame hs).2.2 (hpost e he)).trans hl) rfl h3
    rw [hr', hcols.2.2.1]; exact this
  · have hl := decodeEntry_alias env l s hign hmask
    simp only [List.mem_cons, List.mem_singleton, List.not_mem_nil, or_false] at hk
    rcases hk with hk | hk | hk | hk | hk | hk | hk | hk
    · exact ⟨_, hl.1 (by simp [hk]), rfl⟩
    · exact ⟨_, hl.1 (by simp [hk]), rfl⟩
    · exact ⟨_, hl.1 (by simp [hk]), rfl⟩
    · exact ⟨_, hl.2.1 (by simp [hk]), rfl⟩
    · exact ⟨_, hl.2.1 (by simp [hk]), rfl⟩
    · exact ⟨_, hl.2.2 (by simp [hk]), rfl⟩
    · exact ⟨_, hl.2.2 (by simp [hk]), rfl⟩
    · exact ⟨_, hl.2.2 (by simp [hk]), rfl⟩

/-- The alias example of the specification, in each of the six orders in
which the three entries can be visited. -/
theorem alias_collapse_example :
    [[("MSG", Value.str "hello"), ("LVL", Value.str "error"),
        ("TIMESTAMP", Value.str "2024-01-01T00:00:00Z")],
     [("MSG", Value.str "hello"), ("TIMESTAMP", Value.str "2024-01-01T00:00:00Z"),
        ("LVL", Value.str "error")],
     [("LVL", Value.str "error"), ("MSG", Value.str "hello"),
        ("TIMESTAMP", Value.str "2024-01-01T00:00:00Z")],
     [("LVL", Value.str "error"), ("TIMESTAMP", Value.str "2024-01-01T00:00:00Z"),
        ("MSG", Value.str "hello")],
     [("TIMESTAMP", Value.str "2024-01-01T00:00:00Z"), ("MSG", Value.str "hello"),
        ("LVL", Value.str "error")],
     [("TIMESTAMP", Value.str "2024-01-01T00:00:00Z"), ("LVL", Value.str "error"),
        ("MSG", Value.str "hello")]].map (NewLog exampleEnv) =
    List.replicate 6 (.ok
      { emptyLog with
        Message := "hello", Level := "error", Time := "2024-01-01T00:00:00Z",
        ExtraFields := some [], info := some ⟨"", "", "", "", "|||"⟩ }) := by
  decide

/-- Witness of `alias_collapse`: the entry `MSG` of the example bag. -/
theorem alias_collapse_witness :
    ∃ r, NewLog exampleEnv [("MSG", Value.str "hello"), ("LVL", Value.str "error"),
        ("TIMESTAMP", Value.str "2024-01-01T00:00:00Z")] = .ok r ∧
      r.Message = "hello" ∧ r.ExtraFields = some [] := by
  have h : NewLog exampleEnv ([] ++ ("MSG", Value.str "hello") :: [("LVL", Value.str "error"),
      ("TIMESTAMP", Value.str "2024-01-01T00:00:00Z")]) = .ok
      { emptyLog with Message := "hello", Level := "error", Time := "2024-01-01T00:00:00Z",
                      info := some ⟨"", "", "", "", "|||"⟩ } := by decide
  refine ⟨_, h, ?_, rfl⟩
  exact (alias_collapse exampleEnv [] _ "MSG" "hello" _ (by decide) (by decide) h).2.2.1
    (by decide) (by decide)

/-! ### C1: spill-over into `extra-fields` -/

theorem mapGet_mapSet {β : Type} (m : List (String × β)) (k k' : String) (v : β) :
    mapGet (mapSet m k v) k' = if k = k' then some v else mapGet m k' := by
  induction m with
  | nil => simp [mapSet, mapGet]
  | cons e m ih =>
    obtain ⟨a, b⟩ := e
    by_cases hak : a = k
    · subst hak
      by_cases h : a = k' <;> simp [mapSet, mapGet, h]
    · by_cases hak' : a = k'
      · subst hak'
        have : ¬ k = a := fun h => hak h.symm
        simp [mapSet, mapGet, hak, this]
      · simp [mapSet, mapGet, hak, hak', ih]

theorem setExtra_get {l l' : Log} {k s : String} (h : l.setExtra k s = .ok l') (t : String) :
    l'.ExtraFields.get t = if k = t then some s else l.ExtraFields.get t := by
  unfold Log.setExtra StrMap.assign at h
  cases hA : l.ExtraFields with
  | none => simp [hA, bind, Except.bind] at h
  | some es =>
    simp [hA, bind, Except.bind, pure, Except.pure] at h
    subst h
    simp [StrMap.get, mapGet_mapSet]

theorem extraTarget_some {env : Env} {k t : String} (ht : extraTarget env k = some t) :
    ¬ (normKey env k).length = 0 ∧ env.IgnoredFields.contains (normKey env k) = false ∧
    outerKeys.contains (normKey env k) = false ∧
    innerKeys.contains (ReplaceAll (normKey env k) "tags-" "") = false ∧
    t = makeKey env "" (ReplaceAll (normKey env k) "tags-" "") := by
  unfold extraTarget at ht
  simp only at ht
  split at ht
  · cases ht
  · split at ht
    · cases ht
    · split at ht
      · cases ht
      · split at ht
        · cases ht
        · rename_i h1 h2 h3 h4
          simp only [Option.some.injEq] at ht
          simp only [Bool.not_eq_true] at h2 h3 h4
          exact ⟨h1, h2, h3, h4, ht.symm⟩

theorem decodeEntry_spill {env : Env} (l : Log) {k t : String} (v : Value)
    (ht : extraTarget env k = some t) :
    decodeEntry env l k v = l.setExtra t (fmtS (maskedValue env k v)) := by
  obtain ⟨h1, h2, h3, h4, h5⟩ := extraTarget_some ht
  unfold decodeEntry
  simp only [h1, h2, if_false, Bool.false_eq_true]
  rw [decodeField_default h3, decodeFiltered_default h4, h5]
  rfl

theorem decodeEntry_extra_frame {env : Env} {l l' : Log} {k t : String} {v : Value}
    (ht : extraTarget env k ≠ some t) (h : decodeEntry env l k v = .ok l') :
    l'.ExtraFields.get t = l.ExtraFields.get t := by
  unfold decodeEntry at h
  simp only at h
  split at h
  · simp only [pure, Except.pure, Except.ok.injEq] at h; subst h; rfl
  · rename_i h1
    split at h
    · simp only [pure, Except.pure, Except.ok.injEq] at h; subst h; rfl
    · rename_i h2
      simp only [Bool.not_eq_true] at h2
      cases h3 : outerKeys.contains (normKey env k) with
      | true => rw [(decodeField_frame h).2.2.2 h3]
      | false =>
        rw [decodeField_default h3] at h
        cases h4 : innerKeys.contains (ReplaceAll (normKey env k) "tags-" "") with
        | true => rw [decodeFiltered_inner h4 h]
        | false =>
          rw [decodeFiltered_default h4] at h
          have hne : makeKey env "" (ReplaceAll (normKey env k) "tags-" "") ≠ t := by
            intro heq
            apply ht
            unfold extraTarget
            simp only [h1, h2, h3, h4, if_false, Bool.false_eq_true, heq]
          rw [setExtra_get h t, if_neg hne]

/-- The entry of `extra-fields` written for an entry of the bag that reaches the
default case of both switches, when no entry visited later is written to the
same key of `extra-fields`. -/
theorem spill_entry {env : Env} {pre post : List (String × Value)} {k t : String} {v : Value}
    {l r : Log} (ht : extraTarget env k = some t)
    (hpost : ∀ e ∈ post, extraTarget env e.1 ≠ some t)
    (hr : l.Decode env (pre ++ (k, v) :: post) = .ok r) :
    r.ExtraFields.get t = some (fmtS (maskedValue env k v)) := by
  obtain ⟨l1, l2, l3, _, h2, h3, hr'⟩ := NewLog_split hr
  rw [decodeEntry_spill l1 v ht] at h2
  have h4 : l2.ExtraFields.get t = some (fmtS (maskedValue env k v)) := by
    rw [setExtra_get h2 t, if_pos rfl]
  have := decodeLoop_invariant env
    (fun l => l.ExtraFields.get t = some (fmtS (maskedValue env k v)))
    (fun e he l l' hl hs => (decodeEntry_extra_frame (hpost e he) hs).trans hl) h4 h3
  rw [hr', (UpdateInfo_cols env l3).2.2.2]; exact this

theorem toLower_idem (c : Char) : c.toLower.toLower = c.toLower := by
  by_cases h : c.toNat ≥ 65 ∧ c.toNat ≤ 90
  · have h1 : c.toLower = Char.ofNat (c.toNat + 32) := by
      unfold Char.toLower; simp only [h, and_self, if_true]
    rw [h1]
    obtain ⟨ha, hb⟩ := h
    generalize c.toNat = n at ha hb
    interval_cases n <;> rfl
  · have h1 : c.toLower = c := by
      unfold Char.toLower; simp only [h, if_false]
    rw [h1, h1]

theorem toLower_ascii (c : Char) (hc : c.toNat ≤ 127) : c.toLower.toNat ≤ 127 := by
  by_cases h : c.toNat ≥ 65 ∧ c.toNat ≤ 90
  · have h1 : c.toLower = Char.ofNat (c.toNat + 32) := by
      unfold Char.toLower; simp only [h, and_self, if_true]
    rw [h1]
    obtain ⟨ha, hb⟩ := h
    generalize c.toNat = n at ha hb
    interval_cases n <;> decide
  · have h1 : c.toLower = c := by
      unfold Char.toLower; simp only [h, if_false]
    rw [h1]; exact hc

theorem unicodeToLower_ascii (env : Env) (c : Char) (hc : c.toNat ≤ 127) :
    unicodeToLower env c = c.toLower := by
  unfold unicodeToLower
  rw [if_pos hc]

theorem replaceAllGo_underscore (cs : List Char) :
    replaceAllGo ['_'] ['-'] 0 cs = cs.map (fun c => if c = '_' then '-' else c) := by
  induction cs with
  | nil => rfl
  | cons c cs ih =>
    by_cases h : c = '_'
    · subst h
      simp [replaceAllGo, List.isPrefixOf, ih]
    · have h' : ¬ '_' = c := fun e => h e.symm
      simp [replaceAllGo, List.isPrefixOf, ih, h, h']

theorem replaceAllGo_erase_mem (old : List Char) (n : Nat) (cs : List Char) (c : Char)
    (h : c ∈ replaceAllGo old [] n cs) : c ∈ cs := by
  induction cs generalizing n with
  | nil => simp [replaceAllGo] at h
  | cons d ds ih =>
    cases n with
    | succ n =>
      simp only [replaceAllGo] at h
      exact List.mem_cons_of_mem _ (ih _ h)
    | zero =>
      simp only [replaceAllGo] at h
      split at h
      · simp only [List.nil_append] at h
        exact List.mem_cons_of_mem _ (ih _ h)
      · rcases List.mem_cons.1 h with h | h
        · exact h ▸ List.mem_cons_self _ _
        · exact List.mem_cons_of_mem _ (ih _ h)

theorem normKey_data (env : Env) (k : String) :
    (normKey env k).data =
      (k.data.map (unicodeToLower env)).map (fun c => if c = '_' then '-' else c) := by
  show replaceAllGo ['_'] ['-'] 0 (k.data.map (unicodeToLower env)) = _
  exact replaceAllGo_underscore _

theorem normKey_clean (env : Env) (k : String) (hk : ∀ c ∈ k.data, c.toNat ≤ 127) :
    Clean (normKey env k).data := by
  intro c hc
  rw [normKey_data] at hc
  simp only [List.map_map, List.mem_map, Function.comp] at hc
  obtain ⟨d, hd0, hd⟩ := hc
  rw [unicodeToLower_ascii env d (hk d hd0)] at hd
  by_cases h : d.toLower = '_'
  · simp only [h, if_true] at hd
    subst hd
    exact ⟨by decide, by decide, by decide⟩
  · simp only [h, if_false] at hd
    subst hd
    exact ⟨toLower_ascii d (hk d hd0), toLower_idem d, h⟩

theorem normKey_of_clean (env : Env) (s : String) (h : Clean s.data) : normKey env s = s := by
  have : (normKey env s).data = s.data := by
    rw [normKey_data, List.map_map]
    conv => rhs; rw [← List.map_id s.data]
    apply List.map_congr_left
    intro c hc
    obtain ⟨h0, h1, h2⟩ := h c hc
    simp [Function.comp, unicodeToLower_ascii env c h0, h1, h2]
  exact String.ext this

theorem normKey_lit (env : Env) (s : String)
    (h : ∀ c ∈ s.data, c.toNat ≤ 127 ∧ c.toLower = c ∧ c ≠ '_') : normKey env s = s :=
  normKey_of_clean env s h

theorem filtered_clean (env : Env) (k : String) (hk : ∀ c ∈ k.data, c.toNat ≤ 127) :
    Clean (ReplaceAll (normKey env k) "tags-" "").data := by
  intro c hc
  exact normKey_clean env k hk c (replaceAllGo_erase_mem _ _ _ _ hc)

theorem makeKey_normKey (env : Env) (s : String) : makeKey env "" s = normKey env s := by
  unfold makeKey normKey
  simp

theorem makeKey_filtered (env : Env) (k : String) (hk : ∀ c ∈ k.data, c.toNat ≤ 127) :
    makeKey env "" (ReplaceAll (normKey env k) "tags-" "") =
      ReplaceAll (normKey env k) "tags-" "" := by
  rw [makeKey_normKey]
  exact normKey_of_clean env _ (filtered_clean env k hk)

/-- C1, as stated, fails on the code. With empty ignore and mask lists: the
bag of the specification, `foo = 1` and `bar = "x"`, gives
`extra-fields["foo"] = "%!s(int=1)"`, not `"1"`; the unknown key `tags-foo` is
written to `extra-fields["foo"]` and nothing is written under `tags-foo`; of
the two unknown keys `Foo` and `foo` the one visited first leaves no entry. -/
theorem spill_over_counterexample :
    (∃ r, NewLog exampleEnv [("foo", Value.int 1), ("bar", Value.str "x")] = .ok r ∧
      r.ExtraFields = some [("foo", "%!s(int=1)"), ("bar", "x")] ∧
      r.ExtraFields.get "foo" ≠ some "1") ∧
    (∃ r, NewLog exampleEnv [("tags-foo", Value.str "x")] = .ok r ∧
      normKey exampleEnv "tags-foo" = "tags-foo" ∧
      r.ExtraFields.get "tags-foo" = none ∧ r.ExtraFields.get "foo" = some "x") ∧
    (∃ r, NewLog exampleEnv [("Foo", Value.str "a"), ("foo", Value.str "b")] = .ok r ∧
      normKey exampleEnv "Foo" = "foo" ∧ r.ExtraFields.get "foo" ≠ some "a") := by
  refine ⟨⟨_, rfl, ?_, ?_⟩, ⟨_, rfl, ?_, ?_, ?_⟩, ⟨_, rfl, ?_, ?_⟩⟩ <;> decide

/-- C1, amended. Let an entry of the bag have a string value `s` and a key
whose normalised form `key` (every rune lowered by `strings.ToLower`,
underscores replaced by hyphens) is not empty, not ignored, not a label of the
outer switch and, once every `tags-` is removed from it, not a label of the
inner switch. The code writes the entry under `makeKey("", filtered)`, where
`filtered` is `key` with every `tags-` removed. If `NewLog` returns a record
and no entry visited later is written to that key of `extra-fields`, then
`extra-fields` holds under it the string `s` itself, or `"*"` when `key` is on
the mask list. When the key of the entry has ASCII characters only,
`makeKey("", filtered)` is `filtered` itself. -/
theorem spill_over (env : Env) (pre post : List (String × Value)) (k s : String) (r : Log)
    (hlen : (normKey env k).length ≠ 0)
    (hign : env.IgnoredFields.contains (normKey env k) = false)
    (hout : outerKeys.contains (normKey env k) = false)
    (hin : innerKeys.contains (ReplaceAll (normKey env k) "tags-" "") = false)
    (hpost : ∀ e ∈ post, extraTarget env e.1 ≠
      some (makeKey env "" (ReplaceAll (normKey env k) "tags-" "")))
    (hr : NewLog env (pre ++ (k, Value.str s) :: post) = .ok r) :
    r.ExtraFields.get (makeKey env "" (ReplaceAll (normKey env k) "tags-" "")) =
      some (if env.MaskFields.contains (normKey env k) then "*" else s) ∧
    ((∀ c ∈ k.data, c.toNat ≤ 127) →
      makeKey env "" (ReplaceAll (normKey env k) "tags-" "") =
        ReplaceAll (normKey env k) "tags-" "") := by
  have ht : extraTarget env k = some (makeKey env "" (ReplaceAll (normKey env k) "tags-" "")) := by
    unfold extraTarget
    simp only [hlen, hign, hout, hin, if_false, Bool.false_eq_true]
  refine ⟨?_, makeKey_filtered env k⟩
  rw [spill_entry ht hpost hr]
  unfold maskedValue
  split <;> rfl

/-- Witness of `spill_over`: the entry `bar = "x"` of the bag of the
specification. -/
theorem spill_over_witness :
    ∃ r, NewLog exampleEnv [("foo", Value.int 1), ("bar", Value.str "x")] = .ok r ∧
      r.ExtraFields.get "bar" = some "x" := by
  have h : NewLog exampleEnv ([("foo", Value.int 1)] ++ ("bar", Value.str "x") :: []) = .ok
      { emptyLog with ExtraFields := some [("foo", "%!s(int=1)"), ("bar", "x")],
                      info := some ⟨"", "", "", "", "|||"⟩ } := by decide
  exact ⟨_, h, (spill_over exampleEnv [("foo", Value.int 1)] [] "bar" "x" _ (by decide)
    (by decide) (by decide) (by decide) (by simp) h).1⟩

/-- Keys above ASCII. `strings.ToLower` lowers every rune: `ÉCOLE` is written
to `extra-fields` under `école`, so that of the two unknown keys `é` and `É`
the one visited first leaves no entry, and the two do not resolve to distinct
targets; `TİME`, with U+0130, is the column `time`, and `AUDİT` the flag
`audit`; with `école` on the ignore list the key `ÉCOLE` is dropped. -/
theorem lower_example :
    normKey exampleEnv "ÉCOLE" = "école" ∧
    (∃ r, NewLog exampleEnv [("ÉCOLE", Value.str "x")] = .ok r ∧
      r.ExtraFields = some [("école", "x")]) ∧
    (∃ r, NewLog exampleEnv [("é", Value.str "a"), ("É", Value.str "b")] = .ok r ∧
      r.ExtraFields = some [("é", "b")]) ∧
    ¬ DistinctTargets exampleEnv [("é", Value.str "a"), ("É", Value.str "b")] ∧
    (∃ r, NewLog exampleEnv [("time", Value.str "a"), ("TİME", Value.str "b")] = .ok r ∧
      r.Time = "b") ∧
    (∃ r, NewLog exampleEnv [("AUDİT", Value.bool true)] = .ok r ∧ r.Audit = some true) ∧
    NewLog { exampleEnv with IgnoredFields := ["école"] }
        [("ÉCOLE", Value.str "x"), ("msg", Value.str "m")] =
      NewLog { exampleEnv with IgnoredFields := ["école"] } [("msg", Value.str "m")] := by
  refine ⟨by decide, ⟨_, rfl, by decide⟩, ⟨_, rfl, by decide⟩,
    by unfold DistinctTargets; decide, ⟨_, rfl, by decide⟩, ⟨_, rfl, by decide⟩, by decide⟩

/-! ### C3: `NewLog` can panic -/

/-- C3 fails on the code: when `time` is neither ignored nor masked, `NewLog`
panics on the bag whose only entry is `time` with an integer value, in the
type assertion `v.(string)`. -/
theorem newLog_panics (env : Env) (n : Int)
    (hign : env.IgnoredFields.contains "time" = false)
    (hmask : env.MaskFields.contains "time" = false) :
    NewLog env [("time", Value.int n)] =
      .error "interface conversion: interface \x7b\x7d is int, not string" := by
  have hk : normKey env "time" = "time" := normKey_lit env "time" (by decide)
  unfold NewLog Log.Decode
  rw [decodeLoop_cons]
  unfold decodeEntry
  simp only [hk, hign, hmask]
  rfl

/-- Witness of `newLog_panics`, with empty ignore and mask lists. -/
theorem newLog_panics_witness :
    NewLog exampleEnv [("time", Value.int 1700000000)] =
      .error "interface conversion: interface \x7b\x7d is int, not string" :=
  newLog_panics exampleEnv 1700000000 (by decide) (by decide)

/-! ### C9: the partition key -/

theorem UpdateInfo_info (env : Env) (l : Log) :
    (l.UpdateInfo env).info = some
      { BusinessCapability := l.BusinessCapability
        BusinessDomain := l.BusinessDomain
        BusinessService := l.BusinessService
        ApplicationService := l.ApplicationService
        key := env.keyOf l.BusinessCapability l.BusinessDomain l.BusinessService
          l.ApplicationService } ∧
    (l.UpdateInfo env).BusinessCapability = l.BusinessCapability ∧
    (l.UpdateInfo env).BusinessDomain = l.BusinessDomain ∧
    (l.UpdateInfo env).BusinessService = l.BusinessService ∧
    (l.UpdateInfo env).ApplicationService = l.ApplicationService := by
  unfold Log.UpdateInfo LogInfo.makeKey
  simp only
  split <;> simp

theorem UpdateInfo_fresh (env : Env) (l : Log) : InfoFresh env (l.UpdateInfo env) := by
  obtain ⟨h0, h1, h2, h3, h4⟩ := UpdateInfo_info env l
  exact ⟨_, h0, by rw [h1, h2, h3, h4]⟩

theorem produced_fresh {env : Env} {l : Log} (h : Produced env l) : InfoFresh env l := by
  cases h with
  | newLog bag l h =>
    unfold NewLog Log.Decode at h
    obtain ⟨l3, _, hr⟩ := except_bind_ok h
    simp only [pure, Except.pure, Except.ok.injEq] at hr
    subst hr
    exact UpdateInfo_fresh env l3
  | decode l0 bag l h =>
    unfold Log.Decode at h
    obtain ⟨l3, _, hr⟩ := except_bind_ok h
    simp only [pure, Except.pure, Except.ok.injEq] at hr
    subst hr
    exact UpdateInfo_fresh env l3
  | fromJson l0 data l h =>
    unfold Log.FromJson at h
    simp only at h
    split at h
    · simp at h
    · simp only [Prod.mk.injEq, and_true] at h
      subst h
      exact UpdateInfo_fresh env _
  | fromMsgPack l0 data l h =>
    unfold Log.FromMsgPack at h
    simp only at h
    split at h
    · simp at h
    · simp only [Prod.mk.injEq, and_true] at h
      subst h
      exact UpdateInfo_fresh env _

theorem key_of_fresh {env : Env} {l : Log} (h : InfoFresh env l) :
    (l.Key env).1 = env.keyOf l.BusinessCapability l.BusinessDomain l.BusinessService
      l.ApplicationService := by
  obtain ⟨i, hi, hk⟩ := h
  unfold Log.Key Log.GetInfo
  simp only [hi, LogInfo.Key, hk]

/-- C9. For two records handed over by `NewLog`, `Decode`, `FromJson` or
`FromMsgPack` (from any bag or payload, into any record) whose
business-capability, business-domain, business-service and application-service
are equal, `Key()` returns the same string: it is the key that `LogInfo.makeKey`
computes from these four attributes. -/
theorem key_of_classification (env : Env) (l1 l2 : Log)
    (h1 : Produced env l1) (h2 : Produced env l2)
    (hcap : l1.BusinessCapability = l2.BusinessCapability)
    (hdom : l1.BusinessDomain = l2.BusinessDomain)
    (hsvc : l1.BusinessService = l2.BusinessService)
    (happ : l1.ApplicationService = l2.ApplicationService) :
    (l1.Key env).1 = (l2.Key env).1 ∧
    (l1.Key env).1 = env.keyOf l1.BusinessCapability l1.BusinessDomain l1.BusinessService
      l1.ApplicationService := by
  have k1 := key_of_fresh (produced_fresh h1)
  have k2 := key_of_fresh (produced_fresh h2)
  refine ⟨?_, k1⟩
  rw [k1, k2, hcap, hdom, hsvc, happ]

/-- Witness of `key_of_classification`: two records of the same classification
that differ in message, level and history. -/
theorem key_of_classification_witness :
    ∃ l1 l2 k,
      NewLog exampleEnv [("business-domain", Value.str "checkout"),
        ("msg", Value.str "a")] = .ok l1 ∧
      l1.Decode exampleEnv [("business-domain", Value.str "checkout"),
        ("level", Value.str "error"), ("msg", Value.str "b")] = .ok l2 ∧
      l1.Message ≠ l2.Message ∧ l1.Level ≠ l2.Level ∧
      (l1.Key exampleEnv).1 = k ∧ (l2.Key exampleEnv).1 = k ∧ k = "|checkout||" := by
  have e1 : NewLog exampleEnv [("business-domain", Value.str "checkout"),
      ("msg", Value.str "a")] = .ok
      { emptyLog with BusinessDomain := "checkout", Message := "a",
                      info := some ⟨"", "checkout", "", "", "|checkout||"⟩ } := by decide
  have e2 : Log.Decode exampleEnv
      { emptyLog with BusinessDomain := "checkout", Message := "a",
                      info := some ⟨"", "checkout", "", "", "|checkout||"⟩ }
      [("business-domain", Value.str "checkout"), ("level", Value.str "error"),
        ("msg", Value.str "b")] = .ok
      { emptyLog with BusinessDomain := "checkout", Message := "b", Level := "error",
                      info := some ⟨"", "checkout", "", "", "|checkout||"⟩ } := by decide
  have hk := key_of_classification exampleEnv _ _ (Produced.newLog _ _ e1)
    (Produced.decode _ _ _ e2) rfl rfl rfl rfl
  exact ⟨_, _, _, e1, e2, by decide, by decide, rfl, hk.1.symm, by decide⟩

/-! ### C10: decoding the attribute view of a record -/

theorem decodeLoop_error_of_mem {env : Env} {data : List (String × Value)} {e : String × Value}
    (he : e ∈ data) (hfail : ∀ l, ∃ msg, decodeEntry env l e.1 e.2 = .error msg) (l : Log) :
    ∃ msg, decodeLoop env l data = .error msg := by
  induction data generalizing l with
  | nil => cases he
  | cons d ds ih =>
    rw [decodeLoop_cons]
    cases hd : decodeEntry env l d.1 d.2 with
    | error msg => exact ⟨msg, rfl⟩
    | ok l1 =>
      rcases List.mem_cons.1 he with h | h
      · subst h
        obtain ⟨msg, hmsg⟩ := hfail l
        rw [hmsg] at hd
        cases hd
      · exact ih h l1

theorem decodeEntry_audit_pointer (env : Env) (p : Option Bool)
    (hign : env.IgnoredFields.contains "audit" = false) (l : Log) :
    ∃ msg, decodeEntry env l "audit" (Value.boolP p) = .error msg := by
  have hk : normKey env "audit" = "audit" := normKey_lit env "audit" (by decide)
  unfold decodeEntry
  simp only [hk, hign]
  cases env.MaskFields.contains "audit" <;> exact ⟨_, rfl⟩

/-- C10 fails on the code: unless `audit` is on the ignore list, for every
bag on which `NewLog` returns a record `r`, `NewLog` applied to the attribute
view `r.GetData()`, in whatever order its entries are visited, panics: the view
holds `audit` as a `*bool` and `Decode` asserts `v.(bool)`. -/
theorem renormalise_panics (env : Env) (bag : List (String × Value)) (r : Log)
    (view : List (String × Value))
    (hign : env.IgnoredFields.contains "audit" = false)
    (_hr : NewLog env bag = .ok r) (hview : view.Perm r.GetData) :
    ∃ msg, NewLog env view = .error msg := by
  have hmem : ("audit", Value.boolP r.Audit) ∈ view := by
    apply hview.symm.subset
    simp [Log.GetData]
  obtain ⟨msg, hmsg⟩ := decodeLoop_error_of_mem hmem
    (decodeEntry_audit_pointer env r.Audit hign) emptyLog
  exact ⟨msg, by unfold NewLog Log.Decode; rw [hmsg]; rfl⟩

/-- Witness of `renormalise_panics`: the empty bag, the view visited in the
order of the assignments of `GetData`. -/
theorem renormalise_panics_witness :
    ∃ r, NewLog exampleEnv [] = .ok r ∧ ∃ msg, NewLog exampleEnv r.GetData = .error msg := by
  have h : NewLog exampleEnv [] = .ok { emptyLog with info := some ⟨"", "", "", "", "|||"⟩ } := by
    decide
  exact ⟨_, h, renormalise_panics exampleEnv [] _ _ (by decide) h (List.Perm.refl _)⟩

/-! ### Maps -/

theorem mapGet_mapSet_self {β : Type} (m : List (String × β)) (k : String) (v : β) :
    mapGet (mapSet m k v) k = some v := by
  rw [mapGet_mapSet, if_pos rfl]

theorem mapGet_mapSet_ne {β : Type} (m : List (String × β)) {k k' : String} (v : β)
    (h : k ≠ k') : mapGet (mapSet m k v) k' = mapGet m k' := by
  rw [mapGet_mapSet, if_neg h]

theorem mapGet_mapDelete {β : Type} (m : List (String × β)) (k k' : String) :
    mapGet (mapDelete m k) k' = if k = k' then none else mapGet m k' := by
  induction m with
  | nil => simp [mapDelete, mapGet]
  | cons e m ih =>
    obtain ⟨a, b⟩ := e
    by_cases hak : a = k
    · subst hak
      by_cases h : a = k'
      · subst h
        simpa [mapDelete, mapGet] using ih
      · simp [mapDelete, mapGet, h, ih]
    · by_cases hak' : a = k'
      · subst hak'
        have : ¬ k = a := fun h => hak h.symm
        simp [mapDelete, mapGet, hak, this]
      · simp [mapDelete, mapGet, hak, hak', ih]

theorem mapGet_none_of_not_mem {β : Type} (m : List (String × β)) (k : String)
    (h : k ∉ m.map Prod.fst) : mapGet m k = none := by
  induction m with
  | nil => rfl
  | cons e m ih =>
    obtain ⟨a, b⟩ := e
    simp only [List.map_cons, List.mem_cons, not_or] at h
    have : ¬ a = k := fun e => h.1 e.symm
    simp [mapGet, this, ih h.2]

/-! ### C7: `Clear` -/

theorem Mem.Get_eq (m : Mem) (k : String) : m.Get k = (mapGet m.data k).getD [] := by
  unfold Mem.Get
  cases mapGet m.data k <;> rfl

theorem Mem.Len_eq (m : Mem) (k : String) : m.Len k = ((m.Get k).length : Int) := by
  unfold Mem.Len Mem.Get
  cases mapGet m.data k <;> rfl

/-- C7. For every buffer, key `k` and `n ≥ 0`, `Clear(k, n)` returns and
leaves for `k` the old records without the first `min(n, old_len)` of them, in
their order, so that `Len(k)` decreases by `min(n, old_len)`; every other
partition, the recovery pool, the DLQ and the channel are unchanged.
`Clear(k, -1)` leaves no record for `k` and changes no other partition. On a
missing key `Clear` returns the buffer as it was, for every size. -/
theorem clear_drops_prefix (m : Mem) (k : String) (n : Nat) :
    (∃ m', m.Clear k n = .ok m' ∧
      m'.Get k = (m.Get k).drop (min n (m.Get k).length) ∧
      m'.Len k = m.Len k - min (n : Int) (m.Len k) ∧
      (∀ k', k' ≠ k → mapGet m'.data k' = mapGet m.data k') ∧
      m'.recovery = m.recovery ∧ m'.dlq = m.dlq ∧ m'.buff = m.buff) ∧
    (∃ m', m.Clear k (-1) = .ok m' ∧ m'.Get k = [] ∧ m'.Len k = 0 ∧
      (∀ k', k' ≠ k → mapGet m'.data k' = mapGet m.data k') ∧
      m'.recovery = m.recovery ∧ m'.dlq = m.dlq ∧ m'.buff = m.buff) ∧
    (mapGet m.data k = none → ∀ size : Int, m.Clear k size = .ok m) := by
  refine ⟨?_, ?_, ?_⟩
  · cases hg : mapGet m.data k with
    | none =>
      refine ⟨m, by simp [Mem.Clear, hg, pure, Except.pure], ?_, ?_, fun _ _ => rfl, rfl, rfl, rfl⟩
      · simp [Mem.Get_eq, hg]
      · simp [Mem.Len_eq, Mem.Get_eq, hg]
    | some recs =>
      have hG : m.Get k = recs := by simp [Mem.Get_eq, hg]
      by_cases hn : (n : Int) > recs.length
      · refine ⟨{ m with data := mapDelete m.data k }, ?_, ?_, ?_, ?_, rfl, rfl, rfl⟩
        · simp [Mem.Clear, hg, hn, pure, Except.pure]
        · have hn' : recs.length < n := by exact_mod_cast hn
          simp [Mem.Get_eq, mapGet_mapDelete, hg, Nat.min_eq_right (Nat.le_of_lt hn')]
        · have hn' : recs.length < n := by exact_mod_cast hn
          simp only [Mem.Len_eq, Mem.Get_eq, mapGet_mapDelete, hg, if_true, Option.getD_none,
            Option.getD_some, List.length_nil]
          omega
        · intro k' hk'
          simp [mapGet_mapDelete, Ne.symm hk']
      · have h1 : ¬ ((n : Int) = -1 ∨ (n : Int) > recs.length) := by
          intro h; rcases h with h | h
          · omega
          · exact hn h
        have h2 : ¬ ((n : Int) < 0) := by omega
        have hn' : n ≤ recs.length := by
          have : (n : Int) ≤ recs.length := by omega
          exact_mod_cast this
        refine ⟨{ m with data := mapSet m.data k (recs.drop n) }, ?_, ?_, ?_, ?_, rfl, rfl, rfl⟩
        · have h3 : ¬ (recs.length < n) := by omega
          simp [Mem.Clear, hg, h3, pure, Except.pure]
        · simp [Mem.Get_eq, mapGet_mapSet_self, hg, Nat.min_eq_left hn']
        · simp only [Mem.Len_eq, Mem.Get_eq, mapGet_mapSet_self, hg, Option.getD_some,
            List.length_drop]
          omega
        · intro k' hk'
          simp [mapGet_mapSet_ne _ _ (Ne.symm hk')]
  · cases hg : mapGet m.data k with
    | none =>
      refine ⟨m, by simp [Mem.Clear, hg, pure, Except.pure], ?_, ?_, fun _ _ => rfl, rfl, rfl, rfl⟩
      · simp [Mem.Get_eq, hg]
      · simp [Mem.Len_eq, Mem.Get_eq, hg]
    | some recs =>
      refine ⟨{ m with data := mapDelete m.data k }, ?_, ?_, ?_, ?_, rfl, rfl, rfl⟩
      · simp [Mem.Clear, hg, pure, Except.pure]
      · simp [Mem.Get_eq, mapGet_mapDelete]
      · simp [Mem.Len_eq, Mem.Get_eq, mapGet_mapDelete]
      · intro k' hk'
        simp [mapGet_mapDelete, Ne.symm hk']
  · intro hg size
    simp [Mem.Clear, hg, pure, Except.pure]

/-! ### C8: `RecoveryData` -/

theorem recoverEntry_data (m : Mem) (a : String) (recs : List Log) (k : String) :
    (mapGet (m.recoverEntry a recs).data k).getD [] =
      if a = k then (mapGet m.data k).getD [] ++ recs else (mapGet m.data k).getD [] := by
  unfold Mem.recoverEntry
  by_cases h : a = k
  · subst h
    cases hg : mapGet m.data a <;> simp [mapGet_mapSet_self, hg]
  · cases hg : mapGet m.data a <;> simp [mapGet_mapSet_ne _ _ h, h]

theorem recoverEntry_data_none (m : Mem) (a : String) (recs : List Log) (k : String)
    (h : a ≠ k) : mapGet (m.recoverEntry a recs).data k = mapGet m.data k := by
  unfold Mem.recoverEntry
  cases hg : mapGet m.data a <;> simp [mapGet_mapSet_ne _ _ h]

theorem recoverEntry_recovery (m : Mem) (a : String) (recs : List Log) :
    (m.recoverEntry a recs).recovery = mapSet m.recovery a [] ∧
    (m.recoverEntry a recs).dlq = m.dlq ∧ (m.recoverEntry a recs).buff = m.buff ∧
    (m.recoverEntry a recs).config = m.config ∧ (m.recoverEntry a recs).Ready = m.Ready := by
  unfold Mem.recoverEntry
  exact ⟨rfl, rfl, rfl, rfl, rfl⟩

theorem recoverLoop_data (es : List (String × List Log)) (hnd : (es.map Prod.fst).Nodup)
    (m : Mem) (k : String) :
    (mapGet (es.foldl (fun acc e => acc.recoverEntry e.1 e.2) m).data k).getD [] =
      (mapGet m.data k).getD [] ++ (mapGet es k).getD [] := by
  induction es generalizing m with
  | nil => simp [mapGet]
  | cons e es ih =>
    obtain ⟨a, recs⟩ := e
    simp only [List.map_cons, List.nodup_cons] at hnd
    rw [List.foldl_cons, ih hnd.2, recoverEntry_data]
    by_cases h : a = k
    · subst h
      simp [mapGet, mapGet_none_of_not_mem _ _ hnd.1]
    · simp [mapGet, h]

theorem recoverLoop_data_none (es : List (String × List Log)) (m : Mem) (k : String)
    (h : mapGet es k = none) :
    mapGet (es.foldl (fun acc e => acc.recoverEntry e.1 e.2) m).data k = mapGet m.data k := by
  induction es generalizing m with
  | nil => rfl
  | cons e es ih =>
    obtain ⟨a, recs⟩ := e
    by_cases hak : a = k
    · simp [mapGet, hak] at h
    · simp only [mapGet, hak, if_false] at h
      rw [List.foldl_cons, ih _ h, recoverEntry_data_none _ _ _ _ hak]

theorem recoverLoop_recovery (es : List (String × List Log)) (m : Mem) (k : String) :
    (mapGet (es.foldl (fun acc e => acc.recoverEntry e.1 e.2) m).recovery k).getD [] =
      if k ∈ es.map Prod.fst then [] else (mapGet m.recovery k).getD [] := by
  induction es generalizing m with
  | nil => simp
  | cons e es ih =>
    obtain ⟨a, recs⟩ := e
    rw [List.foldl_cons, ih, (recoverEntry_recovery m a recs).1]
    by_cases hk : k ∈ es.map Prod.fst
    · simp [hk]
    · by_cases hak : a = k
      · subst hak
        simp [mapGet_mapSet_self]
      · have : ¬ k = a := fun e => hak e.symm
        simp [hk, this, mapGet_mapSet_ne _ _ hak]

theorem recoverLoop_rest (es : List (String × List Log)) (m : Mem) :
    (es.foldl (fun acc e => acc.recoverEntry e.1 e.2) m).dlq = m.dlq ∧
    (es.foldl (fun acc e => acc.recoverEntry e.1 e.2) m).buff = m.buff := by
  induction es generalizing m with
  | nil => exact ⟨rfl, rfl⟩
  | cons e es ih =>
    rw [List.foldl_cons]
    obtain ⟨h1, h2⟩ := ih (m.recoverEntry e.1 e.2)
    obtain ⟨_, h3, h4, _⟩ := recoverEntry_recovery m e.1 e.2
    exact ⟨h1.trans h3, h2.trans h4⟩

/-- C8. For a buffer whose recovery map has each key once, and every key `k`:
after `RecoveryData()`, `Get(k)` is the old content of `k` followed by the old
recovery records of `k` in their order; the recovery partition of `k` holds no
record; the partition of a key that is not in the recovery map is unchanged;
the DLQ and the channel are unchanged. -/
theorem recoveryData_moves (m : Mem) (k : String)
    (hnd : (m.recovery.map Prod.fst).Nodup) :
    m.RecoveryData.Get k = m.Get k ++ (mapGet m.recovery k).getD [] ∧
    (mapGet m.RecoveryData.recovery k).getD [] = [] ∧
    (mapGet m.recovery k = none → mapGet m.RecoveryData.data k = mapGet m.data k) ∧
    m.RecoveryData.dlq = m.dlq ∧ m.RecoveryData.buff = m.buff := by
  unfold Mem.RecoveryData
  refine ⟨?_, ?_, ?_, (recoverLoop_rest _ _).1, (recoverLoop_rest _ _).2⟩
  · rw [Mem.Get_eq, Mem.Get_eq, recoverLoop_data _ hnd]
  · rw [recoverLoop_recovery]
    by_cases hk : k ∈ m.recovery.map Prod.fst
    · simp [hk]
    · simp [hk, mapGet_none_of_not_mem _ _ hk]
  · intro h
    exact recoverLoop_data_none _ _ _ h

/-- Witness of `recoveryData_moves`: a partition of one record and a recovery
partition of two records for the same key. -/
theorem recoveryData_moves_witness :
    ∃ m : Mem, m.Get "k" = [{ emptyLog with Message := "a" }] ∧
      m.RecoveryData.Get "k" = [{ emptyLog with Message := "a" },
        { emptyLog with Message := "b" }, { emptyLog with Message := "c" }] ∧
      (mapGet m.RecoveryData.recovery "k").getD [] = [] := by
  let cfg : Config :=
    { BufferSize := 3, FlushInterval := 0, TryAutoRecover := true, RecoveryAttempts := 1 }
  let m : Mem :=
    { NewMem cfg with
      data := [("k", [{ emptyLog with Message := "a" }])]
      recovery := [("k", [{ emptyLog with Message := "b" }, { emptyLog with Message := "c" }])] }
  have h := recoveryData_moves m "k" (by decide)
  exact ⟨m, rfl, h.1, h.2.1⟩

/-! ### The receiver -/

theorem Mem.Clear_len (m : Mem) (k : String) (recs : List Log)
    (hg : mapGet m.data k = some recs) :
    m.Clear k recs.length = .ok { m with data := mapSet m.data k [] } := by
  have h1 : ¬ ((recs.length : Int) = -1 ∨ (recs.length : Int) > recs.length) := by omega
  have h2 : ¬ ((recs.length : Int) < 0) := by omega
  unfold Mem.Clear
  simp only [hg, h1, h2, if_false, Int.toNat_ofNat, List.drop_length]
  rfl

theorem FlushKey_cases (r : Receiver) (w : WriterFn) (now : Int) (key : String) :
    r.FlushKey w now key = .ok r ∨
    (∃ ctrl, r.FlushKey w now key = .ok (r.flushDone now key ctrl) ∧ r.buffer.Get key = []) ∨
    (r.FlushKey w now key = .ok (r.flushed w now key) ∧ r.buffer.Get key ≠ []) := by
  unfold Receiver.FlushKey
  simp only
  split
  · exact Or.inl rfl
  · split
    · exact Or.inl rfl
    · split
      · rename_i h
        exact Or.inr (Or.inl ⟨_, rfl, List.length_eq_zero.1 h⟩)
      · rename_i h
        have hne : r.buffer.Get key ≠ [] := fun e => h (by rw [e]; rfl)
        refine Or.inr (Or.inr ⟨?_, hne⟩)
        cases hg : mapGet r.buffer.data key with
        | none => exact absurd (by simp [Mem.Get_eq, hg]) hne
        | some recs =>
          have hG : r.buffer.Get key = recs := by simp [Mem.Get_eq, hg]
          simp only [hG]
          cases hrec : (CheckWriterError (w key recs) && r.config.TryAutoRecover &&
              decide (r.recoveryCount < r.config.RecoveryAttempts))
          · simp only [Bool.false_eq_true, if_false]
            rw [Mem.Clear_len _ _ _ hg]
            simp [Receiver.flushed, Receiver.flushDone, hG, hrec, pure, Except.pure]
          · simp only [if_true]
            rw [Mem.Clear_len _ _ _ hg]
            simp [Receiver.flushed, Receiver.flushDone, hG, hrec, pure, Except.pure]

/-! ### C5: the size-driven flush -/

theorem Push_open {m : Mem} (key : String) (it : Log) (h : m.closed = false) :
    m.Push key (some it) = .ok (m.send key it, none) := by
  unfold Mem.Push
  simp only [h, Bool.false_eq_true, if_false]
  rfl

theorem Push_closed {m : Mem} (key : String) (it : Log) (h : m.closed = true) :
    m.Push key (some it) = .error "send on closed channel" := by
  unfold Mem.Push
  simp only [h, if_true]

theorem Write_open_of_ok {env : Env} {r : Receiver} {w : WriterFn} {now : Int} {record : Log}
    {x : Receiver × Option String} (h : r.Write env w now record = .ok x) :
    r.buffer.closed = false := by
  cases hc : r.buffer.closed with
  | false => rfl
  | true =>
    unfold Receiver.Write at h
    simp only [Push_closed _ _ hc] at h
    cases h

/-- C5 fails on the code. `Write` calls `FlushKey` without touching the time of
the last flush, and `FlushKey` returns at its interval check: when the key has
a control entry whose `Last` is less than `FlushInterval` seconds old, `Write`
returns without any call of the writer, whatever the count it reaches; the
record only joins the channel. (On a buffer whose channel has been closed,
which the receiver never does, `Write` panics in `Push`, before any call of
the writer.) -/
theorem size_flush_skipped (env : Env) (r : Receiver) (w : WriterFn) (now : Int) (record : Log)
    (c : BufferControl)
    (hc : mapGet r.control (record.Key env).1 = some c)
    (hrecent : now - c.Last < r.config.FlushInterval * Second) :
    (r.buffer.closed = false →
      ∃ r', r.Write env w now record = .ok (r', none) ∧
        r'.calls = r.calls ∧
        r'.buffer = r.buffer.send (record.Key env).1 (record.Key env).2 ∧
        mapGet r'.control (record.Key env).1 = some { c with Count := c.Count + 1 }) ∧
    (r.buffer.closed = true → r.Write env w now record = .error "send on closed channel") := by
  refine ⟨fun hopen => ?_, fun hclosed => ?_⟩
  · refine ⟨{ r with
        buffer := r.buffer.send (record.Key env).1 (record.Key env).2
        control := mapSet r.control (record.Key env).1 { c with Count := c.Count + 1 } },
      ?_, rfl, rfl, mapGet_mapSet_self _ _ _⟩
    unfold Receiver.Write
    simp only [Push_open _ _ hopen, hc]
    split
    · unfold Receiver.FlushKey
      simp only [mapGet_mapSet_self, hrecent, decide_True, if_true]
      rfl
    · rfl
  · unfold Receiver.Write
    simp only [Push_closed _ _ hclosed]

/-- The scenario of the specification with `BufferSize = 3` and
`FlushInterval = 10`: three records of one key are written within two seconds
and the worker drains the channel; the writer has not been called and the
partition holds the three records. -/
theorem size_flush_scenario :
    ∃ r, (NewReceiver ⟨3, 10, true, 1⟩).run exampleEnv
          [⟨.write (exampleRecord "r1"), 0, writerOk⟩, ⟨.worker, 0, writerOk⟩,
           ⟨.write (exampleRecord "r2"), 1000000000, writerOk⟩, ⟨.worker, 1000000000, writerOk⟩,
           ⟨.write (exampleRecord "r3"), 2000000000, writerOk⟩,
           ⟨.worker, 2000000000, writerOk⟩] = .ok r ∧
      r.calls = [] ∧
      r.buffer.Get "|||" = [exampleRecord "r1", exampleRecord "r2", exampleRecord "r3"] ∧
      mapGet r.control "|||" = some { Last := 0, Count := 3, running := false } := by
  refine ⟨{ NewReceiver ⟨3, 10, true, 1⟩ with
            buffer := { NewMem ⟨3, 10, true, 1⟩ with
              data := [("|||", [exampleRecord "r1", exampleRecord "r2", exampleRecord "r3"])] }
            control := [("|||", { Last := 0, Count := 3, running := false })]
            timers := ["|||"] }, ?_, rfl, ?_, ?_⟩ <;> decide

/-- Witness of `size_flush_skipped`: the third write of the scenario. -/
theorem size_flush_skipped_witness :
    ∃ r r', (NewReceiver ⟨3, 10, true, 1⟩).run exampleEnv
          [⟨.write (exampleRecord "r1"), 0, writerOk⟩, ⟨.worker, 0, writerOk⟩,
           ⟨.write (exampleRecord "r2"), 1000000000, writerOk⟩,
           ⟨.worker, 1000000000, writerOk⟩] = .ok r ∧
      r.Write exampleEnv writerOk 2000000000 (exampleRecord "r3") = .ok (r', none) ∧
      mapGet r'.control "|||" = some { Last := 0, Count := 3, running := false } ∧
      r'.calls = [] := by
  let s : Receiver :=
    { NewReceiver ⟨3, 10, true, 1⟩ with
      buffer := { NewMem ⟨3, 10, true, 1⟩ with
        data := [("|||", [exampleRecord "r1", exampleRecord "r2"])] }
      control := [("|||", { Last := 0, Count := 2, running := false })]
      timers := ["|||"] }
  have hrun : (NewReceiver ⟨3, 10, true, 1⟩).run exampleEnv
          [⟨.write (exampleRecord "r1"), 0, writerOk⟩, ⟨.worker, 0, writerOk⟩,
           ⟨.write (exampleRecord "r2"), 1000000000, writerOk⟩,
           ⟨.worker, 1000000000, writerOk⟩] = .ok s := by decide
  obtain ⟨r', h1, h2, _, h4⟩ := (size_flush_skipped exampleEnv s writerOk 2000000000
    (exampleRecord "r3") { Last := 0, Count := 2, running := false } (by decide)
    (by decide)).1 rfl
  exact ⟨s, r', hrun, h1, h4, h2⟩

theorem flushDone_frame (r : Receiver) (now : Int) (key : String) (ctrl : BufferControl) :
    (r.flushDone now key ctrl).pending = r.pending ∧
    (r.flushDone now key ctrl).buffer = r.buffer ∧
    (r.flushDone now key ctrl).recoveryCount = r.recoveryCount ∧
    (r.flushDone now key ctrl).calls = r.calls ∧
    (r.flushDone now key ctrl).config = r.config :=
  ⟨rfl, rfl, rfl, rfl, rfl⟩

/-! ### C4: accounting for the records of a run -/

theorem mapSet_keys {β : Type} (m : List (String × β)) (k : String) (v : β) :
    (mapSet m k v).map Prod.fst =
      if k ∈ m.map Prod.fst then m.map Prod.fst else m.map Prod.fst ++ [k] := by
  induction m with
  | nil => simp [mapSet]
  | cons e m ih =>
    obtain ⟨a, b⟩ := e
    by_cases h : a = k
    · subst h
      simp [mapSet]
    · have h' : ¬ k = a := fun e => h e.symm
      simp only [mapSet, h, if_false, List.map_cons, ih, List.mem_cons, h', false_or]
      split <;> simp

theorem mapSet_nodup {β : Type} (m : List (String × β)) (k : String) (v : β)
    (h : (m.map Prod.fst).Nodup) : ((mapSet m k v).map Prod.fst).Nodup := by
  rw [mapSet_keys]
  split
  · exact h
  · rename_i hk
    exact List.Nodup.append h (List.nodup_singleton k) (by
      intro a ha hb
      simp only [List.mem_singleton] at hb
      subst hb
      exact hk ha)

theorem countRecords_mapSet (m : List (String × List Log)) (k : String) (v : List Log) :
    countRecords (mapSet m k v) + ((mapGet m k).getD []).length = countRecords m + v.length := by
  induction m with
  | nil => simp [mapSet, mapGet, countRecords]
  | cons e m ih =>
    obtain ⟨a, b⟩ := e
    by_cases h : a = k
    · subst h
      simp [mapSet, mapGet, countRecords]
      omega
    · simp only [mapSet, mapGet, h, if_false]
      simp only [countRecords, List.map_cons, List.sum_cons] at ih ⊢
      omega

theorem mapGet_of_mem_nodup {β : Type} (m : List (String × β)) (h : (m.map Prod.fst).Nodup)
    (e : String × β) (he : e ∈ m) : mapGet m e.1 = some e.2 := by
  induction m with
  | nil => cases he
  | cons d m ih =>
    obtain ⟨a, b⟩ := d
    simp only [List.map_cons, List.nodup_cons] at h
    rcases List.mem_cons.1 he with h1 | h1
    · subst h1
      simp [mapGet]
    · have hne : ¬ a = e.1 := by
        intro heq
        apply h.1
        rw [heq]
        exact List.mem_map_of_mem Prod.fst h1
      simp [mapGet, hne, ih h.2 h1]

theorem worker_held (m : Mem) :
    m.worker.held = m.held ∧ m.worker.recovery = m.recovery ∧ m.worker.dlq = m.dlq := by
  unfold Mem.worker
  cases hb : m.buff with
  | nil => simp [Mem.held, hb]
  | cons it rest =>
    simp only
    refine ⟨?_, trivial, trivial⟩
    cases hg : mapGet m.data it.key with
    | none =>
      have h1 := countRecords_mapSet m.data it.key []
      have h2 := countRecords_mapSet (mapSet m.data it.key []) it.key ([] ++ [it.item])
      simp only [hg, mapGet_mapSet_self, Option.getD_none, Option.getD_some, List.length_nil,
        List.length_append, List.length_singleton] at h1 h2
      simp only [Mem.held, hb, mapGet_mapSet_self, Option.getD_some, List.length_cons]
      omega
    | some recs =>
      have h2 := countRecords_mapSet m.data it.key (recs ++ [it.item])
      simp only [hg, Option.getD_some, List.length_append, List.length_singleton] at h2
      simp only [Mem.held, hb, hg, Option.getD_some, List.length_cons]
      omega

theorem push_held (m : Mem) (key : String) (it : Log) :
    (m.send key it).held = m.held + 1 ∧
    (m.send key it).recovery = m.recovery ∧
    (m.send key it).dlq = m.dlq := by
  unfold Mem.send
  simp only
  split
  · simp [Mem.held]
    omega
  · obtain ⟨h1, h2, h3⟩ := worker_held m
    refine ⟨?_, h2, h3⟩
    simp only [Mem.held, List.length_append, List.length_singleton] at h1 ⊢
    omega

theorem pushRecovery_held (m : Mem) (key : String) (it : Log) :
    (m.PushRecovery key (some it)).1.held = m.held + 1 ∧
    ((m.recovery.map Prod.fst).Nodup →
      ((m.PushRecovery key (some it)).1.recovery.map Prod.fst).Nodup) ∧
    (m.PushRecovery key (some it)).1.dlq = m.dlq ∧
    (m.PushRecovery key (some it)).2 = none := by
  unfold Mem.PushRecovery
  simp only
  refine ⟨?_, ?_, trivial, trivial⟩
  · cases hg : mapGet m.recovery key with
    | none =>
      have h1 := countRecords_mapSet m.recovery key []
      have h2 := countRecords_mapSet (mapSet m.recovery key []) key ([] ++ [it])
      simp only [hg, mapGet_mapSet_self, Option.getD_none, Option.getD_some, List.length_nil,
        List.length_append, List.length_singleton] at h1 h2
      simp only [Mem.held, mapGet_mapSet_self, Option.getD_some]
      omega
    | some recs =>
      have h2 := countRecords_mapSet m.recovery key (recs ++ [it])
      simp only [hg, Option.getD_some, List.length_append, List.length_singleton] at h2
      simp only [Mem.held, hg, Option.getD_some]
      omega
  · intro hnd
    cases hg : mapGet m.recovery key with
    | none => exact mapSet_nodup _ _ _ (mapSet_nodup _ _ _ hnd)
    | some recs => exact mapSet_nodup _ _ _ hnd

theorem pushRecords_held (env : Env) (recs : List Log) (m : Mem) (b : Bool) :
    (recs.foldl (fun (acc : Mem × Bool) rec =>
        match (acc.1.PushRecovery (rec.Key env).1 (some (rec.Key env).2)).2 with
        | some _ => ((acc.1.PushRecovery (rec.Key env).1 (some (rec.Key env).2)).1, acc.2)
        | none => ((acc.1.PushRecovery (rec.Key env).1 (some (rec.Key env).2)).1, true))
      (m, b)).1.held = m.held + recs.length ∧
    ((m.recovery.map Prod.fst).Nodup →
      ((recs.foldl (fun (acc : Mem × Bool) rec =>
        match (acc.1.PushRecovery (rec.Key env).1 (some (rec.Key env).2)).2 with
        | some _ => ((acc.1.PushRecovery (rec.Key env).1 (some (rec.Key env).2)).1, acc.2)
        | none => ((acc.1.PushRecovery (rec.Key env).1 (some (rec.Key env).2)).1, true))
      (m, b)).1.recovery.map Prod.fst).Nodup) ∧
    (recs.foldl (fun (acc : Mem × Bool) rec =>
        match (acc.1.PushRecovery (rec.Key env).1 (some (rec.Key env).2)).2 with
        | some _ => ((acc.1.PushRecovery (rec.Key env).1 (some (rec.Key env).2)).1, acc.2)
        | none => ((acc.1.PushRecovery (rec.Key env).1 (some (rec.Key env).2)).1, true))
      (m, b)).1.dlq = m.dlq := by
  induction recs generalizing m b with
  | nil => simp
  | cons rec recs ih =>
    rw [List.foldl_cons]
    obtain ⟨h1, h2, h3, h4⟩ := pushRecovery_held m (rec.Key env).1 (rec.Key env).2
    simp only [h4]
    obtain ⟨i1, i2, i3⟩ := ih (m.PushRecovery (rec.Key env).1 (some (rec.Key env).2)).1 true
    refine ⟨?_, fun hnd => i2 (h2 hnd), i3.trans h3⟩
    rw [i1, h1, List.length_cons]
    omega

theorem pushRecords_spec (env : Env) (m : Mem) (recs : List Log) :
    (Receiver.pushRecords env m recs).1.held = m.held + recs.length ∧
    ((m.recovery.map Prod.fst).Nodup →
      ((Receiver.pushRecords env m recs).1.recovery.map Prod.fst).Nodup) ∧
    (Receiver.pushRecords env m recs).1.dlq = m.dlq :=
  pushRecords_held env recs m false

theorem pushFailed_held (env : Env) (reports : List WriterReturn) (m : Mem) (b : Bool) :
    (reports.foldl (fun (acc : Mem × Bool) item =>
        match item.Error with
        | none => acc
        | some _ =>
          ((Receiver.pushRecords env acc.1 item.Records).1,
            acc.2 || (Receiver.pushRecords env acc.1 item.Records).2)) (m, b)).1.held =
      m.held + failedRecords reports ∧
    ((m.recovery.map Prod.fst).Nodup →
      ((reports.foldl (fun (acc : Mem × Bool) item =>
        match item.Error with
        | none => acc
        | some _ =>
          ((Receiver.pushRecords env acc.1 item.Records).1,
            acc.2 || (Receiver.pushRecords env acc.1 item.Records).2))
        (m, b)).1.recovery.map Prod.fst).Nodup) ∧
    (reports.foldl (fun (acc : Mem × Bool) item =>
        match item.Error with
        | none => acc
        | some _ =>
          ((Receiver.pushRecords env acc.1 item.Records).1,
            acc.2 || (Receiver.pushRecords env acc.1 item.Records).2)) (m, b)).1.dlq = m.dlq := by
  induction reports generalizing m b with
  | nil => simp [failedRecords]
  | cons item reports ih =>
    rw [List.foldl_cons]
    cases he : item.Error with
    | none =>
      obtain ⟨i1, i2, i3⟩ := ih m b
      refine ⟨?_, i2, i3⟩
      rw [i1]
      simp [failedRecords, he]
    | some err =>
      obtain ⟨p1, p2, p3⟩ := pushRecords_spec env m item.Records
      obtain ⟨i1, i2, i3⟩ := ih (Receiver.pushRecords env m item.Records).1
        (b || (Receiver.pushRecords env m item.Records).2)
      refine ⟨?_, fun hnd => i2 (p2 hnd), i3.trans p3⟩
      rw [i1, p1]
      simp [failedRecords, he]
      omega

theorem pushFailed_spec (env : Env) (m : Mem) (reports : List WriterReturn) :
    (Receiver.pushFailed env m reports).1.held = m.held + failedRecords reports ∧
    ((m.recovery.map Prod.fst).Nodup →
      ((Receiver.pushFailed env m reports).1.recovery.map Prod.fst).Nodup) ∧
    (Receiver.pushFailed env m reports).1.dlq = m.dlq :=
  pushFailed_held env reports m false

theorem recoverEntry_held (m : Mem) (a : String) (recs : List Log)
    (h : mapGet m.recovery a = some recs) :
    (m.recoverEntry a recs).held = m.held := by
  have hr := countRecords_mapSet m.recovery a []
  simp only [h, Option.getD_some, List.length_nil] at hr
  unfold Mem.recoverEntry
  cases hg : mapGet m.data a with
  | none =>
    have h1 := countRecords_mapSet m.data a []
    have h2 := countRecords_mapSet (mapSet m.data a []) a ([] ++ recs)
    simp only [hg, mapGet_mapSet_self, Option.getD_none, Option.getD_some, List.length_nil,
      List.length_append] at h1 h2
    simp only [Mem.held, mapGet_mapSet_self, Option.getD_some]
    omega
  | some old =>
    have h2 := countRecords_mapSet m.data a (old ++ recs)
    simp only [hg, Option.getD_some, List.length_append] at h2
    simp only [Mem.held, hg, Option.getD_some]
    omega

theorem recoverLoop_held (es : List (String × List Log)) (hnd : (es.map Prod.fst).Nodup)
    (m : Mem) (hin : ∀ e ∈ es, mapGet m.recovery e.1 = some e.2) :
    (es.foldl (fun acc e => acc.recoverEntry e.1 e.2) m).held = m.held ∧
    ((m.recovery.map Prod.fst).Nodup →
      ((es.foldl (fun acc e => acc.recoverEntry e.1 e.2) m).recovery.map Prod.fst).Nodup) := by
  induction es generalizing m with
  | nil => exact ⟨rfl, fun h => h⟩
  | cons e es ih =>
    obtain ⟨a, recs⟩ := e
    simp only [List.map_cons, List.nodup_cons] at hnd
    rw [List.foldl_cons]
    have hstep := recoverEntry_held m a recs (hin (a, recs) (List.mem_cons_self _ _))
    have hrec := (recoverEntry_recovery m a recs).1
    have hin' : ∀ e ∈ es, mapGet (m.recoverEntry a recs).recovery e.1 = some e.2 := by
      intro e he
      rw [hrec]
      have hne : a ≠ e.1 := by
        intro heq
        apply hnd.1
        rw [heq]
        exact List.mem_map_of_mem Prod.fst he
      rw [mapGet_mapSet_ne _ _ hne]
      exact hin e (List.mem_cons_of_mem _ he)
    obtain ⟨i1, i2⟩ := ih hnd.2 (m.recoverEntry a recs) hin'
    refine ⟨i1.trans hstep, fun h => i2 ?_⟩
    rw [hrec]
    exact mapSet_nodup _ _ _ h

theorem recoveryData_held (m : Mem) (hnd : (m.recovery.map Prod.fst).Nodup) :
    m.RecoveryData.held = m.held ∧ (m.RecoveryData.recovery.map Prod.fst).Nodup ∧
    m.RecoveryData.dlq = m.dlq := by
  unfold Mem.RecoveryData
  obtain ⟨h1, h2⟩ := recoverLoop_held m.recovery hnd m
    (fun e he => mapGet_of_mem_nodup _ hnd e he)
  exact ⟨h1, h2 hnd, (recoverLoop_rest _ _).1⟩

theorem writtenOk_append (cs : List WriteCall) (c : WriteCall) :
    writtenOk (cs ++ [c]) = writtenOk cs + okRecords c.reports := by
  simp [writtenOk]

theorem droppedFailed_append (cs : List WriteCall) (c : WriteCall) :
    droppedFailed (cs ++ [c]) =
      droppedFailed cs + (if c.recovering then 0 else failedRecords c.reports) := by
  simp [droppedFailed]

theorem pendingFailed_append (ps : List (List WriterReturn)) (p : List WriterReturn) :
    pendingFailed (ps ++ [p]) = pendingFailed ps + failedRecords p := by
  simp [pendingFailed]

theorem flushed_balanced {r : Receiver} {w : WriterFn} {now : Int} {key : String} {n : Nat}
    (hw : Partitions w) (hb : Balanced r n) : Balanced (r.flushed w now key) n := by
  obtain ⟨h1, h2, h3⟩ := hb
  refine ⟨h1, h2, ?_⟩
  have hp := hw key (r.buffer.Get key)
  have hc := countRecords_mapSet r.buffer.data key []
  rw [← Mem.Get_eq] at hc
  simp only [List.length_nil, Nat.add_zero] at hc
  rw [← h3]
  cases hrec : (CheckWriterError (w key (r.buffer.Get key)) && r.config.TryAutoRecover &&
      decide (r.recoveryCount < r.config.RecoveryAttempts))
  · simp only [Receiver.tally, Receiver.flushed, hrec, writtenOk_append, droppedFailed_append,
      Mem.held, Bool.false_eq_true, if_false]
    omega
  · simp only [Receiver.tally, Receiver.flushed, hrec, writtenOk_append, droppedFailed_append,
      pendingFailed_append, Mem.held, if_true]
    omega

theorem FlushKey_balanced {r r' : Receiver} {w : WriterFn} {now : Int} {key : String} {n : Nat}
    (hw : Partitions w) (hb : Balanced r n) (hf : r.FlushKey w now key = .ok r') :
    Balanced r' n := by
  rcases FlushKey_cases r w now key with h | ⟨ctrl, h, _⟩ | ⟨h, _⟩
  · rw [h] at hf; cases hf; exact hb
  · rw [h] at hf; cases hf; exact hb
  · rw [h] at hf; cases hf; exact flushed_balanced hw hb

theorem flushKeys_balanced {w : WriterFn} {now : Int} (hw : Partitions w) (keys : List String)
    {r r' : Receiver} {n : Nat} (hb : Balanced r n) (hf : r.flushKeys w now keys = .ok r') :
    Balanced r' n := by
  induction keys generalizing r with
  | nil =>
    simp only [Receiver.flushKeys, List.foldlM_nil, pure, Except.pure, Except.ok.injEq] at hf
    subst hf; exact hb
  | cons k ks ih =>
    simp only [Receiver.flushKeys, List.foldlM_cons] at hf
    obtain ⟨r1, h1, h2⟩ := except_bind_ok hf
    exact ih (FlushKey_balanced hw hb h1) h2

theorem closeKeys_balanced {w : WriterFn} {now : Int} (hw : Partitions w) (keys : List String)
    {r r' : Receiver} {n : Nat} (hb : Balanced r n) (hf : r.closeKeys w now keys = .ok r') :
    Balanced r' n := by
  induction keys generalizing r with
  | nil =>
    simp only [Receiver.closeKeys, List.foldlM_nil, pure, Except.pure, Except.ok.injEq] at hf
    subst hf; exact hb
  | cons k ks ih =>
    simp only [Receiver.closeKeys, List.foldlM_cons] at hf
    obtain ⟨r1, h1, h2⟩ := except_bind_ok hf
    refine ih (FlushKey_balanced hw ?_ h1) h2
    split
    · exact hb
    · exact hb

theorem Write_balanced {env : Env} {r r' : Receiver} {w : WriterFn} {now : Int} {record : Log}
    {err : Option String} {n : Nat} (hw : Partitions w) (hb : Balanced r n)
    (hf : r.Write env w now record = .ok (r', err)) : Balanced r' (n + 1) := by
  obtain ⟨h1, h2, h3⟩ := hb
  obtain ⟨p1, p2, p3⟩ := push_held r.buffer (record.Key env).1 (record.Key env).2
  have hb1 : ∀ (c : List (String × BufferControl)) (t : List String),
      Balanced { r with buffer := r.buffer.send (record.Key env).1 (record.Key env).2,
                        control := c, timers := t } (n + 1) := by
    intro c t
    refine ⟨by rw [p2]; exact h1, by rw [p3]; exact h2, ?_⟩
    simp only [Receiver.tally, p1]
    simp only [Receiver.tally] at h3
    omega
  have hopen := Write_open_of_ok hf
  unfold Receiver.Write at hf
  simp only [Push_open _ _ hopen] at hf
  split at hf
  · split at hf
    · obtain ⟨r1, hr1, hr2⟩ := except_bind_ok hf
      simp only [pure, Except.pure, Except.ok.injEq, Prod.mk.injEq] at hr2
      rw [← hr2.1]
      exact FlushKey_balanced hw (hb1 _ _) hr1
    · simp only [pure, Except.pure, Except.ok.injEq, Prod.mk.injEq] at hf
      rw [← hf.1]
      exact hb1 _ _
  · simp only [pure, Except.pure, Except.ok.injEq, Prod.mk.injEq] at hf
    rw [← hf.1]
    exact hb1 _ _

theorem RecoveryWriteError_balanced {env : Env} {r r' : Receiver} {w : WriterFn} {now : Int}
    {writerRet : List WriterReturn} {n : Nat} (hw : Partitions w)
    (hb : Balanced r (n - failedRecords writerRet)) (hn : failedRecords writerRet ≤ n)
    (hf : Receiver.RecoveryWriteError env r w now writerRet = .ok r') : Balanced r' n := by
  obtain ⟨h1, h2, h3⟩ := hb
  obtain ⟨p1, p2, p3⟩ := pushFailed_spec env r.buffer writerRet
  have hb1 : Balanced { r with buffer := (Receiver.pushFailed env r.buffer writerRet).1 } n := by
    refine ⟨p2 h1, by rw [p3]; exact h2, ?_⟩
    simp only [Receiver.tally, p1]
    simp only [Receiver.tally] at h3
    omega
  unfold Receiver.RecoveryWriteError at hf
  simp only at hf
  split at hf
  · obtain ⟨r1, hr1, hr2⟩ := except_bind_ok hf
    simp only [pure, Except.pure, Except.ok.injEq] at hr2
    subst hr2
    obtain ⟨d1, d2, d3⟩ := recoveryData_held _ hb1.1
    have hb2 : Balanced
        { r with buffer := (Receiver.pushFailed env r.buffer writerRet).1.RecoveryData,
                 recoveryCount := r.recoveryCount + 1 } n := by
      refine ⟨d2, by rw [d3]; exact hb1.2.1, ?_⟩
      have := hb1.2.2
      simp only [Receiver.tally, d1] at this ⊢
      exact this
    have hb3 := flushKeys_balanced hw _ hb2 hr1
    exact ⟨hb3.1, hb3.2.1, hb3.2.2⟩
  · simp only [pure, Except.pure, Except.ok.injEq] at hf
    subst hf
    exact hb1

theorem FlushKey_total (r : Receiver) (w : WriterFn) (now : Int) (key : String) :
    ∃ r', r.FlushKey w now key = .ok r' := by
  rcases FlushKey_cases r w now key with h | ⟨ctrl, h, _⟩ | ⟨h, _⟩
  · exact ⟨_, h⟩
  · exact ⟨_, h⟩
  · exact ⟨_, h⟩

theorem flushKeys_total (w : WriterFn) (now : Int) (keys : List String) (r : Receiver) :
    ∃ r', r.flushKeys w now keys = .ok r' := by
  induction keys generalizing r with
  | nil => exact ⟨r, rfl⟩
  | cons k ks ih =>
    obtain ⟨r1, h1⟩ := FlushKey_total r w now k
    obtain ⟨r2, h2⟩ := ih r1
    refine ⟨r2, ?_⟩
    simp only [Receiver.flushKeys, List.foldlM_cons, h1]
    exact h2

theorem bind_total {α β : Type} {act : Except String α} {next : α → Except String β}
    (step : ∀ a, ∃ c, next a = Except.ok c) (first : ∃ a, act = Except.ok a) :
    ∃ c, Except.bind act next = Except.ok c := by
  rcases first with ⟨a, rfl⟩
  exact step a

theorem closeKeys_total (w : WriterFn) (now : Int) (keys : List String) (r : Receiver) :
    ∃ r', r.closeKeys w now keys = .ok r' := by
  induction keys generalizing r with
  | nil => exact ⟨r, rfl⟩
  | cons k ks ih =>
    simp only [Receiver.closeKeys, List.foldlM_cons]
    exact bind_total (fun r1 => ih r1) (FlushKey_total _ _ _ _)

theorem worker_closed (m : Mem) : m.worker.closed = m.closed ∧ m.worker.dlq = m.dlq := by
  unfold Mem.worker
  cases m.buff <;> exact ⟨rfl, rfl⟩

theorem send_closed (m : Mem) (key : String) (it : Log) :
    (m.send key it).closed = m.closed ∧ (m.send key it).dlq = m.dlq := by
  unfold Mem.send
  simp only
  split
  · exact ⟨rfl, rfl⟩
  · exact worker_closed m

theorem pushRecords_closed (env : Env) (recs : List Log) (m : Mem) (b : Bool) :
    (recs.foldl (fun (acc : Mem × Bool) rec =>
      match (acc.1.PushRecovery (rec.Key env).1 (some (rec.Key env).2)).2 with
      | some _ => ((acc.1.PushRecovery (rec.Key env).1 (some (rec.Key env).2)).1, acc.2)
      | none => ((acc.1.PushRecovery (rec.Key env).1 (some (rec.Key env).2)).1, true))
      (m, b)).1.closed = m.closed ∧
    (recs.foldl (fun (acc : Mem × Bool) rec =>
      match (acc.1.PushRecovery (rec.Key env).1 (some (rec.Key env).2)).2 with
      | some _ => ((acc.1.PushRecovery (rec.Key env).1 (some (rec.Key env).2)).1, acc.2)
      | none => ((acc.1.PushRecovery (rec.Key env).1 (some (rec.Key env).2)).1, true))
      (m, b)).1.dlq = m.dlq := by
  induction recs generalizing m b with
  | nil => exact ⟨rfl, rfl⟩
  | cons x xs ih =>
    rw [List.foldl_cons]
    split
    · rename_i hx
      cases hx
    · rw [(ih _ _).1, (ih _ _).2]
      exact ⟨rfl, rfl⟩

theorem pushFailed_closed (env : Env) (writerRet : List WriterReturn) (m : Mem) :
    (Receiver.pushFailed env m writerRet).1.closed = m.closed ∧
    (Receiver.pushFailed env m writerRet).1.dlq = m.dlq := by
  have h : ∀ (b : Bool), (writerRet.foldl (fun (acc : Mem × Bool) item =>
      match item.Error with
      | none => acc
      | some _ =>
        ((Receiver.pushRecords env acc.1 item.Records).1,
          acc.2 || (Receiver.pushRecords env acc.1 item.Records).2)) (m, b)).1.closed =
      m.closed ∧
      (writerRet.foldl (fun (acc : Mem × Bool) item =>
      match item.Error with
      | none => acc
      | some _ =>
        ((Receiver.pushRecords env acc.1 item.Records).1,
          acc.2 || (Receiver.pushRecords env acc.1 item.Records).2)) (m, b)).1.dlq =
      m.dlq := by
    induction writerRet generalizing m with
    | nil => intro b; exact ⟨rfl, rfl⟩
    | cons x xs ih =>
      intro b
      rw [List.foldl_cons]
      cases hx : x.Error with
      | none => exact ih m b
      | some e =>
        simp only
        rw [(ih _ _).1, (ih _ _).2]
        exact pushRecords_closed env x.Records m false
  exact h false

theorem recoveryData_closed (m : Mem) :
    m.RecoveryData.closed = m.closed ∧ m.RecoveryData.dlq = m.dlq := by
  unfold Mem.RecoveryData
  generalize m.recovery = xs
  induction xs generalizing m with
  | nil => exact ⟨rfl, rfl⟩
  | cons e es ih =>
    rw [List.foldl_cons, (ih _).1, (ih _).2]
    exact ⟨rfl, rfl⟩

theorem FlushKey_closed {r r' : Receiver} {w : WriterFn} {now : Int} {key : String}
    (h : r.FlushKey w now key = .ok r') :
    r'.buffer.closed = r.buffer.closed ∧ r'.buffer.dlq = r.buffer.dlq := by
  rcases FlushKey_cases r w now key with h1 | ⟨ctrl, h1, _⟩ | ⟨h1, _⟩
  · rw [h1] at h; cases h; exact ⟨rfl, rfl⟩
  · rw [h1] at h; cases h; exact ⟨rfl, rfl⟩
  · rw [h1] at h; cases h; exact ⟨rfl, rfl⟩

theorem flushKeys_closed (w : WriterFn) (now : Int) (keys : List String) {r r' : Receiver}
    (h : r.flushKeys w now keys = .ok r') :
    r'.buffer.closed = r.buffer.closed ∧ r'.buffer.dlq = r.buffer.dlq := by
  induction keys generalizing r with
  | nil =>
    simp only [Receiver.flushKeys, List.foldlM_nil, pure, Except.pure, Except.ok.injEq] at h
    rw [← h]
    exact ⟨rfl, rfl⟩
  | cons k ks ih =>
    simp only [Receiver.flushKeys, List.foldlM_cons] at h
    obtain ⟨r1, h1, h2⟩ := except_bind_ok h
    obtain ⟨a1, a2⟩ := FlushKey_closed h1
    obtain ⟨b1, b2⟩ := ih h2
    exact ⟨b1.trans a1, b2.trans a2⟩

theorem closeKeys_closed (w : WriterFn) (now : Int) (keys : List String) {r r' : Receiver}
    (h : r.closeKeys w now keys = .ok r') :
    r'.buffer.closed = r.buffer.closed ∧ r'.buffer.dlq = r.buffer.dlq := by
  induction keys generalizing r with
  | nil =>
    simp only [Receiver.closeKeys, List.foldlM_nil, pure, Except.pure, Except.ok.injEq] at h
    rw [← h]
    exact ⟨rfl, rfl⟩
  | cons k ks ih =>
    simp only [Receiver.closeKeys, List.foldlM_cons] at h
    obtain ⟨r1, h1, h2⟩ := except_bind_ok h
    obtain ⟨b1, b2⟩ := ih h2
    cases hc : mapGet r.control k with
    | none =>
      simp only [hc] at h1
      obtain ⟨a1, a2⟩ := FlushKey_closed h1
      exact ⟨b1.trans a1, b2.trans a2⟩
    | some c =>
      simp only [hc] at h1
      obtain ⟨a1, a2⟩ := FlushKey_closed h1
      exact ⟨b1.trans a1, b2.trans a2⟩

theorem Write_closed {env : Env} {r r' : Receiver} {w : WriterFn} {now : Int} {record : Log}
    {err : Option String} (h : r.Write env w now record = .ok (r', err)) :
    r'.buffer.closed = false ∧ r'.buffer.dlq = r.buffer.dlq := by
  have hopen := Write_open_of_ok h
  obtain ⟨s1, s2⟩ := send_closed r.buffer (record.Key env).1 (record.Key env).2
  unfold Receiver.Write at h
  simp only [Push_open _ _ hopen] at h
  split at h
  · split at h
    · obtain ⟨r1, h1, h2⟩ := except_bind_ok h
      simp only [pure, Except.pure, Except.ok.injEq, Prod.mk.injEq] at h2
      obtain ⟨a1, a2⟩ := FlushKey_closed h1
      rw [← h2.1]
      exact ⟨a1.trans (s1.trans hopen), a2.trans s2⟩
    · simp only [pure, Except.pure, Except.ok.injEq, Prod.mk.injEq] at h
      rw [← h.1]
      exact ⟨s1.trans hopen, s2⟩
  · simp only [pure, Except.pure, Except.ok.injEq, Prod.mk.injEq] at h
    rw [← h.1]
    exact ⟨s1.trans hopen, s2⟩

theorem Write_total (env : Env) (r : Receiver) (w : WriterFn) (now : Int) (record : Log)
    (hopen : r.buffer.closed = false) :
    ∃ r', r.Write env w now record = .ok (r', none) := by
  unfold Receiver.Write
  simp only [Push_open _ _ hopen]
  split
  · split
    · rename_i c _ _
      obtain ⟨r1, h1⟩ := FlushKey_total
        { r with buffer := r.buffer.send (record.Key env).1 (record.Key env).2,
                 control := mapSet r.control (record.Key env).1 { c with Count := c.Count + 1 } }
        w now (record.Key env).1
      exact ⟨r1, by rw [h1]; rfl⟩
    · exact ⟨_, rfl⟩
  · exact ⟨_, rfl⟩

theorem RecoveryWriteError_total (env : Env) (r : Receiver) (w : WriterFn) (now : Int)
    (writerRet : List WriterReturn) :
    ∃ r', Receiver.RecoveryWriteError env r w now writerRet = .ok r' := by
  unfold Receiver.RecoveryWriteError
  simp only
  split
  · obtain ⟨r1, h1⟩ := flushKeys_total w now
      (r.control.map Prod.fst)
      { r with buffer := (Receiver.pushFailed env r.buffer writerRet).1.RecoveryData,
               recoveryCount := r.recoveryCount + 1 }
    refine ⟨{ r1 with recoveryCount := 0 }, ?_⟩
    unfold Receiver.Flush
    simp only
    rw [h1]
    rfl
  · exact ⟨_, rfl⟩

theorem resending_closed (env : Env) (r : Receiver) (writerRet : List WriterReturn) :
    (r.resending env writerRet).buffer.closed = r.buffer.closed ∧
    (r.resending env writerRet).buffer.dlq = r.buffer.dlq := by
  obtain ⟨a1, a2⟩ := pushFailed_closed env writerRet r.buffer
  obtain ⟨b1, b2⟩ := recoveryData_closed (Receiver.pushFailed env r.buffer writerRet).1
  exact ⟨b1.trans a1, b2.trans a2⟩

theorem RecoveryWriteError_closed {env : Env} {r r' : Receiver} {w : WriterFn} {now : Int}
    {writerRet : List WriterReturn}
    (h : Receiver.RecoveryWriteError env r w now writerRet = .ok r') :
    r'.buffer.closed = r.buffer.closed ∧ r'.buffer.dlq = r.buffer.dlq := by
  unfold Receiver.RecoveryWriteError at h
  simp only at h
  split at h
  · obtain ⟨r1, h1, h2⟩ := except_bind_ok h
    simp only [pure, Except.pure, Except.ok.injEq] at h2
    rw [← h2]
    obtain ⟨a1, a2⟩ := flushKeys_closed w now _ h1
    obtain ⟨b1, b2⟩ := resending_closed env r writerRet
    exact ⟨a1.trans b1, a2.trans b2⟩
  · simp only [pure, Except.pure, Except.ok.injEq] at h
    rw [← h]
    exact pushFailed_closed env writerRet r.buffer

theorem step_closed {env : Env} {r r' : Receiver} {e : Event}
    (hopen : r.buffer.closed = false) (h : r.step env e = .ok r') :
    r'.buffer.closed = false := by
  unfold Receiver.step at h
  split at h
  · obtain ⟨p, hp1, hp2⟩ := except_bind_ok h
    simp only [pure, Except.pure, Except.ok.injEq] at hp2
    rw [← hp2]
    exact (Write_closed hp1).1
  · exact (FlushKey_closed h).1.trans hopen
  · exact (flushKeys_closed _ _ _ h).1.trans hopen
  · split at h
    · cases h
      exact hopen
    · exact (RecoveryWriteError_closed h).1.trans hopen
  · exact (closeKeys_closed _ _ _ h).1.trans hopen
  · cases h
    exact (worker_closed r.buffer).1.trans hopen
  · unfold Receiver.timerWake at h
    split at h
    · exact (FlushKey_closed h).1.trans hopen
    · cases h
      exact hopen

theorem step_total (env : Env) (r : Receiver) (e : Event) (hopen : r.buffer.closed = false) :
    ∃ r', r.step env e = .ok r' := by
  unfold Receiver.step
  split
  · rename_i record _
    obtain ⟨r1, h1⟩ := Write_total env r e.w e.now record hopen
    exact ⟨r1, by rw [h1]; rfl⟩
  · exact FlushKey_total _ _ _ _
  · exact flushKeys_total _ _ _ _
  · split
    · exact ⟨_, rfl⟩
    · exact RecoveryWriteError_total _ _ _ _ _
  · exact closeKeys_total _ _ _ _
  · exact ⟨_, rfl⟩
  · unfold Receiver.timerWake
    split
    · exact FlushKey_total _ _ _ _
    · exact ⟨_, rfl⟩

theorem run_total (env : Env) (es : List Event) (r : Receiver)
    (hopen : r.buffer.closed = false) :
    ∃ r', r.run env es = .ok r' := by
  induction es generalizing r with
  | nil => exact ⟨r, rfl⟩
  | cons e es ih =>
    obtain ⟨r1, h1⟩ := step_total env r e hopen
    obtain ⟨r2, h2⟩ := ih r1 (step_closed hopen h1)
    exact ⟨r2, by simp only [Receiver.run, List.foldlM_cons, h1]; exact h2⟩

theorem step_balanced {env : Env} {r r' : Receiver} {e : Event} {n : Nat}
    (hw : Partitions e.w) (hb : Balanced r n) (hs : r.step env e = .ok r') :
    Balanced r' (n + accepted [e]) := by
  unfold Receiver.step at hs
  split at hs
  · rename_i record hstep
    obtain ⟨p, hp1, hp2⟩ := except_bind_ok hs
    simp only [pure, Except.pure, Except.ok.injEq] at hp2
    subst hp2
    simp only [accepted, hstep, List.map_cons, List.map_nil, List.sum_cons, List.sum_nil]
    exact Write_balanced hw hb hp1
  · rename_i key hstep
    simp only [accepted, hstep, List.map_cons, List.map_nil, List.sum_cons, List.sum_nil]
    exact FlushKey_balanced hw hb hs
  · rename_i hstep
    simp only [accepted, hstep, List.map_cons, List.map_nil, List.sum_cons, List.sum_nil]
    exact flushKeys_balanced hw _ hb hs
  · rename_i hstep
    simp only [accepted, hstep, List.map_cons, List.map_nil, List.sum_cons, List.sum_nil]
    split at hs
    · simp only [pure, Except.pure, Except.ok.injEq] at hs
      subst hs; exact hb
    · rename_i writerRet rest hpend
      obtain ⟨h1, h2, h3⟩ := hb
      have ht : ({ r with pending := rest } : Receiver).tally + failedRecords writerRet = n := by
        rw [← h3]
        simp only [Receiver.tally, hpend, pendingFailed, List.map_cons, List.sum_cons]
        omega
      have hb' : Balanced { r with pending := rest } (n - failedRecords writerRet) :=
        ⟨h1, h2, by omega⟩
      have hn : failedRecords writerRet ≤ n := by omega
      simp only [Nat.add_zero]
      exact RecoveryWriteError_balanced hw hb' hn hs
  · rename_i hstep
    simp only [accepted, hstep, List.map_cons, List.map_nil, List.sum_cons, List.sum_nil]
    unfold Receiver.Close at hs
    simp only at hs
    have hb' : Balanced { r with running := false } n := ⟨hb.1, hb.2.1, hb.2.2⟩
    exact closeKeys_balanced hw _ hb' hs
  · rename_i hstep
    simp only [accepted, hstep, List.map_cons, List.map_nil, List.sum_cons, List.sum_nil]
    simp only [pure, Except.pure, Except.ok.injEq] at hs
    subst hs
    obtain ⟨h1, h2, h3⟩ := hb
    obtain ⟨w1, w2, w3⟩ := worker_held r.buffer
    refine ⟨by rw [w2]; exact h1, by rw [w3]; exact h2, ?_⟩
    simp only [Receiver.tally, w1]
    exact h3
  · rename_i key hstep
    simp only [accepted, hstep, List.map_cons, List.map_nil, List.sum_cons, List.sum_nil]
    unfold Receiver.timerWake at hs
    split at hs
    · exact FlushKey_balanced hw hb hs
    · simp only [pure, Except.pure, Except.ok.injEq] at hs
      subst hs; exact hb

theorem run_balanced {env : Env} (es : List Event) {r r' : Receiver} {n : Nat}
    (hw : ∀ e ∈ es, Partitions e.w) (hb : Balanced r n) (hs : r.run env es = .ok r') :
    Balanced r' (n + accepted es) := by
  induction es generalizing r n with
  | nil =>
    simp only [Receiver.run, List.foldlM_nil, pure, Except.pure, Except.ok.injEq] at hs
    subst hs
    simpa [accepted] using hb
  | cons e es ih =>
    simp only [Receiver.run, List.foldlM_cons] at hs
    obtain ⟨r1, h1, h2⟩ := except_bind_ok hs
    have hb1 := step_balanced (hw e (List.mem_cons_self _ _)) hb h1
    have hb2 := ih (fun e' he' => hw e' (List.mem_cons_of_mem _ he')) hb1 h2
    have : n + accepted [e] + accepted es = n + accepted (e :: es) := by
      simp only [accepted, List.map_cons, List.map_nil, List.sum_cons, List.sum_nil]
      omega
    rw [← this]
    exact hb2

theorem newReceiver_balanced (config : Config) : Balanced (NewReceiver config) 0 := by
  refine ⟨?_, rfl, ?_⟩
  · simp [NewReceiver, NewMem]
  · simp [Receiver.tally, NewReceiver, NewMem, Mem.held, writtenOk, pendingFailed,
      droppedFailed, countRecords]

/-- C4, as stated, fails on the code. With `TryAutoRecover` off, one record is
written, moved to its partition and flushed to a writer that fails the batch:
one record was accepted, none was written without error, the buffer holds
none and the DLQ is empty. The same happens with `TryAutoRecover` on once the
budget is used up: in the recovery scenario of the specification three records
were accepted, one was written, and none is in the buffer or in the DLQ. -/
theorem no_record_dropped_counterexample :
    (∃ r, (NewReceiver ⟨10, 0, false, 3⟩).run exampleEnv
          [⟨.write (exampleRecord "r1"), 0, writerOk⟩, ⟨.worker, 0, writerOk⟩,
           ⟨.flushKey "|||", 1, writerFail⟩] = .ok r ∧
      accepted [⟨.write (exampleRecord "r1"), 0, writerOk⟩, ⟨.worker, 0, writerOk⟩,
           ⟨.flushKey "|||", 1, writerFail⟩] = 1 ∧
      writtenOk r.calls = 0 ∧ r.buffer.held = 0 ∧ r.buffer.GetDLQ = [] ∧ r.pending = []) ∧
    (∃ r, (NewReceiver ⟨10, 0, true, 1⟩).run exampleEnv
          [⟨.write (exampleRecord "r1"), 0, writerOk⟩, ⟨.worker, 0, writerOk⟩,
           ⟨.write (exampleRecord "r2"), 0, writerOk⟩, ⟨.worker, 0, writerOk⟩,
           ⟨.write (exampleRecord "r3"), 0, writerOk⟩, ⟨.worker, 0, writerOk⟩,
           ⟨.flushKey "|||", 1, writerFailTwo⟩, ⟨.recover, 2, writerFail⟩] = .ok r ∧
      accepted [⟨.write (exampleRecord "r1"), 0, writerOk⟩, ⟨.worker, 0, writerOk⟩,
           ⟨.write (exampleRecord "r2"), 0, writerOk⟩, ⟨.worker, 0, writerOk⟩,
           ⟨.write (exampleRecord "r3"), 0, writerOk⟩, ⟨.worker, 0, writerOk⟩,
           ⟨.flushKey "|||", 1, writerFailTwo⟩, ⟨.recover, 2, writerFail⟩] = 3 ∧
      writtenOk r.calls = 1 ∧ r.buffer.held = 0 ∧ r.buffer.GetDLQ = [] ∧ r.pending = []) := by
  refine ⟨⟨_, rfl, ?_⟩, ⟨_, rfl, ?_⟩⟩ <;> decide

/-- C4, amended. For any run from `NewReceiver` (any steps, any clock, any
setting of `TryAutoRecover` and `RecoveryAttempts`) whose writers return reports
that hold as many records as the batch, the run does not panic and the number
of records accepted by `Write` equals the records in reports without error,
plus the records the buffer holds (channel, data pool, recovery pool), plus the
entries of the DLQ, plus the records of failed reports for which a
`RecoveryWriteError` was started and has not run, plus the records of failed
reports for which none was started; the receiver puts nothing into the DLQ. -/
theorem records_accounted (env : Env) (config : Config) (es : List Event)
    (hw : ∀ e ∈ es, Partitions e.w) :
    ∃ r, (NewReceiver config).run env es = .ok r ∧
      accepted es = writtenOk r.calls + r.buffer.held + r.buffer.GetDLQ.length +
        pendingFailed r.pending + droppedFailed r.calls ∧
      r.buffer.GetDLQ = [] := by
  obtain ⟨r, hr⟩ := run_total env es (NewReceiver config) rfl
  obtain ⟨_, h2, h3⟩ := run_balanced es hw (newReceiver_balanced config) hr
  refine ⟨r, hr, ?_, h2⟩
  simp only [Receiver.tally] at h3
  simp only [Mem.GetDLQ, h2, List.length_nil]
  omega

theorem writerOk_partitions : Partitions writerOk := by
  intro key data
  simp [writerOk, okRecords, failedRecords]

theorem writerFail_partitions : Partitions writerFail := by
  intro key data
  simp [writerFail, okRecords, failedRecords]

theorem writerFailTwo_partitions : Partitions writerFailTwo := by
  intro key data
  simp [writerFailTwo, okRecords, failedRecords]
  omega

/-- Witness of `records_accounted`: the recovery scenario of the
specification. -/
theorem records_accounted_witness :
    ∃ r, (NewReceiver ⟨10, 0, true, 1⟩).run exampleEnv
          [⟨.write (exampleRecord "r1"), 0, writerOk⟩, ⟨.worker, 0, writerOk⟩,
           ⟨.write (exampleRecord "r2"), 0, writerOk⟩, ⟨.worker, 0, writerOk⟩,
           ⟨.write (exampleRecord "r3"), 0, writerOk⟩, ⟨.worker, 0, writerOk⟩,
           ⟨.flushKey "|||", 1, writerFailTwo⟩, ⟨.recover, 2, writerFail⟩] = .ok r ∧
      writtenOk r.calls + r.buffer.held + r.buffer.GetDLQ.length +
        pendingFailed r.pending + droppedFailed r.calls = 3 ∧
      droppedFailed r.calls = 2 := by
  obtain ⟨r, hr, hsum, _⟩ := records_accounted exampleEnv ⟨10, 0, true, 1⟩
    [⟨.write (exampleRecord "r1"), 0, writerOk⟩, ⟨.worker, 0, writerOk⟩,
     ⟨.write (exampleRecord "r2"), 0, writerOk⟩, ⟨.worker, 0, writerOk⟩,
     ⟨.write (exampleRecord "r3"), 0, writerOk⟩, ⟨.worker, 0, writerOk⟩,
     ⟨.flushKey "|||", 1, writerFailTwo⟩, ⟨.recover, 2, writerFail⟩]
    (by
      intro e he
      simp only [List.mem_cons, List.mem_singleton, List.not_mem_nil, or_false] at he
      rcases he with h | h | h | h | h | h | h | h <;> subst h
      · exact writerOk_partitions
      · exact writerOk_partitions
      · exact writerOk_partitions
      · exact writerOk_partitions
      · exact writerOk_partitions
      · exact writerOk_partitions
      · exact writerFailTwo_partitions
      · exact writerFail_partitions)
  refine ⟨r, hr, hsum.symm.trans (by decide), ?_⟩
  have hr' : (NewReceiver ⟨10, 0, true, 1⟩).run exampleEnv
      [⟨.write (exampleRecord "r1"), 0, writerOk⟩, ⟨.worker, 0, writerOk⟩,
       ⟨.write (exampleRecord "r2"), 0, writerOk⟩, ⟨.worker, 0, writerOk⟩,
       ⟨.write (exampleRecord "r3"), 0, writerOk⟩, ⟨.worker, 0, writerOk⟩,
       ⟨.flushKey "|||", 1, writerFailTwo⟩, ⟨.recover, 2, writerFail⟩] = .ok r := hr
  have hd : ∀ s, (NewReceiver ⟨10, 0, true, 1⟩).run exampleEnv
      [⟨.write (exampleRecord "r1"), 0, writerOk⟩, ⟨.worker, 0, writerOk⟩,
       ⟨.write (exampleRecord "r2"), 0, writerOk⟩, ⟨.worker, 0, writerOk⟩,
       ⟨.write (exampleRecord "r3"), 0, writerOk⟩, ⟨.worker, 0, writerOk⟩,
       ⟨.flushKey "|||", 1, writerFailTwo⟩, ⟨.recover, 2, writerFail⟩] = .ok s →
      droppedFailed s.calls = 2 := by
    intro s hs
    have : s = _ := (Except.ok.inj (hs.symm.trans rfl))
    subst this
    decide
  exact hd r hr'

/-! ### C11: the content hash -/

theorem ToMsgPack_info (env : Env)
    (hinfo : ∀ (x : Log) (i : Option LogInfo), env.msgpMarshal { x with info := i } =
      env.msgpMarshal x) (x : Log) (i : Option LogInfo) :
    Log.ToMsgPack env { x with info := i } = Log.ToMsgPack env x := by
  unfold Log.ToMsgPack
  rw [hinfo]

theorem UpdateInfo_hmac (env : Env) (l : Log) (huse : env.UseHMAC = true) :
    l.UpdateInfo env =
      { l with HMAC := env.GetMD5Sum (l.ToMsgPack env), info := (l.UpdateInfo env).info } := by
  unfold Log.UpdateInfo
  simp only [huse, if_true]

/-- C11 fails on the code. `UpdateInfo` stores the MD5 of `ToMsgPack()` of
the record as it is, previous hmac included. So when the codec writes the
field `HMAC` (it does not read `info`, and records that differ in `HMAC` only
get different digests) and the hmac of the record is not already that digest,
a second `UpdateInfo` on the unchanged record changes the hmac. -/
theorem hmac_drifts (env : Env) (l : Log) (huse : env.UseHMAC = true)
    (hinfo : ∀ (x : Log) (i : Option LogInfo), env.msgpMarshal { x with info := i } =
      env.msgpMarshal x)
    (hinj : ∀ h1 h2 : String,
      env.GetMD5Sum (Log.ToMsgPack env { l with HMAC := h1 }) =
        env.GetMD5Sum (Log.ToMsgPack env { l with HMAC := h2 }) → h1 = h2)
    (hfresh : l.HMAC ≠ env.GetMD5Sum (l.ToMsgPack env)) :
    (l.UpdateInfo env).HMAC = env.GetMD5Sum (l.ToMsgPack env) ∧
    ((l.UpdateInfo env).UpdateInfo env).HMAC ≠ (l.UpdateInfo env).HMAC := by
  have h1 : (l.UpdateInfo env).HMAC = env.GetMD5Sum (l.ToMsgPack env) := by
    rw [UpdateInfo_hmac env l huse]
  have h2 : ((l.UpdateInfo env).UpdateInfo env).HMAC =
      env.GetMD5Sum (Log.ToMsgPack env { l with HMAC := env.GetMD5Sum (l.ToMsgPack env) }) := by
    rw [UpdateInfo_hmac env (l.UpdateInfo env) huse]
    show env.GetMD5Sum (Log.ToMsgPack env (l.UpdateInfo env)) = _
    rw [UpdateInfo_hmac env l huse]
    exact congrArg env.GetMD5Sum (ToMsgPack_info env hinfo
      { l with HMAC := env.GetMD5Sum (l.ToMsgPack env) } (l.UpdateInfo env).info)
  refine ⟨h1, ?_⟩
  rw [h2, h1]
  intro heq
  have h3 : Log.ToMsgPack env { l with HMAC := l.HMAC } = l.ToMsgPack env := rfl
  rw [← h3] at heq
  have := hinj _ _ heq
  rw [h3] at this
  exact hfresh this.symm

/-- Witness of `hmac_drifts`: the record of `NewLog` for the message `m`, of
hmac `m.`, gets the hmac `mm..` from the next `UpdateInfo`. -/
theorem hmac_drifts_witness :
    ∃ r, NewLog hmacEnv [("msg", Value.str "m")] = .ok r ∧ r.HMAC = "m." ∧
      (r.UpdateInfo hmacEnv).HMAC = "mm.." ∧
      ((emptyLog.UpdateInfo hmacEnv).UpdateInfo hmacEnv).HMAC ≠
        (emptyLog.UpdateInfo hmacEnv).HMAC := by
  have hw := hmac_drifts hmacEnv emptyLog rfl (fun _ _ => rfl)
    (by
      intro h1 h2 heq
      have hd : (String.mk (List.map Char.ofNat (List.map Char.toNat
          (("" : String).data ++ h1.data)) ++ ['.'])) =
          (String.mk (List.map Char.ofNat (List.map Char.toNat
          (("" : String).data ++ h2.data)) ++ ['.'])) := heq
      have hd2 := congrArg String.data hd
      have hid : (Char.ofNat ∘ Char.toNat) = id := by
        funext c; simp
      simp only [List.map_map, hid, List.map_id, List.nil_append] at hd2
      exact String.ext (List.append_cancel_right hd2))
    (by decide)
  refine ⟨_, rfl, by decide, by decide, hw.2⟩

/-! ### C12: the timer goroutine -/

/-- C12 fails on the code. After its sleep the timer goroutine calls
`FlushKey` only `if !r.running`: while the receiver is running a tick does
nothing, whatever the partition holds and however long ago the key was
flushed. -/
theorem timer_idle_while_running (r : Receiver) (w : WriterFn) (now : Int) (key : String)
    (hrun : r.running = true) : r.timerWake w now key = .ok r := by
  unfold Receiver.timerWake
  simp [hrun, pure, Except.pure]

/-- Witness of `timer_idle_while_running`: with `FlushInterval = 1`, one
record written at time 0 and moved to its partition; ticks after one second
and after one hour leave the record where it is and the writer uncalled. -/
theorem timer_idle_while_running_witness :
    ∃ r, (NewReceiver ⟨10, 1, true, 1⟩).run exampleEnv
          [⟨.write (exampleRecord "r1"), 0, writerOk⟩, ⟨.worker, 0, writerOk⟩] = .ok r ∧
      r.running = true ∧ r.timers = ["|||"] ∧
      r.run exampleEnv [⟨.timer "|||", 1000000000, writerOk⟩,
        ⟨.timer "|||", 3600000000000, writerOk⟩] = .ok r ∧
      r.buffer.Get "|||" = [exampleRecord "r1"] ∧ r.calls = [] := by
  let s : Receiver :=
    { NewReceiver ⟨10, 1, true, 1⟩ with
      buffer := { NewMem ⟨10, 1, true, 1⟩ with data := [("|||", [exampleRecord "r1"])] }
      control := [("|||", { Last := 0, Count := 1, running := false })]
      timers := ["|||"] }
  have hrun : (NewReceiver ⟨10, 1, true, 1⟩).run exampleEnv
      [⟨.write (exampleRecord "r1"), 0, writerOk⟩, ⟨.worker, 0, writerOk⟩] = .ok s := by decide
  have h1 := timer_idle_while_running s writerOk 1000000000 "|||" rfl
  have h2 := timer_idle_while_running s writerOk 3600000000000 "|||" rfl
  refine ⟨s, hrun, rfl, rfl, ?_, by decide, rfl⟩
  simp only [Receiver.run, List.foldlM_cons, List.foldlM_nil, Receiver.step, h1, h2]
  rfl

/-! ### Lemmas on `FlushKey` -/

theorem FlushKey_frame {r r' : Receiver} {w : WriterFn} {now : Int} {k : String}
    (h : r.FlushKey w now k = .ok r') :
    r'.running = r.running ∧ r'.config = r.config ∧
    (∃ extra, r'.calls = r.calls ++ extra) ∧
    (∀ k', k' ≠ k → r'.buffer.Get k' = r.buffer.Get k' ∧
      mapGet r'.control k' = mapGet r.control k') := by
  rcases FlushKey_cases r w now k with h1 | ⟨ctrl, h1, _⟩ | ⟨h1, _⟩
  · rw [h1] at h; cases h
    exact ⟨rfl, rfl, ⟨[], by simp⟩, fun _ _ => ⟨rfl, rfl⟩⟩
  · rw [h1] at h; cases h
    refine ⟨rfl, rfl, ⟨[], by simp [Receiver.flushDone]⟩, fun k' hk' => ⟨rfl, ?_⟩⟩
    simp only [Receiver.flushDone]
    exact mapGet_mapSet_ne _ _ (Ne.symm hk')
  · rw [h1] at h; cases h
    refine ⟨rfl, rfl, ⟨_, rfl⟩, fun k' hk' => ⟨?_, ?_⟩⟩
    · simp only [Receiver.flushed, Mem.Get_eq]
      rw [mapGet_mapSet_ne _ _ (Ne.symm hk')]
    · simp only [Receiver.flushed]
      rw [mapGet_mapSet_ne _ _ (Ne.symm hk'), mapGet_mapSet_ne _ _ (Ne.symm hk')]

theorem FlushKey_eq_flushed {r : Receiver} {w : WriterFn} {now : Int} {k : String}
    {c : BufferControl} (hc : mapGet r.control k = some c) (hrun : c.running = false)
    (hdue : ¬ (now - c.Last < r.config.FlushInterval * Second))
    (hdata : r.buffer.Get k ≠ []) :
    r.FlushKey w now k = .ok (r.flushed w now k) := by
  rcases FlushKey_cases r w now k with h1 | ⟨ctrl, _, h2⟩ | ⟨h1, _⟩
  · exfalso
    have hlen : ¬ (r.buffer.Get k).length = 0 := fun e => hdata (List.length_eq_zero.1 e)
    unfold Receiver.FlushKey at h1
    simp only [hc, hdue, decide_False, Bool.false_eq_true, if_false, Option.getD_some, hrun,
      hlen] at h1
    cases hg : mapGet r.buffer.data k with
    | none => exact hdata (by simp [Mem.Get_eq, hg])
    | some recs =>
      have hG : r.buffer.Get k = recs := by simp [Mem.Get_eq, hg]
      simp only [hG] at h1
      cases hrec : (CheckWriterError (w k recs) && r.config.TryAutoRecover &&
          decide (r.recoveryCount < r.config.RecoveryAttempts))
      · simp only [hrec, Bool.false_eq_true, if_false] at h1
        rw [Mem.Clear_len _ _ _ hg] at h1
        simp only [pure, Except.pure, Except.ok.injEq] at h1
        have := congrArg (fun x => x.calls.length) h1
        simp [Receiver.flushDone] at this
      · simp only [hrec, if_true] at h1
        rw [Mem.Clear_len _ _ _ hg] at h1
        simp only [pure, Except.pure, Except.ok.injEq] at h1
        have := congrArg (fun x => x.calls.length) h1
        simp [Receiver.flushDone] at this
  · exact absurd h2 hdata
  · exact h1

theorem flushed_spec (r : Receiver) (w : WriterFn) (now : Int) (k : String) :
    (r.flushed w now k).buffer.Get k = [] ∧
    ∃ call, (r.flushed w now k).calls = r.calls ++ [call] ∧ call.key = k ∧
      call.data = r.buffer.Get k ∧ call.reports = w k (r.buffer.Get k) := by
  refine ⟨?_, ⟨_, rfl, rfl, rfl, rfl⟩⟩
  simp [Receiver.flushed, Mem.Get_eq, mapGet_mapSet_self]

/-! ### C13: `BufferSize = 1` -/

/-- C13, as stated, fails on the code. With `BufferSize = 1` and
`FlushInterval = 0`, the first `Write` for a key returns without a call of the
writer: it pushes the record, creates the control entry with `Count = 1` and
starts the timer, and the record is in the partition once the worker has
taken it. -/
theorem first_write_counterexample :
    ∃ r', (NewReceiver ⟨1, 0, true, 1⟩).Write exampleEnv writerOk 0 (exampleRecord "r1") =
        .ok (r', none) ∧
      r'.calls = [] ∧
      mapGet r'.control "|||" = some { Last := 0, Count := 1, running := false } ∧
      r'.timers = ["|||"] ∧
      r'.buffer.worker.Get "|||" = [exampleRecord "r1"] := by
  refine ⟨_, rfl, ?_, ?_, ?_, ?_⟩ <;> decide

/-- C13, amended. Take a receiver with `BufferSize = 1` whose channel is open.
A `Write` for a key that has a control entry with `Count >= 0` whose flush is
not running pushes the record, counts it and returns what `FlushKey` returns
for the key; when `FlushInterval` has elapsed since `Last` and the partition
of the key is not empty after the push, `Write` returns, the writer has been
called once more, with the records of the partition, and the partition is left
without record. A `Write` for a key that has no control entry makes no call of
`FlushKey`: it pushes the record, creates the control entry with `Count = 1`
and starts the timer. -/
theorem write_flushes_size_one (env : Env) (r : Receiver) (w : WriterFn) (now : Int)
    (record : Log) (hsize : r.config.BufferSize = 1) (hopen : r.buffer.closed = false) :
    (∀ c, mapGet r.control (record.Key env).1 = some c → 0 ≤ c.Count → c.running = false →
      r.Write env w now record =
        (({ r with
            buffer := r.buffer.send (record.Key env).1 (record.Key env).2
            control := mapSet r.control (record.Key env).1 { c with Count := c.Count + 1 } } :
          Receiver).FlushKey w now (record.Key env).1).map (fun r1 => (r1, none)) ∧
      (¬ (now - c.Last < r.config.FlushInterval * Second) →
        (r.buffer.send (record.Key env).1 (record.Key env).2).Get (record.Key env).1 ≠ [] →
        ∃ r', r.Write env w now record = .ok (r', none) ∧
          r'.buffer.Get (record.Key env).1 = [] ∧
          ∃ call, r'.calls = r.calls ++ [call] ∧ call.key = (record.Key env).1 ∧
            call.data =
              (r.buffer.send (record.Key env).1 (record.Key env).2).Get (record.Key env).1 ∧
            call.reports = w (record.Key env).1
              ((r.buffer.send (record.Key env).1 (record.Key env).2).Get
                (record.Key env).1))) ∧
    (mapGet r.control (record.Key env).1 = none →
      ∃ r', r.Write env w now record = .ok (r', none) ∧
        r'.calls = r.calls ∧
        r'.buffer = r.buffer.send (record.Key env).1 (record.Key env).2 ∧
        mapGet r'.control (record.Key env).1 =
          some { Last := now, Count := 1, running := false } ∧
        r'.timers = r.timers ++ [(record.Key env).1]) := by
  refine ⟨fun c hc hcount hidle => ?_, fun hnew => ?_⟩
  · have hw : r.Write env w now record =
        (({ r with
            buffer := r.buffer.send (record.Key env).1 (record.Key env).2
            control := mapSet r.control (record.Key env).1 { c with Count := c.Count + 1 } } :
          Receiver).FlushKey w now (record.Key env).1).map (fun r1 => (r1, none)) := by
      have hge : c.Count + 1 ≥ r.config.BufferSize := by rw [hsize]; omega
      unfold Receiver.Write
      simp only [Push_open _ _ hopen, hc, hge, hidle, and_self, if_true]
      cases ({ r with
            buffer := r.buffer.send (record.Key env).1 (record.Key env).2
            control := mapSet r.control (record.Key env).1 { c with Count := c.Count + 1 } } :
          Receiver).FlushKey w now (record.Key env).1 <;> rfl
    refine ⟨hw, fun hdue hdata => ?_⟩
    have hf := @FlushKey_eq_flushed
      { r with
        buffer := r.buffer.send (record.Key env).1 (record.Key env).2
        control := mapSet r.control (record.Key env).1 { c with Count := c.Count + 1 } }
      w now (record.Key env).1 { c with Count := c.Count + 1 }
      (mapGet_mapSet_self _ _ _) hidle hdue hdata
    obtain ⟨g1, call, g2, g3, g4, g5⟩ := flushed_spec
      ({ r with
            buffer := r.buffer.send (record.Key env).1 (record.Key env).2
            control := mapSet r.control (record.Key env).1 { c with Count := c.Count + 1 } })
      w now (record.Key env).1
    refine ⟨_, by rw [hw, hf]; rfl, g1, call, g2, g3, g4, g5⟩
  · refine ⟨{ r with
        buffer := r.buffer.send (record.Key env).1 (record.Key env).2
        control := mapSet r.control (record.Key env).1
          { Last := now, Count := 1, running := false }
        timers := r.timers ++ [(record.Key env).1] },
      ?_, rfl, rfl, mapGet_mapSet_self _ _ _, rfl⟩
    unfold Receiver.Write
    simp only [Push_open _ _ hopen, hnew]
    rfl

/-- Witness of `write_flushes_size_one`: `BufferSize = 1` and
`FlushInterval = 0`; after a first `Write` and a turn of the worker, the second
`Write` hands the first record to the writer, and the second record waits in
the channel. -/
theorem write_flushes_size_one_witness :
    ∃ r r', (NewReceiver ⟨1, 0, true, 1⟩).run exampleEnv
          [⟨.write (exampleRecord "r1"), 0, writerOk⟩, ⟨.worker, 0, writerOk⟩] = .ok r ∧
      r.calls = [] ∧
      r.Write exampleEnv writerOk 1 (exampleRecord "r2") = .ok (r', none) ∧
      r'.calls.map (fun c => c.data) = [[exampleRecord "r1"]] ∧
      r'.buffer.Get "|||" = [] := by
  have hrun : (NewReceiver ⟨1, 0, true, 1⟩).run exampleEnv
      [⟨.write (exampleRecord "r1"), 0, writerOk⟩, ⟨.worker, 0, writerOk⟩] = .ok
      { NewReceiver ⟨1, 0, true, 1⟩ with
        buffer := { NewMem ⟨1, 0, true, 1⟩ with data := [("|||", [exampleRecord "r1"])] }
        control := [("|||", { Last := 0, Count := 1, running := false })]
        timers := ["|||"] } := by decide
  obtain ⟨_, hflush⟩ := (write_flushes_size_one exampleEnv
    { NewReceiver ⟨1, 0, true, 1⟩ with
      buffer := { NewMem ⟨1, 0, true, 1⟩ with data := [("|||", [exampleRecord "r1"])] }
      control := [("|||", { Last := 0, Count := 1, running := false })]
      timers := ["|||"] } writerOk 1 (exampleRecord "r2")
    rfl rfl).1 { Last := 0, Count := 1, running := false } rfl (by decide) rfl
  obtain ⟨r', h1, h2, call, h3, _, h5, _⟩ := hflush (by decide) (by decide)
  refine ⟨_, r', hrun, rfl, h1, ?_, h2⟩
  rw [h3]
  simp only [List.map_append, List.map_cons, List.map_nil, h5]
  decide

/-! ### C14: `Close` -/

theorem mem_keys_of_mapGet {β : Type} (m : List (String × β)) (k : String) (v : β)
    (h : mapGet m k = some v) : k ∈ m.map Prod.fst := by
  by_contra hk
  rw [mapGet_none_of_not_mem _ _ hk] at h
  cases h

theorem closeKeys_cons {r r' : Receiver} {w : WriterFn} {now : Int} {k : String}
    {ks : List String} (h : r.closeKeys w now (k :: ks) = .ok r') :
    ∃ r0 r1 : Receiver, r0.buffer = r.buffer ∧ r0.calls = r.calls ∧ r0.config = r.config ∧
      r0.running = r.running ∧
      (∀ k', k' ≠ k → mapGet r0.control k' = mapGet r.control k') ∧
      (∀ c, mapGet r.control k = some c → mapGet r0.control k =
        some { c with Count := r.config.BufferSize,
                      Last := now - r.config.FlushInterval * Second }) ∧
      r0.FlushKey w now k = .ok r1 ∧ r1.closeKeys w now ks = .ok r' := by
  simp only [Receiver.closeKeys, List.foldlM_cons] at h
  obtain ⟨r1, h1, h2⟩ := except_bind_ok h
  cases hc : mapGet r.control k with
  | none =>
    simp only [hc] at h1
    refine ⟨r, r1, rfl, rfl, rfl, rfl, fun _ _ => rfl, ?_, h1, h2⟩
    intro c hc'
    cases hc'
  | some c =>
    simp only [hc] at h1
    let forced : BufferControl :=
      { c with Count := r.config.BufferSize, Last := now - r.config.FlushInterval * Second }
    let r0 : Receiver := { r with control := mapSet r.control k forced }
    refine ⟨r0, r1, rfl, rfl, rfl, rfl, ?_, ?_, h1, h2⟩
    · intro k' hk'
      exact mapGet_mapSet_ne _ _ (Ne.symm hk')
    · intro c' hc'
      cases hc'
      exact mapGet_mapSet_self _ _ _

theorem closeKeys_spec (w : WriterFn) (now : Int) (keys : List String) (hnd : keys.Nodup)
    {r r' : Receiver} (h : r.closeKeys w now keys = .ok r') :
    r'.running = r.running ∧ r'.config = r.config ∧
    (∀ k, k ∉ keys → r'.buffer.Get k = r.buffer.Get k ∧
      mapGet r'.control k = mapGet r.control k) ∧
    ∃ extra, r'.calls = r.calls ++ extra ∧
      ∀ k ∈ keys, ∀ c, mapGet r.control k = some c → c.running = false →
        r.buffer.Get k ≠ [] →
        r'.buffer.Get k = [] ∧ ∃ call ∈ extra, call.key = k ∧
          call.data = r.buffer.Get k ∧ call.reports = w k (r.buffer.Get k) := by
  induction keys generalizing r with
  | nil =>
    simp only [Receiver.closeKeys, List.foldlM_nil, pure, Except.pure, Except.ok.injEq] at h
    subst h
    exact ⟨rfl, rfl, fun _ _ => ⟨rfl, rfl⟩, [], by simp, fun k hk => by cases hk⟩
  | cons k ks ih =>
    obtain ⟨r0, r1, hb, hcalls, hcfg, hrun0, hother, hforced, hf, hrest⟩ := closeKeys_cons h
    simp only [List.nodup_cons] at hnd
    obtain ⟨f1, f2, ⟨e1, f3⟩, f4⟩ := FlushKey_frame hf
    obtain ⟨i1, i2, i3, e2, i4, i5⟩ := ih hnd.2 hrest
    refine ⟨by rw [i1, f1, hrun0], by rw [i2, f2, hcfg], ?_, e1 ++ e2, ?_, ?_⟩
    · intro k' hk'
      simp only [List.mem_cons, not_or] at hk'
      obtain ⟨j1, j2⟩ := i3 k' hk'.2
      obtain ⟨g1, g2⟩ := f4 k' hk'.1
      exact ⟨by rw [j1, g1, hb], by rw [j2, g2, hother k' hk'.1]⟩
    · rw [i4, f3, hcalls, List.append_assoc]
    · intro k' hk' c hc hrun hdata
      by_cases hkk : k' = k
      · subst hkk
        have hc0 := hforced c hc
        have hdue : ¬ (now - (now - r.config.FlushInterval * Second) <
            r0.config.FlushInterval * Second) := by
          rw [hcfg]; omega
        have hdata0 : r0.buffer.Get k' ≠ [] := by rw [hb]; exact hdata
        have hfl := FlushKey_eq_flushed (w := w) hc0 hrun hdue hdata0
        rw [hfl] at hf
        cases hf
        obtain ⟨s1, call, s2, s3, s4, s5⟩ := flushed_spec r0 w now k'
        refine ⟨by rw [(i3 k' hnd.1).1]; exact s1, call, ?_, s3, by rw [s4, hb],
          by rw [s5, hb]⟩
        have : e1 = [call] := by
          rw [s2] at f3
          exact (List.append_cancel_left f3).symm
        rw [this]
        simp
      · have hk'' : k' ∈ ks := by
          rcases List.mem_cons.1 hk' with h1 | h1
          · exact absurd h1 hkk
          · exact h1
        obtain ⟨g1, g2⟩ := f4 k' hkk
        have hc1 : mapGet r1.control k' = some c := by rw [g2, hother k' hkk]; exact hc
        have hd1 : r1.buffer.Get k' ≠ [] := by rw [g1, hb]; exact hdata
        obtain ⟨j1, call, j2, j3, j4, j5⟩ := i5 k' hk'' c hc1 hrun hd1
        exact ⟨j1, call, List.mem_append_right _ j2, j3, by rw [j4, g1, hb],
          by rw [j5, g1, hb]⟩

/-- C14. For a receiver whose control map has each key once, `Close()`
returns, leaves `running` false and, for every key of `control` whose
partition is not empty and whose control entry has `running` false, has made
a call of the writer with the records of that partition and left the partition
without record, whatever `Last` and `Count` were. -/
theorem close_flushes (r : Receiver) (w : WriterFn) (now : Int)
    (hnd : (r.control.map Prod.fst).Nodup) :
    ∃ r', r.Close w now = .ok r' ∧ r'.running = false ∧
      ∀ key c, mapGet r.control key = some c → c.running = false →
        r.buffer.Get key ≠ [] →
        r'.buffer.Get key = [] ∧
        ∃ call ∈ r'.calls.drop r.calls.length, call.key = key ∧
          call.data = r.buffer.Get key ∧ call.reports = w key (r.buffer.Get key) := by
  obtain ⟨r', hr'⟩ := closeKeys_total w now (r.control.map Prod.fst) { r with running := false }
  obtain ⟨h1, _, _, extra, h4, h5⟩ := closeKeys_spec w now _ hnd hr'
  refine ⟨r', hr', h1, ?_⟩
  intro key c hc hrun hdata
  obtain ⟨g1, call, g2, g3⟩ := h5 key (mem_keys_of_mapGet _ _ _ hc) c hc hrun hdata
  refine ⟨g1, call, ?_, g3⟩
  rw [h4]
  simpa using g2

/-- Witness of `close_flushes`: two records written a moment ago with
`BufferSize = 10` and `FlushInterval = 60`; `Close` hands both to the writer
and empties the partition. -/
theorem close_flushes_witness :
    ∃ r r', (NewReceiver ⟨10, 60, true, 1⟩).run exampleEnv
          [⟨.write (exampleRecord "r1"), 0, writerOk⟩, ⟨.worker, 0, writerOk⟩,
           ⟨.write (exampleRecord "r2"), 0, writerOk⟩, ⟨.worker, 0, writerOk⟩] = .ok r ∧
      r.Close writerOk 1 = .ok r' ∧ r'.running = false ∧ r'.buffer.Get "|||" = [] ∧
      r'.calls.map (fun c => c.data) = [[exampleRecord "r1", exampleRecord "r2"]] := by
  let s : Receiver :=
    { NewReceiver ⟨10, 60, true, 1⟩ with
      buffer := { NewMem ⟨10, 60, true, 1⟩ with
        data := [("|||", [exampleRecord "r1", exampleRecord "r2"])] }
      control := [("|||", { Last := 0, Count := 2, running := false })]
      timers := ["|||"] }
  have hrun : (NewReceiver ⟨10, 60, true, 1⟩).run exampleEnv
      [⟨.write (exampleRecord "r1"), 0, writerOk⟩, ⟨.worker, 0, writerOk⟩,
       ⟨.write (exampleRecord "r2"), 0, writerOk⟩, ⟨.worker, 0, writerOk⟩] = .ok s := by decide
  obtain ⟨r', h1, h2, h3⟩ := close_flushes s writerOk 1 (by decide)
  have hg := (h3 "|||" { Last := 0, Count := 2, running := false } (by decide) rfl
    (by decide)).1
  have hd : ∀ x, s.Close writerOk 1 = .ok x →
      x.calls.map (fun c => c.data) = [[exampleRecord "r1", exampleRecord "r2"]] := by
    intro x hx
    have : x = _ := (Except.ok.inj (hx.symm.trans rfl))
    subst this
    decide
  exact ⟨s, r', hrun, h1, h2, hg, hd r' h1⟩

/-! ### C15: `Keys` -/

/-- C15 fails on the code. `Clear(k, Len(k))` on a key of the data map
returns with the key still in the map, its slice empty: `Keys()` lists `k`
although `Len(k)` is 0. -/
theorem clear_keeps_key (m : Mem) (k : String) (recs : List Log)
    (hg : mapGet m.data k = some recs) :
    ∃ m', m.Clear k (m.Len k) = .ok m' ∧ k ∈ m'.Keys ∧ m'.Len k = 0 := by
  have hlen : m.Len k = (recs.length : Int) := by simp [Mem.Len, hg]
  refine ⟨{ m with data := mapSet m.data k [] }, ?_, ?_, ?_⟩
  · rw [hlen]
    exact Mem.Clear_len m k recs hg
  · simp only [Mem.Keys, mapSet_keys]
    split
    · assumption
    · simp
  · simp [Mem.Len, mapGet_mapSet_self]

/-- The half of C15 that holds: a key with at least one record is listed. -/
theorem keys_of_len (m : Mem) (k : String) (h : m.Len k ≥ 1) : k ∈ m.Keys := by
  unfold Mem.Len at h
  cases hg : mapGet m.data k with
  | none => simp [hg] at h
  | some recs => exact mem_keys_of_mapGet _ _ _ hg

/-- Witness of `clear_keeps_key`: one record is pushed and moved to its
partition, then `Clear("k", 1)`. -/
theorem clear_keeps_key_witness :
    ∃ m m', (((NewMem ⟨3, 0, true, 1⟩).send "k" (exampleRecord "r1")).worker) = m ∧
      m.Len "k" = 1 ∧ m.Clear "k" 1 = .ok m' ∧ m'.Keys = ["k"] ∧ m'.Len "k" = 0 := by
  obtain ⟨m', h1, _, h3⟩ := clear_keeps_key
    (((NewMem ⟨3, 0, true, 1⟩).send "k" (exampleRecord "r1")).worker) "k"
    [exampleRecord "r1"] (by decide)
  have hk : ∀ x, (((NewMem ⟨3, 0, true, 1⟩).send "k" (exampleRecord "r1")).worker).Clear
      "k" 1 = .ok x → x.Keys = ["k"] := by
    intro x hx
    have : x = _ := (Except.ok.inj (hx.symm.trans rfl))
    subst this
    decide
  exact ⟨_, m', rfl, by decide, h1, hk m' h1, h3⟩

/-! ### C16: `HasRecovery` -/

theorem mapSet_length {β : Type} (m : List (String × β)) (k : String) (v : β) :
    m.length ≤ (mapSet m k v).length ∧ 0 < (mapSet m k v).length := by
  induction m with
  | nil => simp [mapSet]
  | cons e m ih =>
    obtain ⟨a, b⟩ := e
    by_cases h : a = k
    · simp [mapSet, h]
    · simp only [mapSet, h, if_false, List.length_cons]
      omega

theorem recoverLoop_length (es : List (String × List Log)) (m : Mem) :
    m.recovery.length ≤ (es.foldl (fun acc e => acc.recoverEntry e.1 e.2) m).recovery.length := by
  induction es generalizing m with
  | nil => exact Nat.le_refl _
  | cons e es ih =>
    rw [List.foldl_cons]
    refine Nat.le_trans ?_ (ih _)
    rw [(recoverEntry_recovery m e.1 e.2).1]
    exact (mapSet_length _ _ _).1

/-- C16 fails on the code. `HasRecovery()` is false for a new buffer and true
after a `PushRecovery`; it is still true after `RecoveryData()`, when every
recovery partition is empty: `RecoveryData` empties the slices and keeps the
keys, and `HasRecovery` counts the keys. -/
theorem hasRecovery_stays (config : Config) (m : Mem) (key : String) (item : Log) :
    (NewMem config).HasRecovery = false ∧
    (m.PushRecovery key (some item)).1.HasRecovery = true ∧
    (m.PushRecovery key (some item)).1.RecoveryData.HasRecovery = true ∧
    ∀ k, (mapGet (m.PushRecovery key (some item)).1.RecoveryData.recovery k).getD [] = [] := by
  have hpos : 0 < (m.PushRecovery key (some item)).1.recovery.length := by
    unfold Mem.PushRecovery
    exact (mapSet_length _ _ _).2
  refine ⟨by simp [NewMem, Mem.HasRecovery], ?_, ?_, ?_⟩
  · simpa [Mem.HasRecovery] using hpos
  · have := recoverLoop_length (m.PushRecovery key (some item)).1.recovery
      (m.PushRecovery key (some item)).1
    unfold Mem.RecoveryData
    simp only [Mem.HasRecovery, gt_iff_lt, decide_eq_true_eq]
    omega
  · intro k
    unfold Mem.RecoveryData
    rw [recoverLoop_recovery]
    by_cases hk : k ∈ (m.PushRecovery key (some item)).1.recovery.map Prod.fst
    · simp [hk]
    · simp [hk, mapGet_none_of_not_mem _ _ hk]

/-! ### C17: the order of pushes -/

theorem worker_view (m : Mem) (k : String) :
    m.worker.Get k ++ m.worker.queued k = m.Get k ++ m.queued k := by
  unfold Mem.worker
  cases hb : m.buff with
  | nil => simp [Mem.queued, hb]
  | cons it rest =>
    simp only
    by_cases hk : it.key = k
    · subst hk
      cases hg : mapGet m.data it.key <;>
        simp [Mem.Get_eq, Mem.queued, hb, hg, mapGet_mapSet_self]
    · cases hg : mapGet m.data it.key <;>
        simp [Mem.Get_eq, Mem.queued, hb, hg, mapGet_mapSet_ne _ _ hk, hk]

theorem worker_buff (m : Mem) : m.worker.buff = m.buff.tail := by
  unfold Mem.worker
  cases hb : m.buff with
  | nil => simp [hb]
  | cons it rest => rfl

theorem push_view (m : Mem) (key : String) (it : Log) (k : String) :
    (m.send key it).Get k ++ (m.send key it).queued k =
      m.Get k ++ m.queued k ++ (if key = k then [it] else []) := by
  unfold Mem.send
  simp only
  split
  · by_cases hk : key = k <;> simp [Mem.Get_eq, Mem.queued, hk]
  · have hw := worker_view m k
    rw [← hw]
    by_cases hk : key = k <;> simp [Mem.Get_eq, Mem.queued, hk]

theorem pushAll_view (ps : List (String × Log)) (m : Mem) (k : String)
    (hopen : m.closed = false) :
    ∃ m', m.pushAll ps = .ok (m', ps.map (fun _ => none)) ∧ m'.closed = false ∧
      m'.Get k ++ m'.queued k =
        m.Get k ++ m.queued k ++ (ps.filter (fun p => decide (p.1 = k))).map Prod.snd := by
  induction ps generalizing m with
  | nil => exact ⟨m, rfl, hopen, by simp⟩
  | cons p ps ih =>
    obtain ⟨m', h1, h2, h3⟩ := ih (m.send p.1 p.2) ((send_closed m p.1 p.2).1.trans hopen)
    refine ⟨m', ?_, h2, ?_⟩
    · simp only [Mem.pushAll, Push_open _ _ hopen, bind, Except.bind, h1]
      rfl
    · rw [h3, push_view]
      by_cases hk : p.1 = k <;> simp [hk, List.filter_cons]

theorem drainLoop_spec (xs : List BuffItem) (m : Mem) (hlen : m.buff.length ≤ xs.length)
    (k : String) :
    (xs.foldl (fun acc _ => acc.worker) m).buff = [] ∧
    (xs.foldl (fun acc _ => acc.worker) m).Get k = m.Get k ++ m.queued k := by
  induction xs generalizing m with
  | nil =>
    have hb : m.buff = [] := List.length_eq_zero.1 (Nat.le_zero.1 hlen)
    simp [Mem.queued, hb]
  | cons x xs ih =>
    rw [List.foldl_cons]
    have hl : m.worker.buff.length ≤ xs.length := by
      rw [worker_buff, List.length_tail]
      simp only [List.length_cons] at hlen
      omega
    obtain ⟨h1, h2⟩ := ih m.worker hl
    exact ⟨h1, by rw [h2, worker_view]⟩

theorem drain_spec (m : Mem) (k : String) :
    m.drain.buff = [] ∧ m.drain.Get k = m.Get k ++ m.queued k :=
  drainLoop_spec m.buff m (Nat.le_refl _) k

/-- C17, as stated, fails on the code. `Close()` closes the channel and `Push`
sends without a check: on a new buffer that has been closed, `IsReady` is
false and a `Push` of a record does not return, it panics with
`send on closed channel`, so that no sequence of pushes is stored. -/
theorem push_after_close_counterexample :
    ∃ m, (NewMem ⟨2, 0, true, 1⟩).Close = .ok m ∧ m.IsReady = false ∧
      m.Push "a" (some (exampleRecord "1")) = .error "send on closed channel" ∧
      m.pushAll [("a", exampleRecord "1"), ("b", exampleRecord "2")] =
        .error "send on closed channel" := by
  refine ⟨_, rfl, ?_, ?_, ?_⟩ <;> decide

/-- C17, amended. For every buffer whose channel has not been closed, every
sequence of `Push` calls with non-nil records and every key `k`: the calls
return, each without error, the channel is still open and, once the worker has
drained the channel, the channel is empty, `Get(k)` is the previous content of
`k`, followed by the records of key `k` that were already in the channel,
followed by the records pushed with key `k` in the order of the calls (pushes
with other keys add nothing), and `Len(k)` is the length of `Get(k)`. -/
theorem push_order (m : Mem) (ps : List (String × Log)) (k : String)
    (hopen : m.closed = false) :
    ∃ m', m.pushAll ps = .ok (m', ps.map (fun _ => none)) ∧
      m'.closed = false ∧
      m'.drain.buff = [] ∧
      m'.drain.Get k =
        m.Get k ++ m.queued k ++ (ps.filter (fun p => decide (p.1 = k))).map Prod.snd ∧
      m'.drain.Len k = ((m'.drain.Get k).length : Int) := by
  obtain ⟨m', h1, h2, h3⟩ := pushAll_view ps m k hopen
  obtain ⟨d1, d2⟩ := drain_spec m' k
  exact ⟨m', h1, h2, d1, by rw [d2, h3], Mem.Len_eq _ _⟩

/-- Witness of `push_order`: with a channel of two places, five pushes to two
keys. -/
theorem push_order_witness :
    ∃ m', (NewMem ⟨2, 0, true, 1⟩).pushAll
        [("a", exampleRecord "1"), ("b", exampleRecord "2"), ("a", exampleRecord "3"),
         ("a", exampleRecord "4"), ("b", exampleRecord "5")] =
        .ok (m', [none, none, none, none, none]) ∧
      m'.drain.Get "a" = [exampleRecord "1", exampleRecord "3", exampleRecord "4"] ∧
      m'.drain.Get "b" = [exampleRecord "2", exampleRecord "5"] := by
  obtain ⟨m', h1, _, _, h4, _⟩ := push_order (NewMem ⟨2, 0, true, 1⟩)
    [("a", exampleRecord "1"), ("b", exampleRecord "2"), ("a", exampleRecord "3"),
     ("a", exampleRecord "4"), ("b", exampleRecord "5")] "a" rfl
  refine ⟨m', h1, by rw [h4]; decide, ?_⟩
  have h5 : (NewMem ⟨2, 0, true, 1⟩).pushAll
      [("a", exampleRecord "1"), ("b", exampleRecord "2"), ("a", exampleRecord "3"),
       ("a", exampleRecord "4"), ("b", exampleRecord "5")] = .ok
      ({ NewMem ⟨2, 0, true, 1⟩ with
          data := [("a", [exampleRecord "1", exampleRecord "3"]), ("b", [exampleRecord "2"])]
          buff := [⟨"a", exampleRecord "4"⟩, ⟨"b", exampleRecord "5"⟩] },
        [none, none, none, none, none]) := by decide
  have h6 := Except.ok.inj (h1.symm.trans h5)
  rw [(Prod.mk.inj h6).1]
  decide

/-! ### C18: empty elements of `tags` -/

theorem NewLog_single (env : Env) (k : String) (v : Value) (l : Log)
    (h : decodeEntry env emptyLog k v = .ok l) :
    NewLog env [(k, v)] = .ok (l.UpdateInfo env) := by
  unfold NewLog Log.Decode
  rw [decodeLoop_cons]
  show (decodeEntry env emptyLog k v >>= fun l1 => decodeLoop env l1 []) >>= _ = _
  rw [h]
  rfl

theorem UpdateInfo_lists (env : Env) (l : Log) :
    (l.UpdateInfo env).Tags = l.Tags ∧ (l.UpdateInfo env).TraceIP = l.TraceIP ∧
    (l.UpdateInfo env).Args = l.Args := by
  rw [UpdateInfo_frame]
  exact ⟨rfl, rfl, rfl⟩

/-- C18 fails on the code. The case `tags` has no branch for a string: a
scalar goes to the default branch, which appends `fmt.Sprintf("%s", v)`
without looking at its length. When `tags` is neither ignored nor masked, the
entry `tags = ""` appends the empty string to the tags of any record, and
`NewLog` on the bag with that entry alone gives the tags `[""]`. -/
theorem tags_scalar_empty (env : Env) (l : Log)
    (hign : env.IgnoredFields.contains "tags" = false)
    (hmask : env.MaskFields.contains "tags" = false) :
    decodeEntry env l "tags" (Value.str "") = .ok { l with Tags := l.Tags ++ [""] } ∧
    ∃ r, NewLog env [("tags", Value.str "")] = .ok r ∧ r.Tags = [""] := by
  have hk : normKey env "tags" = "tags" := normKey_lit env "tags" (by decide)
  have hstep : ∀ x : Log, decodeEntry env x "tags" (Value.str "") =
      .ok { x with Tags := x.Tags ++ [""] } := by
    intro x
    unfold decodeEntry
    simp only [hk, hign, hmask]
    rfl
  refine ⟨hstep l, _, NewLog_single env _ _ _ (hstep emptyLog), ?_⟩
  rw [(UpdateInfo_lists env _).1]
  rfl

/-- Witness of `tags_scalar_empty`, with empty ignore and mask lists; the
sibling case `trace-ip` drops the empty string. -/
theorem tags_scalar_empty_witness :
    (∃ r, NewLog exampleEnv [("tags", Value.str "")] = .ok r ∧ r.Tags = [""]) ∧
    (∃ r, NewLog exampleEnv [("trace-ip", Value.str "")] = .ok r ∧ r.TraceIP = []) :=
  ⟨(tags_scalar_empty exampleEnv emptyLog (by decide) (by decide)).2, _, rfl, by decide⟩

/-! ### C19: flattening `context`, `trace` and `fields` -/

/-- C19 fails on the code. In `getMap` the case
`map[interface{}]interface{}` has an empty body, and so has the case
`[]string` of the inner switch: a map with arbitrary keys adds nothing to
`args`, and an entry whose value is a list of strings is skipped. When
`context` is neither ignored nor masked, `NewLog` leaves `args` empty for a
`context` given as such a map, and for a `context` whose only entry is a list
of strings. -/
theorem flatten_skips (env : Env)
    (hign : env.IgnoredFields.contains "context" = false)
    (hmask : env.MaskFields.contains "context" = false)
    (m : List (Value × Value)) (key : String) (xs : List String) :
    (∀ pfx src, getMap env pfx (Value.anyMap m) src = some (src.getD [])) ∧
    (∀ pfx src, getMapEntry env pfx src key (Value.strList xs) = src) ∧
    (∃ r, NewLog env [("context", Value.anyMap m)] = .ok r ∧ r.Args = some []) ∧
    (∃ r, NewLog env [("context", Value.map [(key, Value.strList xs)])] = .ok r ∧
      r.Args = some []) := by
  have hk : normKey env "context" = "context" := normKey_lit env "context" (by decide)
  have h1 : decodeEntry env emptyLog "context" (Value.anyMap m) = .ok emptyLog := by
    unfold decodeEntry
    simp only [hk, hign, hmask]
    rfl
  have h2 : decodeEntry env emptyLog "context" (Value.map [(key, Value.strList xs)]) =
      .ok emptyLog := by
    unfold decodeEntry
    simp only [hk, hign, hmask]
    rfl
  refine ⟨fun _ _ => rfl, fun _ _ => rfl, ⟨_, NewLog_single env _ _ _ h1, ?_⟩,
    ⟨_, NewLog_single env _ _ _ h2, ?_⟩⟩
  · rw [(UpdateInfo_lists env _).2.2]; rfl
  · rw [(UpdateInfo_lists env _).2.2]; rfl

/-- Witness of `flatten_skips`, with empty ignore and mask lists; the same
entries in a `map[string]interface{}` with a list of arbitrary values are
flattened. -/
theorem flatten_skips_witness :
    (∃ r, NewLog exampleEnv [("context", Value.anyMap [(Value.str "user", Value.str "u1")])] =
        .ok r ∧ r.Args = some []) ∧
    (∃ r, NewLog exampleEnv [("context", Value.map [("ids", Value.strList ["x", "y"])])] =
        .ok r ∧ r.Args = some []) ∧
    (∃ r, NewLog exampleEnv [("context", Value.map [("user", Value.str "u1"),
        ("ids", Value.list [Value.str "x", Value.str "y"])])] = .ok r ∧
      r.Args = some [("ctx-user", "u1"), ("ctx-ids", "x,y")]) := by
  have h := flatten_skips exampleEnv (by decide) (by decide)
    [(Value.str "user", Value.str "u1")] "ids" ["x", "y"]
  exact ⟨h.2.2.1, h.2.2.2, _, rfl, by decide⟩

/-! ### C20: the field `details` -/

theorem foldl_get_frame {ε : Type} (step : List (String × String) → ε → List (String × String))
    (tgt : ε → String)
    (hframe : ∀ acc e t, tgt e ≠ t → mapGet (step acc e) t = mapGet acc t)
    (es : List ε) (t : String) (h : ∀ e ∈ es, tgt e ≠ t) (acc : List (String × String)) :
    mapGet (es.foldl step acc) t = mapGet acc t := by
  induction es generalizing acc with
  | nil => rfl
  | cons e es ih =>
    rw [List.foldl_cons, ih (fun e' he' => h e' (List.mem_cons_of_mem _ he')),
      hframe acc e t (h e (List.mem_cons_self _ _))]

theorem foldl_get_last {ε : Type} (step : List (String × String) → ε → List (String × String))
    (tgt : ε → String)
    (hframe : ∀ acc e t, tgt e ≠ t → mapGet (step acc e) t = mapGet acc t)
    (pre post : List ε) (e : ε) (val : String)
    (hset : ∀ acc, mapGet (step acc e) (tgt e) = some val)
    (hpost : ∀ e' ∈ post, tgt e' ≠ tgt e) (acc : List (String × String)) :
    mapGet ((pre ++ e :: post).foldl step acc) (tgt e) = some val := by
  rw [List.foldl_append, List.foldl_cons, foldl_get_frame step tgt hframe post _ hpost]
  exact hset _

theorem getMapEntry_frame {env : Env} (pfx : String) (acc : List (String × String)) (e : String × Value)
    (t : String) (h : makeKey env pfx e.1 ≠ t) :
    mapGet (getMapEntry env pfx acc e.1 e.2) t = mapGet acc t := by
  unfold getMapEntry
  split <;> first
    | rfl
    | exact mapGet_mapSet_ne _ _ h

theorem appendNonEmpty_eq (xs dst : List String) :
    appendNonEmpty dst xs = dst ++ xs.filter (fun x => decide (x.length > 0)) := by
  unfold appendNonEmpty
  induction xs generalizing dst with
  | nil => simp
  | cons x xs ih =>
    rw [List.foldl_cons, ih]
    by_cases hx : x.length > 0 <;> simp [hx, List.filter_cons]

theorem makeKey_details {env : Env} (key : String) :
    makeKey env "details" key = "details-" ++ normKey env key := by
  apply String.ext
  have h1 : (makeKey env "details" key).data =
      (("details-".data ++ key.data).map (unicodeToLower env)).map
        (fun c => if c = '_' then '-' else c) := by
    show replaceAllGo ['_'] ['-'] 0 (("details-".data ++ key.data).map (unicodeToLower env)) = _
    exact replaceAllGo_underscore _
  have h2 : ("details-".data.map (unicodeToLower env)).map
      (fun c => if c = '_' then '-' else c) = "details-".data := by
    have h3 : ∀ c ∈ "details-".data, c.toNat ≤ 127 ∧ c.toLower = c ∧ c ≠ '_' := by decide
    rw [List.map_map]
    conv => rhs; rw [← List.map_id "details-".data]
    apply List.map_congr_left
    intro c hc
    obtain ⟨a1, a2, a3⟩ := h3 c hc
    simp [Function.comp, unicodeToLower_ascii env c a1, a2, a3]
  rw [h1, String.data_append, normKey_data, List.map_append, List.map_append, h2]

theorem decodeEntry_details (env : Env) (l : Log) (k : String) (v : Value)
    (hk : normKey env k = "details")
    (hign : env.IgnoredFields.contains "details" = false) :
    decodeEntry env l k v = .ok (decodeDetails env l (maskedValue env k v)) := by
  unfold decodeEntry maskedValue
  simp only [hk, hign]
  rfl

theorem StrMap.get_delete (a : StrMap) (t key : String) :
    (a.delete t).get key = if t = key then none else a.get key := by
  cases a with
  | none => simp [StrMap.delete, StrMap.get]
  | some es => simp [StrMap.delete, StrMap.get, mapGet_mapDelete]

theorem details_key_inj {env : Env} {a b : String} (h : normKey env a ≠ normKey env b) :
    makeKey env "details" a ≠ makeKey env "details" b := by
  rw [makeKey_details, makeKey_details]
  intro heq
  apply h
  have := congrArg String.data heq
  simp only [String.data_append] at this
  exact String.ext (List.append_cancel_left this)

theorem getMap_strMap_other {env : Env} (pfx : String) (m : List (String × String)) (src : StrMap)
    (t : String) (h : ∀ e ∈ m, makeKey env pfx e.1 ≠ t) :
    (getMap env pfx (Value.strMap m) src).get t = src.get t := by
  have := foldl_get_frame (fun acc (e : String × String) => mapSet acc (makeKey env pfx e.1) e.2)
    (fun e => makeKey env pfx e.1) (fun acc e t h => mapGet_mapSet_ne _ _ h) m t h (src.getD [])
  cases src with
  | none => simpa [getMap, StrMap.get, mapGet] using this
  | some es => simpa [getMap, StrMap.get] using this

theorem getMap_map_other {env : Env} (pfx : String) (m : List (String × Value)) (src : StrMap)
    (t : String) (h : ∀ e ∈ m, makeKey env pfx e.1 ≠ t) :
    (getMap env pfx (Value.map m) src).get t = src.get t := by
  have := foldl_get_frame (fun acc (e : String × Value) => getMapEntry env pfx acc e.1 e.2)
    (fun e => makeKey env pfx e.1) (getMapEntry_frame pfx) m t h (src.getD [])
  cases src with
  | none => simpa [getMap, StrMap.get, mapGet] using this
  | some es => simpa [getMap, StrMap.get] using this

theorem getMap_strMap_entry {env : Env} (pfx : String) (pre post : List (String × String))
    (key val : String) (src : StrMap)
    (h : ∀ e ∈ post, makeKey env pfx e.1 ≠ makeKey env pfx key) :
    (getMap env pfx (Value.strMap (pre ++ (key, val) :: post)) src).get (makeKey env pfx key) =
      some val := by
  have := foldl_get_last (fun acc (e : String × String) => mapSet acc (makeKey env pfx e.1) e.2)
    (fun e => makeKey env pfx e.1) (fun acc e t h => mapGet_mapSet_ne _ _ h) pre post (key, val) val
    (fun acc => mapGet_mapSet_self _ _ _) h (src.getD [])
  simpa [getMap, StrMap.get] using this

theorem getMap_map_entry {env : Env} (pfx : String) (pre post : List (String × Value))
    (key s : String) (src : StrMap)
    (h : ∀ e ∈ post, makeKey env pfx e.1 ≠ makeKey env pfx key) :
    (getMap env pfx (Value.map (pre ++ (key, Value.str s) :: post)) src).get (makeKey env pfx key) =
      some s := by
  have := foldl_get_last (fun acc (e : String × Value) => getMapEntry env pfx acc e.1 e.2)
    (fun e => makeKey env pfx e.1) (getMapEntry_frame pfx) pre post (key, Value.str s) s
    (fun acc => by simp [getMapEntry, fmtS, mapGet_mapSet_self]) h (src.getD [])
  simpa [getMap, StrMap.get] using this

theorem decodeDetails_spec (env : Env) (l : Log) (v : Value) :
    ((getMap env "details" v l.Args).get "details-tags" = none →
      (decodeDetails env l v).Args = getMap env "details" v l.Args ∧
      (decodeDetails env l v).Tags = l.Tags) ∧
    (∀ value, (getMap env "details" v l.Args).get "details-tags" = some value →
      (decodeDetails env l v).Tags =
        l.Tags ++ (Split value ',').filter (fun s => decide (s.length > 0)) ∧
      (decodeDetails env l v).Args.get "details-tags" = none ∧
      ∀ key, key ≠ "details-tags" →
        (decodeDetails env l v).Args.get key = (getMap env "details" v l.Args).get key) := by
  refine ⟨?_, ?_⟩
  · intro hnone
    unfold decodeDetails
    simp only [hnone]
    exact ⟨trivial, trivial⟩
  · intro value hsome
    unfold decodeDetails
    simp only [hsome, appendNonEmpty_eq]
    refine ⟨trivial, ?_, ?_⟩
    · rw [StrMap.get_delete]; simp
    · intro key hkey
      rw [StrMap.get_delete, if_neg (Ne.symm hkey)]

theorem decodeDetails_get (env : Env) (l : Log) (v : Value) :
    (decodeDetails env l v).Args.get "details-tags" = none ∧
    ∀ key, key ≠ "details-tags" →
      (decodeDetails env l v).Args.get key = (getMap env "details" v l.Args).get key := by
  obtain ⟨h1, h2⟩ := decodeDetails_spec env l v
  cases hg : (getMap env "details" v l.Args).get "details-tags" with
  | none =>
    obtain ⟨a, _⟩ := h1 hg
    exact ⟨by rw [a]; exact hg, fun key _ => by rw [a]⟩
  | some value =>
    obtain ⟨_, b, c⟩ := h2 value hg
    exact ⟨b, c⟩

theorem getMap_strMap_as_map (env : Env) (pfx : String) (ms : List (String × String))
    (src : StrMap) :
    getMap env pfx (Value.strMap ms) src =
      getMap env pfx (Value.map (ms.map (fun e => (e.1, Value.str e.2)))) src := by
  have h : ∀ acc : List (String × String),
      ms.foldl (fun acc e => mapSet acc (makeKey env pfx e.1) e.2) acc =
      (ms.map (fun e => (e.1, Value.str e.2))).foldl
        (fun acc e => getMapEntry env pfx acc e.1 e.2) acc := by
    induction ms with
    | nil => intro acc; rfl
    | cons e es ih =>
      intro acc
      simp only [List.map_cons, List.foldl_cons]
      rw [ih]
      simp [getMapEntry, fmtS]
  simp only [getMap]
  rw [h]

theorem details_key_ne_tags {env : Env} {key : String} (h : normKey env key ≠ "tags") :
    "details-" ++ normKey env key ≠ "details-tags" := by
  intro heq
  apply h
  have h1 : ("details-" ++ normKey env key).data = ("details-" ++ "tags").data :=
    congrArg String.data heq
  simp only [String.data_append] at h1
  exact String.ext (List.append_cancel_left h1)

/-- C20, as stated, fails on the code. An entry of `details` whose value is
nil adds nothing to `args`; of two entries whose keys have one normal form only
the one visited last is in `args`; when `details` is on the mask list the
entries are not added, `args` gets `details-value = "*"`; and a `details` given
as a map with arbitrary keys adds nothing. -/
theorem details_counterexample :
    (∃ r, NewLog exampleEnv [("details", Value.map [("a", Value.nil), ("b", Value.str "x")])] =
        .ok r ∧ r.Args = some [("details-b", "x")]) ∧
    (∃ r, NewLog exampleEnv [("details", Value.strMap [("Req_Id", "1"), ("req-id", "2")])] =
        .ok r ∧ r.Args = some [("details-req-id", "2")]) ∧
    (∃ r, NewLog { exampleEnv with MaskFields := ["details"] }
        [("details", Value.strMap [("a", "b")])] = .ok r ∧
      r.Args = some [("details-value", "*")]) ∧
    (∃ r, NewLog exampleEnv [("details", Value.anyMap [(Value.str "a", Value.str "b")])] =
        .ok r ∧ r.Args = some []) := by
  refine ⟨⟨_, rfl, ?_⟩, ⟨_, rfl, ?_⟩, ⟨_, rfl, ?_⟩, ⟨_, rfl, ?_⟩⟩ <;> decide

/-- C20, amended. Take an entry whose normalised key is `details`, neither
ignored nor masked, and whose value is a `map[string]interface{}`; a
`map[string]string` is decoded as the map with the same string values.
Decoding the entry into any record returns and changes `args` and `tags` only.
Every entry of the map whose value is a string, whose normalised key is not
`tags` and is not the normalised key of an entry visited later, is in `args`
under `details-` followed by its normalised key; the entries of `args` under
other keys are kept; `args` has no key `details-tags`. If the entry visited
last among those of normalised key `tags` has the string value `s`, the
non-empty comma-separated pieces of `s` are appended to `tags` in their order;
if no entry has the normalised key `tags` and `args` had no key `details-tags`,
`tags` are as they were. -/
theorem details_flatten (env : Env) (l : Log) (k : String) (m : List (String × Value))
    (hk : normKey env k = "details")
    (hign : env.IgnoredFields.contains "details" = false)
    (hmask : env.MaskFields.contains "details" = false) :
    (∃ l', decodeEntry env l k (Value.map m) = .ok l' ∧
      l' = { l with Args := l'.Args, Tags := l'.Tags } ∧
      (∀ pre post key s, m = pre ++ (key, Value.str s) :: post →
        (∀ e ∈ post, normKey env e.1 ≠ normKey env key) → normKey env key ≠ "tags" →
        l'.Args.get ("details-" ++ normKey env key) = some s) ∧
      (∀ t, t ≠ "details-tags" → (∀ e ∈ m, "details-" ++ normKey env e.1 ≠ t) →
        l'.Args.get t = l.Args.get t) ∧
      l'.Args.get "details-tags" = none ∧
      (∀ pre post key s, m = pre ++ (key, Value.str s) :: post →
        (∀ e ∈ post, normKey env e.1 ≠ "tags") → normKey env key = "tags" →
        l'.Tags = l.Tags ++ (Split s ',').filter (fun x => decide (x.length > 0))) ∧
      ((∀ e ∈ m, normKey env e.1 ≠ "tags") → l.Args.get "details-tags" = none →
        l'.Tags = l.Tags)) ∧
    (∀ ms : List (String × String), decodeEntry env l k (Value.strMap ms) =
      decodeEntry env l k (Value.map (ms.map (fun e => (e.1, Value.str e.2))))) := by
  have hmv : ∀ v, maskedValue env k v = v := by
    intro v
    unfold maskedValue
    simp only [hk, hmask, Bool.false_eq_true, if_false]
  have hdec : ∀ v, decodeEntry env l k v = .ok (decodeDetails env l v) := by
    intro v
    rw [decodeEntry_details env l k v hk hign, hmv]
  obtain ⟨hspec1, hspec2⟩ := decodeDetails_spec env l (Value.map m)
  obtain ⟨hget1, hget2⟩ := decodeDetails_get env l (Value.map m)
  refine ⟨⟨_, hdec _, decodeDetails_frame _ _, ?_, ?_, hget1, ?_, ?_⟩, ?_⟩
  · intro pre post key s hm hpost hne
    rw [hget2 _ (details_key_ne_tags hne), hm, ← makeKey_details]
    exact getMap_map_entry _ _ _ _ _ _ (fun e he => details_key_inj (hpost e he))
  · intro t ht h
    rw [hget2 t ht]
    exact getMap_map_other _ _ _ _ (fun e he => by rw [makeKey_details]; exact h e he)
  · intro pre post key s hm hpost hkey
    have hval : (getMap env "details" (Value.map m) l.Args).get "details-tags" = some s := by
      have := @getMap_map_entry env "details" pre post key s l.Args
        (fun e he => by
          rw [makeKey_details, makeKey_details, hkey]
          exact details_key_ne_tags (hpost e he))
      rw [makeKey_details, hkey] at this
      rw [hm]
      exact this
    exact (hspec2 s hval).1
  · intro hno hargs
    have hval : (getMap env "details" (Value.map m) l.Args).get "details-tags" = none := by
      rw [getMap_map_other "details" m l.Args "details-tags"
        (fun e he => by rw [makeKey_details]; exact details_key_ne_tags (hno e he))]
      exact hargs
    exact (hspec1 hval).2
  · intro ms
    rw [hdec, hdec]
    unfold decodeDetails
    rw [getMap_strMap_as_map]

/-- Witness of `details_flatten`: `details` with a key `tags` and a key
`Req_Id`, decoded into a record that has one tag and one `args` entry. -/
theorem details_flatten_witness :
    (∃ r, NewLog exampleEnv [("tags", Value.strList ["t0"]), ("host", Value.str "h1"),
        ("Details", Value.strMap [("tags", "a,,b"), ("Req_Id", "7")])] = .ok r ∧
      r.Tags = ["t0", "a", "b"] ∧ r.Args = some [("host", "h1"), ("details-req-id", "7")]) ∧
    ∃ l', decodeEntry exampleEnv emptyLog "Details"
        (Value.map [("tags", Value.str "a,,b"), ("Req_Id", Value.str "7")]) = .ok l' ∧
      l'.Tags = ["a", "b"] ∧ l'.Args.get "details-tags" = none ∧
      l'.Args.get "details-req-id" = some "7" := by
  obtain ⟨⟨l', h1, _, h3, _, h5, h6, _⟩, _⟩ := details_flatten exampleEnv emptyLog "Details"
    [("tags", Value.str "a,,b"), ("Req_Id", Value.str "7")] (by decide) (by decide) (by decide)
  refine ⟨⟨_, rfl, by decide, by decide⟩, l', h1, ?_, h5, ?_⟩
  · rw [h6 [] [("Req_Id", Value.str "7")] "tags" "a,,b" rfl (by decide) (by decide)]
    decide
  · exact h3 [("tags", Value.str "a,,b")] [] "Req_Id" "7" rfl (by simp) (by decide)

/-! ### C23, C30: entries that leave no trace -/

theorem Decode_skip (env : Env) (l0 : Log) (pre post : List (String × Value)) (k : String)
    (v : Value) (hskip : ∀ l, decodeEntry env l k v = .ok l) :
    l0.Decode env (pre ++ (k, v) :: post) = l0.Decode env (pre ++ post) := by
  unfold Log.Decode
  rw [decodeLoop_append, decodeLoop_append]
  cases h1 : decodeLoop env l0 pre with
  | error e => rfl
  | ok l1 =>
    simp only [bind, Except.bind]
    rw [decodeLoop_cons, hskip l1]
    rfl

theorem decodeEntry_ignored (env : Env) (l : Log) (k : String) (v : Value)
    (hign : env.IgnoredFields.contains (normKey env k) = true) :
    decodeEntry env l k v = .ok l := by
  unfold decodeEntry
  simp only [hign]
  split <;> rfl

/-- C23. An entry whose normalised key is on the ignore list is dropped:
the loop body of `Decode` leaves every record as it is and returns, whatever
the value, whether or not the key is also on the mask list or is a case label
of the switch; so `NewLog` yields for the bag the result (record, or panic of
another entry) that it yields for the bag without the entry. -/
theorem ignored_dropped (env : Env) (pre post : List (String × Value)) (k : String) (v : Value)
    (hign : env.IgnoredFields.contains (normKey env k) = true) :
    (∀ l, decodeEntry env l k v = .ok l) ∧
    NewLog env (pre ++ (k, v) :: post) = NewLog env (pre ++ post) :=
  ⟨fun l => decodeEntry_ignored env l k v hign,
   Decode_skip env emptyLog pre post k v (fun l => decodeEntry_ignored env l k v hign)⟩

theorem ignored_dropped_witness :
    ignoreEnv.IgnoredFields.contains (normKey ignoreEnv "Time") = true ∧
    ((∀ l, decodeEntry ignoreEnv l "Time" (.int 5) = .ok l) ∧
     NewLog ignoreEnv ([("msg", .str "m")] ++ ("Time", .int 5) :: [("lvl", .str "debug")]) =
       NewLog ignoreEnv ([("msg", .str "m")] ++ [("lvl", .str "debug")])) ∧
    (∃ r, NewLog ignoreEnv [("msg", .str "m"), ("Time", .int 5), ("lvl", .str "debug")] = .ok r ∧
      r.Time = "" ∧ r.Message = "m" ∧ r.Level = "debug") :=
  ⟨by decide,
   ignored_dropped ignoreEnv [("msg", .str "m")] [("lvl", .str "debug")] "Time" (.int 5)
     (by decide),
   ⟨_, rfl, by decide, by decide, by decide⟩⟩

theorem decodeEntry_discarded (env : Env) (l : Log) (k : String) (v : Value)
    (hk : normKey env k ∈ ["ip", "env", "tags-env"]) :
    decodeEntry env l k v = .ok l := by
  simp only [List.mem_cons, List.mem_singleton, List.not_mem_nil, or_false] at hk
  unfold decodeEntry
  simp only
  split
  · rfl
  · split
    · rfl
    · rcases hk with hk | hk | hk <;> rw [hk] <;> rfl

/-- C30. An entry whose normalised key is `ip`, `env` or `tags-env` is
discarded: the cases `ip` and `env` of `Decode` have empty bodies (and
`tags-env` is `env` once `tags-` is removed), so the loop body leaves every
record as it is and returns, whatever the value and the ignore and mask lists;
`NewLog` yields for the bag the result that it yields for the bag without the
entry. -/
theorem ip_env_discarded (env : Env) (pre post : List (String × Value)) (k : String) (v : Value)
    (hk : normKey env k ∈ ["ip", "env", "tags-env"]) :
    (∀ l, decodeEntry env l k v = .ok l) ∧
    NewLog env (pre ++ (k, v) :: post) = NewLog env (pre ++ post) :=
  ⟨fun l => decodeEntry_discarded env l k v hk,
   Decode_skip env emptyLog pre post k v (fun l => decodeEntry_discarded env l k v hk)⟩

theorem ip_env_discarded_witness :
    normKey exampleEnv "Tags_Env" ∈ ["ip", "env", "tags-env"] ∧
    ((∀ l, decodeEntry exampleEnv l "Tags_Env" (.str "prod") = .ok l) ∧
     NewLog exampleEnv ([("msg", .str "m")] ++ ("Tags_Env", .str "prod") :: []) =
       NewLog exampleEnv ([("msg", .str "m")] ++ [])) ∧
    NewLog exampleEnv [("ip", .str "10.0.0.1"), ("env", .str "prod")] = NewLog exampleEnv [] :=
  ⟨by decide,
   ip_env_discarded exampleEnv [("msg", .str "m")] [] "Tags_Env" (.str "prod") (by decide),
   by decide⟩

/-! ### C26: `Healthcheck` -/

theorem closeKeys_running (w : WriterFn) (now : Int) (keys : List String) {r r' : Receiver}
    (h : r.closeKeys w now keys = .ok r') : r'.running = r.running := by
  induction keys generalizing r with
  | nil =>
    simp only [Receiver.closeKeys, List.foldlM_nil, pure, Except.pure, Except.ok.injEq] at h
    rw [← h]
  | cons k ks ih =>
    obtain ⟨r0, r1, _, _, _, hrun, _, _, h1, h2⟩ := closeKeys_cons h
    rw [ih h2, (FlushKey_frame h1).1, hrun]

/-- C26. `Healthcheck()` returns nil exactly when the receiver is running,
the buffer is ready and the writer is ready. Otherwise it returns the error of
the first of the three conditions that fails, in that order:
`receiver is not running`, `buffer is not ready`, `writer is not ready`, three
different errors. `Close()` returns and leaves a receiver on which
`Healthcheck()` fails with `receiver is not running`. -/
theorem healthcheck_iff (r : Receiver) (writerReady : Bool) (w : WriterFn) (now : Int) :
    (r.Healthcheck writerReady = none ↔
      (r.running = true ∧ r.buffer.IsReady = true ∧ writerReady = true)) ∧
    (r.running = false → r.Healthcheck writerReady = some "receiver is not running") ∧
    (r.running = true → r.buffer.IsReady = false →
      r.Healthcheck writerReady = some "buffer is not ready") ∧
    (r.running = true → r.buffer.IsReady = true → writerReady = false →
      r.Healthcheck writerReady = some "writer is not ready") ∧
    ("receiver is not running" ≠ "buffer is not ready" ∧
      "receiver is not running" ≠ "writer is not ready" ∧
      "buffer is not ready" ≠ "writer is not ready") ∧
    ∃ r', r.Close w now = .ok r' ∧ r'.running = false ∧
      r'.Healthcheck writerReady = some "receiver is not running" := by
  refine ⟨?_, ?_, ?_, ?_, ⟨by decide, by decide, by decide⟩, ?_⟩
  · unfold Receiver.Healthcheck
    cases r.running <;> cases r.buffer.IsReady <;> cases writerReady <;> simp
  · intro h1
    simp [Receiver.Healthcheck, h1]
  · intro h1 h2
    simp [Receiver.Healthcheck, h1, h2]
  · intro h1 h2 h3
    simp [Receiver.Healthcheck, h1, h2, h3]
  · obtain ⟨r', h⟩ := closeKeys_total w now (r.control.map Prod.fst) { r with running := false }
    have hrun : r'.running = false := closeKeys_running w now _ h
    refine ⟨r', h, hrun, ?_⟩
    simp [Receiver.Healthcheck, hrun]

theorem healthcheck_example :
    (NewReceiver ⟨3, 10, true, 1⟩).Healthcheck true = none ∧
    (NewReceiver ⟨3, 10, true, 1⟩).Healthcheck false = some "writer is not ready" ∧
    (∃ m, (NewMem ⟨3, 10, true, 1⟩).Close = .ok m ∧
      ({ NewReceiver ⟨3, 10, true, 1⟩ with buffer := m }).Healthcheck true =
        some "buffer is not ready") := by
  refine ⟨by decide, by decide, _, rfl, by decide⟩

/-! ### C27: single flight -/

/-- C27. When the control entry of the key has `running` set, `FlushKey(key)`
returns nil and leaves the receiver as it was: no call of the writer, the
buffer, the control map (the entry of the key with its `running`, `Count` and
`Last`), the recovery counter and the goroutines started are unchanged,
whatever the clock reads. -/
theorem single_flight (r : Receiver) (w : WriterFn) (now : Int) (key : String)
    (c : BufferControl) (hc : mapGet r.control key = some c) (hrun : c.running = true) :
    r.FlushKey w now key = .ok r := by
  unfold Receiver.FlushKey
  simp only [hc, Option.getD_some, hrun, if_true]
  split <;> rfl

theorem single_flight_witness :
    mapGet ({ NewReceiver ⟨1, 0, true, 1⟩ with
        control := [("k", ⟨0, 5, true⟩)],
        buffer := { NewMem ⟨1, 0, true, 1⟩ with data := [("k", [exampleRecord "a"])] } } :
      Receiver).control "k" = some ⟨0, 5, true⟩ ∧
    ({ NewReceiver ⟨1, 0, true, 1⟩ with
        control := [("k", ⟨0, 5, true⟩)],
        buffer := { NewMem ⟨1, 0, true, 1⟩ with data := [("k", [exampleRecord "a"])] } } :
      Receiver).FlushKey writerOk 7000000000 "k" =
      .ok { NewReceiver ⟨1, 0, true, 1⟩ with
        control := [("k", ⟨0, 5, true⟩)],
        buffer := { NewMem ⟨1, 0, true, 1⟩ with data := [("k", [exampleRecord "a"])] } } :=
  ⟨by decide, single_flight _ writerOk 7000000000 "k" ⟨0, 5, true⟩ (by decide) rfl⟩

/-! ### C24: `audit` and `auto-index` -/

theorem decodeField_flags {env : Env} {l l' : Log} {key : String} {v : Value}
    (h : decodeField env l key v = .ok l') :
    (key ≠ "audit" → l'.Audit = l.Audit) ∧ (key ≠ "auto-index" → l'.AutoIndex = l.AutoIndex) ∧
    (l.Audit ≠ none → l'.Audit ≠ none) ∧ (l.AutoIndex ≠ none → l'.AutoIndex ≠ none) := by
  unfold decodeField at h
  split at h
  all_goals first
    | (simp only [bind, Except.bind, pure, Except.pure] at h
       split at h
       · cases h
       · cases h; simp)
    | (simp only [pure, Except.pure, Except.ok.injEq] at h; subst h
       first
         | (rw [decodeTraceIP_frame]; simp)
         | (rw [decodeTags_frame]; simp)
         | (rw [decodeDetails_frame]; simp))
    | (simp only [pure, Except.pure, Except.ok.injEq] at h; subst h; simp)
    | (have h2 := setArg_frame h; rw [h2]; simp)
    | (have h2 := decodeArgs_frame h; rw [h2]; simp)
    | skip
  have h2 := decodeFiltered_frame h
  rw [h2]
  simp

theorem decodeEntry_flags {env : Env} {l l' : Log} {k : String} {v : Value}
    (h : decodeEntry env l k v = .ok l') :
    ((normKey env k = "audit" → env.IgnoredFields.contains (normKey env k) = true) →
      l'.Audit = l.Audit) ∧
    ((normKey env k = "auto-index" → env.IgnoredFields.contains (normKey env k) = true) →
      l'.AutoIndex = l.AutoIndex) ∧
    (l.Audit ≠ none → l'.Audit ≠ none) ∧ (l.AutoIndex ≠ none → l'.AutoIndex ≠ none) := by
  unfold decodeEntry at h
  simp only at h
  split at h
  · simp only [pure, Except.pure, Except.ok.injEq] at h; subst h; simp
  · split at h
    · simp only [pure, Except.pure, Except.ok.injEq] at h; subst h; simp
    · rename_i hign
      have hf := decodeField_flags h
      refine ⟨fun hk => hf.1 (fun e => hign (hk e)), fun hk => hf.2.1 (fun e => hign (hk e)),
        hf.2.2.1, hf.2.2.2⟩

theorem decodeEntry_bool {env : Env} {l l' : Log} {k : String} {b : Bool}
    (hign : env.IgnoredFields.contains (normKey env k) = false)
    (h : decodeEntry env l k (.bool b) = .ok l') :
    (normKey env k = "audit" → l'.Audit = some b) ∧
    (normKey env k = "auto-index" → l'.AutoIndex = some b) := by
  unfold decodeEntry at h
  simp only [hign] at h
  constructor
  · intro hk
    rw [hk] at h
    cases hm : env.MaskFields.contains "audit"
    · simp only [hm] at h
      cases h; rfl
    · simp only [hm] at h
      cases h
  · intro hk
    rw [hk] at h
    cases hm : env.MaskFields.contains "auto-index"
    · simp only [hm] at h
      cases h; rfl
    · simp only [hm] at h
      cases h

theorem decodeLoop_flags {env : Env} {data : List (String × Value)} {l l' : Log}
    (h : decodeLoop env l data = .ok l') :
    ((∀ e ∈ data, normKey env e.1 = "audit" → env.IgnoredFields.contains (normKey env e.1) = true) →
      l'.Audit = l.Audit) ∧
    ((∀ e ∈ data, normKey env e.1 = "auto-index" →
      env.IgnoredFields.contains (normKey env e.1) = true) → l'.AutoIndex = l.AutoIndex) ∧
    (l.Audit ≠ none → l'.Audit ≠ none) ∧ (l.AutoIndex ≠ none → l'.AutoIndex ≠ none) := by
  induction data generalizing l with
  | nil =>
    rw [decodeLoop_nil] at h
    cases h
    exact ⟨fun _ => rfl, fun _ => rfl, id, id⟩
  | cons e es ih =>
    rw [decodeLoop_cons] at h
    obtain ⟨l1, h1, h2⟩ := except_bind_ok h
    have hs := decodeEntry_flags h1
    have hr := ih h2
    refine ⟨fun hk => ?_, fun hk => ?_, fun hn => hr.2.2.1 (hs.2.2.1 hn),
      fun hn => hr.2.2.2 (hs.2.2.2 hn)⟩
    · rw [hr.1 (fun e' he' => hk e' (List.mem_cons_of_mem _ he')),
        hs.1 (hk e (List.mem_cons_self _ _))]
    · rw [hr.2.1 (fun e' he' => hk e' (List.mem_cons_of_mem _ he')),
        hs.2.1 (hk e (List.mem_cons_self _ _))]

/-- C24 does not hold as stated: for the empty bag (no `audit` and no
`auto-index` key) `NewLog` returns a record whose `audit` and `auto-index` are
present, with value false. -/
theorem audit_absent_counterexample :
    ∃ r, NewLog exampleEnv [] = .ok r ∧ r.Audit ≠ none ∧ r.AutoIndex ≠ none ∧
      r.Audit = some false ∧ r.AutoIndex = some false :=
  ⟨_, rfl, by decide, by decide, rfl, rfl⟩

/-- C24, amended. `NewLog` starts from a record whose `audit` and
`auto-index` point to false, so in every record it returns both are present.
For a bag without an entry that is read as `audit` (normalised key `audit`, not
ignored) the record has `audit` present with value false; for a bag in which
the last entry read as `audit` carries the boolean `b`, it has `audit` present
with value `b`. The same holds for `auto-index`. -/
theorem audit_flags (env : Env) (bag : List (String × Value)) (r : Log)
    (h : NewLog env bag = .ok r) :
    (r.Audit ≠ none ∧ r.AutoIndex ≠ none) ∧
    ((∀ e ∈ bag, normKey env e.1 = "audit" → env.IgnoredFields.contains (normKey env e.1) = true) →
      r.Audit = some false) ∧
    ((∀ e ∈ bag, normKey env e.1 = "auto-index" →
      env.IgnoredFields.contains (normKey env e.1) = true) → r.AutoIndex = some false) ∧
    (∀ pre post k b, bag = pre ++ (k, Value.bool b) :: post → normKey env k = "audit" →
      env.IgnoredFields.contains (normKey env k) = false →
      (∀ e ∈ post, normKey env e.1 = "audit" → env.IgnoredFields.contains (normKey env e.1) = true) →
      r.Audit = some b) ∧
    (∀ pre post k b, bag = pre ++ (k, Value.bool b) :: post → normKey env k = "auto-index" →
      env.IgnoredFields.contains (normKey env k) = false →
      (∀ e ∈ post, normKey env e.1 = "auto-index" →
        env.IgnoredFields.contains (normKey env e.1) = true) →
      r.AutoIndex = some b) := by
  have hU : ∀ l : Log, (l.UpdateInfo env).Audit = l.Audit ∧
      (l.UpdateInfo env).AutoIndex = l.AutoIndex := by
    intro l
    rw [UpdateInfo_frame]
    exact ⟨rfl, rfl⟩
  refine ⟨?_, ?_, ?_, ?_, ?_⟩
  · unfold NewLog Log.Decode at h
    obtain ⟨l1, h1, hr⟩ := except_bind_ok h
    simp only [pure, Except.pure, Except.ok.injEq] at hr
    have hf := decodeLoop_flags h1
    rw [← hr, (hU l1).1, (hU l1).2]
    exact ⟨hf.2.2.1 (by decide), hf.2.2.2 (by decide)⟩
  · intro hk
    unfold NewLog Log.Decode at h
    obtain ⟨l1, h1, hr⟩ := except_bind_ok h
    simp only [pure, Except.pure, Except.ok.injEq] at hr
    rw [← hr, (hU l1).1, (decodeLoop_flags h1).1 hk]
    rfl
  · intro hk
    unfold NewLog Log.Decode at h
    obtain ⟨l1, h1, hr⟩ := except_bind_ok h
    simp only [pure, Except.pure, Except.ok.injEq] at hr
    rw [← hr, (hU l1).2, (decodeLoop_flags h1).2.1 hk]
    rfl
  · intro pre post k b hbag hk hign hpost
    subst hbag
    obtain ⟨l1, l2, l3, _, h2, h3, hr⟩ := NewLog_split h
    rw [hr, (hU l3).1, (decodeLoop_flags h3).1 hpost]
    exact (decodeEntry_bool hign h2).1 hk
  · intro pre post k b hbag hk hign hpost
    subst hbag
    obtain ⟨l1, l2, l3, _, h2, h3, hr⟩ := NewLog_split h
    rw [hr, (hU l3).2, (decodeLoop_flags h3).2.1 hpost]
    exact (decodeEntry_bool hign h2).2 hk

theorem audit_flags_witness :
    ∃ r, NewLog exampleEnv [("Audit", .bool true), ("msg", .str "m")] = .ok r ∧
      r.Audit = some true ∧ r.AutoIndex = some false :=
  ⟨_, rfl,
   (audit_flags exampleEnv [("Audit", .bool true), ("msg", .str "m")] _ rfl).2.2.2.1
     [] [("msg", .str "m")] "Audit" true rfl (by decide) (by decide) (by decide),
   (audit_flags exampleEnv [("Audit", .bool true), ("msg", .str "m")] _ rfl).2.2.1
     (by decide)⟩

/-! ### C25: `Key()` -/

/-- C25 does not hold as stated: with `UseHMAC` on, `Key()` on a record
whose partition info has not been computed yet changes the column `hmac`. -/
theorem key_changes_hmac_counterexample :
    emptyLog.info = none ∧ hmacEnv.UseHMAC = true ∧
    (emptyLog.Key hmacEnv).2.HMAC ≠ emptyLog.HMAC := by
  decide

/-- C25, amended. `Key()` returns the key held by the partition info and
computes the info first, through `UpdateInfo`, when it is nil. So for every
record: no column other than `hmac` changes; `hmac` does not change either when
the info is already there (as in every record handed over by `NewLog`, `Decode`,
`FromJson` or `FromMsgPack`, which `Key()` leaves as it is) or when `UseHMAC` is
off; on a record without info and with `UseHMAC` on, `Key()` sets `hmac` to the
digest of the record's binary form. In every case a second call returns the
same string and changes nothing. -/
theorem key_frame (env : Env) (l : Log) :
    ({ (l.Key env).2 with info := l.info, HMAC := l.HMAC } = l) ∧
    ((l.info ≠ none ∨ env.UseHMAC = false) → (l.Key env).2.HMAC = l.HMAC) ∧
    (l.info ≠ none → (l.Key env).2 = l) ∧
    (Produced env l → (l.Key env).2 = l) ∧
    (l.info = none → env.UseHMAC = true →
      (l.Key env).2.HMAC = env.GetMD5Sum (l.ToMsgPack env)) ∧
    ((l.Key env).2.Key env = ((l.Key env).1, (l.Key env).2)) := by
  have hsome : ∀ i, l.info = some i → l.Key env = (i.Key, l) := by
    intro i hi
    unfold Log.Key Log.GetInfo
    simp only [hi]
  have hnone : l.info = none →
      l.Key env = (((l.UpdateInfo env).info.getD ⟨"", "", "", "", ""⟩).Key, l.UpdateInfo env) ∧
      ∃ i, (l.UpdateInfo env).info = some i := by
    intro hi
    refine ⟨?_, _, (UpdateInfo_info env l).1⟩
    unfold Log.Key Log.GetInfo
    simp only [hi]
    rw [(UpdateInfo_info env l).1]
    rfl
  refine ⟨?_, ?_, ?_, ?_, ?_, ?_⟩
  · cases hi : l.info with
    | some i => rw [hsome i hi, ← hi]
    | none =>
      rw [(hnone hi).1, ← hi]
      simp only
      rw [UpdateInfo_frame]
  · intro h
    cases hi : l.info with
    | some i => rw [hsome i hi]
    | none =>
      rcases h with h | h
      · exact absurd hi h
      · rw [(hnone hi).1]
        simp [Log.UpdateInfo, h]
  · intro h
    cases hi : l.info with
    | some i => rw [hsome i hi]
    | none => exact absurd hi h
  · intro h
    obtain ⟨i, hi, _⟩ := produced_fresh h
    rw [hsome i hi]
  · intro hi huse
    rw [(hnone hi).1]
    simp [Log.UpdateInfo, huse]
  · cases hi : l.info with
    | some i =>
      rw [hsome i hi]
      exact hsome i hi
    | none =>
      obtain ⟨hk, i, hu⟩ := hnone hi
      rw [hk]
      simp only [hu, Option.getD_some]
      unfold Log.Key Log.GetInfo
      simp only [hu]

theorem key_frame_example :
    ((exampleRecord "a").Key hmacEnv).2 = exampleRecord "a" ∧
    (emptyLog.Key exampleEnv).2.HMAC = emptyLog.HMAC ∧
    (emptyLog.Key hmacEnv).2.HMAC = "." ∧
    ((emptyLog.Key hmacEnv).2.Key hmacEnv).1 = (emptyLog.Key hmacEnv).1 := by
  decide

/-! ### C21: the prefix `tags-` -/

theorem str_length_ne_zero {s : String} (h : s ≠ "") : ¬ (s.length = 0) := by
  intro h0
  apply h
  have hd : s.data = [] := List.length_eq_zero.1 h0
  exact String.ext hd

theorem outerKeys_no_tags (t : String) : outerKeys.contains ("tags-" ++ t) = false := by
  have h1 : ∀ s ∈ outerKeys, "tags-".data.isPrefixOf s.data = false := by decide
  cases hc : outerKeys.contains ("tags-" ++ t) with
  | false => rfl
  | true =>
    have hm : ("tags-" ++ t) ∈ outerKeys := by simpa using hc
    have h2 := h1 _ hm
    rw [String.data_append] at h2
    have h3 : "tags-".data.isPrefixOf ("tags-".data ++ t.data) = true := by
      rw [List.isPrefixOf_iff_prefix]
      exact List.prefix_append _ _
    rw [h3] at h2
    cases h2

theorem ReplaceAll_tags (t : String) :
    ReplaceAll ("tags-" ++ t) "tags-" "" = ReplaceAll t "tags-" "" := by
  unfold ReplaceAll
  rw [String.data_append]
  congr 1
  show replaceAllGo ['t', 'a', 'g', 's', '-'] [] 0 ('t' :: 'a' :: 'g' :: 's' :: '-' :: t.data) =
    replaceAllGo ['t', 'a', 'g', 's', '-'] [] 0 t.data
  simp [replaceAllGo, List.isPrefixOf]

theorem outerKeys_spill (env : Env) :
    ∀ s ∈ outerKeys, ReplaceAll s "tags-" "" = s ∧ innerKeys.contains s = false ∧
      makeKey env "" s = s := by
  intro s hs
  have h1 : ∀ s ∈ outerKeys, ReplaceAll s "tags-" "" = s ∧ innerKeys.contains s = false ∧
      ∀ c ∈ s.data, c.toNat ≤ 127 ∧ c.toLower = c ∧ c ≠ '_' := by decide
  obtain ⟨a, b, c⟩ := h1 s hs
  exact ⟨a, b, (makeKey_normKey env s).trans (normKey_of_clean env s c)⟩

/-- C21 does not hold as stated: `tags-msg`, `tags-level` and `tags-host` do
not set `message`, `level` and `args.host`, the value goes to `extra-fields`
under the name without `tags-`; and `tags-` is removed wherever it occurs in
the key, not only at its start. -/
theorem tags_stripped_counterexample :
    NewLog exampleEnv [("tags-msg", .str "hello")] ≠ NewLog exampleEnv [("msg", .str "hello")] ∧
    (∃ r, NewLog exampleEnv [("tags-msg", .str "hello"), ("tags-level", .str "debug"),
        ("tags-host", .str "h1")] = .ok r ∧
      r.Message = "" ∧ r.Level = "info" ∧ r.Args = some [] ∧
      r.ExtraFields = some [("msg", "hello"), ("level", "debug"), ("host", "h1")]) ∧
    (∃ r, NewLog exampleEnv [("tags-a-tags-b", .str "x")] = .ok r ∧
      r.ExtraFields = some [("a-b", "x")]) :=
  ⟨by decide, ⟨_, rfl, by decide, by decide, by decide, by decide⟩, ⟨_, rfl, by decide⟩⟩

/-- C21, amended. `Decode` looks the normalised key up in its outer switch
as it is and removes `tags-` (every occurrence) only in the default case of
that switch, before the inner switch. No case label of the outer switch begins
with `tags-`, so an entry whose normalised key is `tags-` followed by `t` (not
ignored) is handled by the inner switch on `t` without its occurrences of
`tags-`. When `t` is a case label of the outer switch (`msg`, `level`,
`host`, ...) the value is written to `extra-fields[t]`. When `t` is not such a
label (and is not empty, not ignored, and masked iff the whole key is) the entry
has the effect of every entry with the same value whose normalised key is `t`;
the entry `t` itself is one when the key has ASCII characters only. -/
theorem tags_stripped (env : Env) (l : Log) (k t : String) (v : Value)
    (hk : normKey env k = "tags-" ++ t)
    (hign : env.IgnoredFields.contains (normKey env k) = false) :
    decodeEntry env l k v =
      decodeFiltered env l (ReplaceAll t "tags-" "") (maskedValue env k v) ∧
    (outerKeys.contains t = true →
      decodeEntry env l k v = l.setExtra t (fmtS (maskedValue env k v))) ∧
    (∀ k2, normKey env k2 = t →
      outerKeys.contains t = false → t ≠ "" → env.IgnoredFields.contains t = false →
      env.MaskFields.contains t = env.MaskFields.contains (normKey env k) →
      decodeEntry env l k v = decodeEntry env l k2 v) ∧
    ((∀ c ∈ k.data, c.toNat ≤ 127) → normKey env t = t) := by
  have hlen : ¬ ((normKey env k).length = 0) := by
    rw [hk]
    apply str_length_ne_zero
    intro h
    have := congrArg String.data h
    rw [String.data_append] at this
    cases this
  have h1 : decodeEntry env l k v =
      decodeFiltered env l (ReplaceAll t "tags-" "") (maskedValue env k v) := by
    unfold decodeEntry maskedValue
    simp only [hlen, hign, if_false, Bool.false_eq_true]
    rw [decodeField_default (by rw [hk]; exact outerKeys_no_tags t), hk, ReplaceAll_tags]
  refine ⟨h1, ?_, ?_, ?_⟩
  · intro ht
    have hm : t ∈ outerKeys := by simpa using ht
    obtain ⟨e1, e2, e3⟩ := outerKeys_spill env t hm
    rw [h1, e1, decodeFiltered_default e2, e3]
  · intro k2 hn ht hne hignt hmask
    rw [h1]
    unfold decodeEntry maskedValue
    simp only [hn, str_length_ne_zero hne, hignt, if_false, Bool.false_eq_true, hmask]
    rw [decodeField_default ht]
  · intro hascii
    apply normKey_of_clean
    intro c hc
    apply normKey_clean env k hascii c
    rw [hk, String.data_append]
    exact List.mem_append_right _ hc

/-- Witness of `tags_stripped`: the key `Tags_Owner_Squad` has the effect of
the key `owner-squad`, and `tags-msg` is written to `extra-fields`. -/
theorem tags_stripped_witness :
    normKey exampleEnv "Tags_Owner_Squad" = "tags-" ++ "owner-squad" ∧
    decodeEntry exampleEnv emptyLog "Tags_Owner_Squad" (.str "core") =
      decodeEntry exampleEnv emptyLog "owner-squad" (.str "core") ∧
    decodeEntry exampleEnv emptyLog "owner-squad" (.str "core") =
      .ok { emptyLog with Args := some [("squad", "core")] } ∧
    decodeEntry exampleEnv emptyLog "tags-msg" (.str "hello") =
      emptyLog.setExtra "msg" (fmtS (maskedValue exampleEnv "tags-msg" (.str "hello"))) :=
  ⟨by decide,
   (tags_stripped exampleEnv emptyLog "Tags_Owner_Squad" "owner-squad" (.str "core") (by decide)
     (by decide)).2.2.1 "owner-squad" (by decide) (by decide) (by decide) (by decide)
     (by decide),
   by decide,
   (tags_stripped exampleEnv emptyLog "tags-msg" "msg" (.str "hello") (by decide)
     (by decide)).2.1 (by decide)⟩

/-! ### C22: the mask list -/

theorem decodeEntry_masked_flag (env : Env) (k : String) (v : Value)
    (hk : normKey env k = "audit" ∨ normKey env k = "auto-index")
    (hign : env.IgnoredFields.contains (normKey env k) = false)
    (hmask : env.MaskFields.contains (normKey env k) = true) (l : Log) :
    decodeEntry env l k v =
      .error "interface conversion: interface \x7b\x7d is string, not bool" := by
  unfold decodeEntry
  simp only [hign, hmask]
  rcases hk with hk | hk <;> rw [hk] <;> rfl

/-- C22 fails on the code. `Decode` replaces the value of a masked key by the
string `"*"` before its switch, and the cases `audit` and `auto-index` assert
`v.(bool)`: when `audit` or `auto-index` is on the mask list (and not ignored),
the loop body panics at such an entry, whatever its value, and `NewLog` panics
on every bag that holds one. -/
theorem masked_flag_panics (env : Env) (bag : List (String × Value)) (k : String) (v : Value)
    (hk : normKey env k = "audit" ∨ normKey env k = "auto-index")
    (hign : env.IgnoredFields.contains (normKey env k) = false)
    (hmask : env.MaskFields.contains (normKey env k) = true)
    (hmem : (k, v) ∈ bag) :
    (∀ l, decodeEntry env l k v =
      .error "interface conversion: interface \x7b\x7d is string, not bool") ∧
    (∃ msg, NewLog env bag = .error msg) ∧
    NewLog env [(k, v)] = .error "interface conversion: interface \x7b\x7d is string, not bool" := by
  have hstep := decodeEntry_masked_flag env k v hk hign hmask
  refine ⟨hstep, ?_, ?_⟩
  · obtain ⟨msg, hmsg⟩ := decodeLoop_error_of_mem hmem (fun l => ⟨_, hstep l⟩) emptyLog
    exact ⟨msg, by unfold NewLog Log.Decode; rw [hmsg]; rfl⟩
  · unfold NewLog Log.Decode
    rw [decodeLoop_cons, hstep]
    rfl

theorem masked_flag_panics_witness :
    NewLog maskEnv [("audit", .bool true)] =
      .error "interface conversion: interface \x7b\x7d is string, not bool" ∧
    (∃ msg, NewLog maskEnv [("msg", .str "m"), ("Audit", .bool false)] = .error msg) ∧
    (∃ r, NewLog maskEnv [("message", .str "secret")] = .ok r ∧ r.Message = "*") :=
  ⟨(masked_flag_panics maskEnv [("audit", .bool true)] "audit" (.bool true) (Or.inl (by decide))
     (by decide) (by decide) (List.mem_cons_self _ _)).2.2,
   (masked_flag_panics maskEnv [("msg", .str "m"), ("Audit", .bool false)] "Audit"
     (.bool false) (Or.inl (by decide)) (by decide) (by decide)
     (List.mem_cons_of_mem _ (List.mem_cons_self _ _))).2.1,
   ⟨_, rfl, by decide⟩⟩

/-! ### C28: `RecoveryWriteError` -/

theorem pushRecovery_view (m : Mem) (key : String) (it : Log) (k : String) :
    (m.PushRecovery key (some it)).1.recovered k =
      m.recovered k ++ (if key = k then [it] else []) ∧
    (m.PushRecovery key (some it)).1.data = m.data ∧
    (m.PushRecovery key (some it)).1.buff = m.buff ∧
    (m.PushRecovery key (some it)).2 = none := by
  refine ⟨?_, rfl, rfl, rfl⟩
  unfold Mem.PushRecovery Mem.recovered
  simp only
  by_cases hk : key = k
  · subst hk
    cases hg : mapGet m.recovery key <;> simp [hg, mapGet_mapSet_self]
  · cases hg : mapGet m.recovery key <;> simp [hg, mapGet_mapSet_ne _ _ hk, hk]

theorem pushRecords_view (env : Env) (recs : List Log) (m : Mem) (b : Bool) (k : String) :
    (recs.foldl (fun (acc : Mem × Bool) rec =>
        match (acc.1.PushRecovery (rec.Key env).1 (some (rec.Key env).2)).2 with
        | some _ => ((acc.1.PushRecovery (rec.Key env).1 (some (rec.Key env).2)).1, acc.2)
        | none => ((acc.1.PushRecovery (rec.Key env).1 (some (rec.Key env).2)).1, true))
      (m, b)).1.recovered k =
      m.recovered k ++ ((recs.map (fun rec => rec.Key env)).filter
        (fun p => decide (p.1 = k))).map Prod.snd ∧
    (recs.foldl (fun (acc : Mem × Bool) rec =>
        match (acc.1.PushRecovery (rec.Key env).1 (some (rec.Key env).2)).2 with
        | some _ => ((acc.1.PushRecovery (rec.Key env).1 (some (rec.Key env).2)).1, acc.2)
        | none => ((acc.1.PushRecovery (rec.Key env).1 (some (rec.Key env).2)).1, true))
      (m, b)).1.data = m.data ∧
    (recs.foldl (fun (acc : Mem × Bool) rec =>
        match (acc.1.PushRecovery (rec.Key env).1 (some (rec.Key env).2)).2 with
        | some _ => ((acc.1.PushRecovery (rec.Key env).1 (some (rec.Key env).2)).1, acc.2)
        | none => ((acc.1.PushRecovery (rec.Key env).1 (some (rec.Key env).2)).1, true))
      (m, b)).1.buff = m.buff := by
  induction recs generalizing m b with
  | nil => simp
  | cons rec recs ih =>
    rw [List.foldl_cons]
    obtain ⟨h1, h2, h3, h4⟩ := pushRecovery_view m (rec.Key env).1 (rec.Key env).2 k
    simp only [h4]
    obtain ⟨i1, i2, i3⟩ := ih (m.PushRecovery (rec.Key env).1 (some (rec.Key env).2)).1 true
    refine ⟨?_, i2.trans h2, i3.trans h3⟩
    rw [i1, h1]
    by_cases hk : (rec.Key env).1 = k <;> simp [hk, List.filter_cons]

theorem pushRecords_recovered (env : Env) (m : Mem) (recs : List Log) (k : String) :
    (Receiver.pushRecords env m recs).1.recovered k =
      m.recovered k ++ ((recs.map (fun rec => rec.Key env)).filter
        (fun p => decide (p.1 = k))).map Prod.snd ∧
    (Receiver.pushRecords env m recs).1.data = m.data ∧
    (Receiver.pushRecords env m recs).1.buff = m.buff :=
  pushRecords_view env recs m false k

theorem pushFailed_view (env : Env) (reports : List WriterReturn) (m : Mem) (b : Bool)
    (k : String) :
    (reports.foldl (fun (acc : Mem × Bool) item =>
        match item.Error with
        | none => acc
        | some _ =>
          ((Receiver.pushRecords env acc.1 item.Records).1,
            acc.2 || (Receiver.pushRecords env acc.1 item.Records).2)) (m, b)).1.recovered k =
      m.recovered k ++ ((failedPushes env reports).filter
        (fun p => decide (p.1 = k))).map Prod.snd ∧
    (reports.foldl (fun (acc : Mem × Bool) item =>
        match item.Error with
        | none => acc
        | some _ =>
          ((Receiver.pushRecords env acc.1 item.Records).1,
            acc.2 || (Receiver.pushRecords env acc.1 item.Records).2)) (m, b)).1.data = m.data ∧
    (reports.foldl (fun (acc : Mem × Bool) item =>
        match item.Error with
        | none => acc
        | some _ =>
          ((Receiver.pushRecords env acc.1 item.Records).1,
            acc.2 || (Receiver.pushRecords env acc.1 item.Records).2)) (m, b)).1.buff = m.buff := by
  induction reports generalizing m b with
  | nil => simp [failedPushes]
  | cons item reports ih =>
    rw [List.foldl_cons]
    cases he : item.Error with
    | none =>
      obtain ⟨i1, i2, i3⟩ := ih m b
      refine ⟨?_, i2, i3⟩
      rw [i1]
      simp [failedPushes, he]
    | some err =>
      obtain ⟨p1, p2, p3⟩ := pushRecords_recovered env m item.Records k
      obtain ⟨i1, i2, i3⟩ := ih (Receiver.pushRecords env m item.Records).1
        (b || (Receiver.pushRecords env m item.Records).2)
      refine ⟨?_, i2.trans p2, i3.trans p3⟩
      rw [i1, p1]
      simp [failedPushes, he, List.filter_append]

theorem mapGet_some_of_mem {β : Type} (m : List (String × β)) (k : String)
    (h : k ∈ m.map Prod.fst) : ∃ v, mapGet m k = some v := by
  cases hg : mapGet m k with
  | some v => exact ⟨v, rfl⟩
  | none =>
    exfalso
    induction m with
    | nil => cases h
    | cons d m ih =>
      obtain ⟨a, b⟩ := d
      by_cases hak : a = k
      · simp [mapGet, hak] at hg
      · simp only [mapGet, hak, if_false] at hg
        simp only [List.map_cons, List.mem_cons] at h
        rcases h with h | h
        · exact hak h.symm
        · exact ih h hg

theorem FlushKey_young {r : Receiver} {w : WriterFn} {now : Int} {key : String}
    {c : BufferControl} (hc : mapGet r.control key = some c)
    (hyoung : now - c.Last < r.config.FlushInterval * Second) :
    r.FlushKey w now key = .ok r := by
  unfold Receiver.FlushKey
  simp only [hc, hyoung, decide_True, if_true]
  rfl

theorem flushKeys_young (w : WriterFn) (now : Int) (keys : List String) (r : Receiver)
    (hyoung : ∀ key ∈ keys, ∃ c, mapGet r.control key = some c ∧
      now - c.Last < r.config.FlushInterval * Second) :
    r.flushKeys w now keys = .ok r := by
  induction keys with
  | nil => rfl
  | cons k ks ih =>
    obtain ⟨c, hc, hy⟩ := hyoung k (List.mem_cons_self _ _)
    simp only [Receiver.flushKeys, List.foldlM_cons, FlushKey_young hc hy]
    exact ih (fun key hkey => hyoung key (List.mem_cons_of_mem _ hkey))

theorem Flush_young (r : Receiver) (w : WriterFn) (now : Int)
    (hyoung : ∀ key c, mapGet r.control key = some c →
      now - c.Last < r.config.FlushInterval * Second) :
    r.Flush w now = .ok r := by
  unfold Receiver.Flush
  apply flushKeys_young
  intro key hkey
  obtain ⟨c, hc⟩ := mapGet_some_of_mem _ _ hkey
  exact ⟨c, hc, hyoung key c hc⟩

/-- C28 fails on the code in its last part. `RecoveryWriteError` does push
every record of every report with an error to the recovery partition of the
record's own key, in the order of the reports, and nothing else. But the
`Flush()` that follows `RecoveryData()` goes through the interval check of
`FlushKey`: while the control entry of every key is younger than
`FlushInterval` seconds (as it is right after the failed flush, which has just
set `Last`), `RecoveryWriteError` returns without any call of the writer, and
so does a `RecoveryData()` followed by `Flush()` after it; the records stay in
the buffer. -/
theorem recovery_resend_skipped (env : Env) (r : Receiver) (w : WriterFn) (now later : Int)
    (reports : List WriterReturn)
    (hyoung : ∀ key c, mapGet r.control key = some c →
      now - c.Last < r.config.FlushInterval * Second)
    (hlater : ∀ key c, mapGet r.control key = some c →
      later - c.Last < r.config.FlushInterval * Second) :
    (∀ k, (Receiver.pushFailed env r.buffer reports).1.recovered k =
      r.buffer.recovered k ++
        ((failedPushes env reports).filter (fun p => decide (p.1 = k))).map Prod.snd) ∧
    (Receiver.pushFailed env r.buffer reports).1.data = r.buffer.data ∧
    ∃ r', Receiver.RecoveryWriteError env r w now reports = .ok r' ∧
      r'.calls = r.calls ∧ r'.control = r.control ∧
      (r'.buffer = (Receiver.pushFailed env r.buffer reports).1 ∨
        r'.buffer = (Receiver.pushFailed env r.buffer reports).1.RecoveryData) ∧
      ({ r' with buffer := r'.buffer.RecoveryData } : Receiver).Flush w later =
        .ok { r' with buffer := r'.buffer.RecoveryData } := by
  refine ⟨fun k => (pushFailed_view env reports r.buffer false k).1,
    (pushFailed_view env reports r.buffer false "").2.1, ?_⟩
  unfold Receiver.RecoveryWriteError
  simp only
  split
  · have hf := Flush_young
      ({ r with buffer := (Receiver.pushFailed env r.buffer reports).1.RecoveryData,
                recoveryCount := r.recoveryCount + 1 } : Receiver) w now hyoung
    refine ⟨{ r with buffer := (Receiver.pushFailed env r.buffer reports).1.RecoveryData,
                     recoveryCount := 0 }, by rw [hf]; rfl, rfl, rfl, Or.inr rfl, ?_⟩
    exact Flush_young _ w later hlater
  · refine ⟨{ r with buffer := (Receiver.pushFailed env r.buffer reports).1 }, rfl, rfl, rfl,
      Or.inl rfl, ?_⟩
    exact Flush_young _ w later hlater

/-- The scenario of the specification with `BufferSize = 3` and
`FlushInterval = 10`: a flush at 20 s hands three records to a writer that fails
the first two. `RecoveryWriteError`, run right after it, pushes these two and
moves them back to the partition, and its `Flush()` does not call the writer;
neither does a `Flush()` at 21 s. A `Flush()` at 30 s hands the two records to
the writer. -/
theorem recovery_scenario :
    (NewReceiver ⟨3, 10, true, 1⟩).run exampleEnv
      [⟨.write (exampleRecord "r1"), 0, writerOk⟩, ⟨.worker, 0, writerOk⟩,
       ⟨.write (exampleRecord "r2"), 1000000000, writerOk⟩, ⟨.worker, 1000000000, writerOk⟩,
       ⟨.write (exampleRecord "r3"), 2000000000, writerOk⟩, ⟨.worker, 2000000000, writerOk⟩,
       ⟨.flushKey "|||", 20000000000, writerFailTwo⟩] =
      .ok { afterFailedFlush with
        pending := [writerFailTwo "|||"
          [exampleRecord "r1", exampleRecord "r2", exampleRecord "r3"]] } ∧
    (∃ r, afterFailedFlush.run exampleEnv
        [⟨.flushKey "|||", 20000000000, writerFailTwo⟩] = .ok r ∧ r = afterFailedFlush) ∧
    (∃ r, Receiver.RecoveryWriteError exampleEnv afterFailedFlush writerOk 20000000000
        (writerFailTwo "|||" [exampleRecord "r1", exampleRecord "r2", exampleRecord "r3"]) =
        .ok r ∧
      r.calls = afterFailedFlush.calls ∧
      r.buffer.Get "|||" = [exampleRecord "r1", exampleRecord "r2"] ∧
      r.buffer.recovered "|||" = [] ∧
      (∃ r1, r.run exampleEnv [⟨.flush, 21000000000, writerOk⟩] = .ok r1 ∧
        r1.calls = afterFailedFlush.calls) ∧
      (∃ r2, r.run exampleEnv [⟨.flush, 30000000000, writerOk⟩] = .ok r2 ∧
        r2.calls.length = 2 ∧
        (r2.calls.map (fun c => c.data)).getLast? =
          some [exampleRecord "r1", exampleRecord "r2"])) := by
  refine ⟨by decide, ⟨_, rfl, by decide⟩, ⟨_, rfl, by decide, by decide, by decide,
    ⟨_, rfl, by decide⟩, ⟨_, rfl, by decide, by decide⟩⟩⟩

theorem recovery_resend_skipped_witness :
    ∃ r', Receiver.RecoveryWriteError exampleEnv afterFailedFlush writerOk 20000000000
        (writerFailTwo "|||" [exampleRecord "r1", exampleRecord "r2", exampleRecord "r3"]) =
        .ok r' ∧
      r'.calls = afterFailedFlush.calls ∧
      ({ r' with buffer := r'.buffer.RecoveryData } : Receiver).Flush writerOk 21000000000 =
        .ok { r' with buffer := r'.buffer.RecoveryData } := by
  have hy : ∀ (t : Int), t - 20000000000 < 10 * Second →
      ∀ key c, mapGet afterFailedFlush.control key = some c →
        t - c.Last < afterFailedFlush.config.FlushInterval * Second := by
    intro t ht key c hc
    have hctl : afterFailedFlush.control = [("|||", ⟨20000000000, 0, false⟩)] := rfl
    rw [hctl] at hc
    simp only [mapGet] at hc
    split at hc
    · cases hc
      exact ht
    · cases hc
  obtain ⟨_, _, r', h1, h2, _, _, h5⟩ := recovery_resend_skipped exampleEnv afterFailedFlush
    writerOk 20000000000 21000000000
    (writerFailTwo "|||" [exampleRecord "r1", exampleRecord "r2", exampleRecord "r3"])
    (hy 20000000000 (by decide)) (hy 21000000000 (by decide))
  exact ⟨r', h1, h2, h5⟩

/-! ### C29: the order in which `Decode` visits the bag -/

theorem mapDelete_of_none {β : Type} (m : List (String × β)) (k : String)
    (h : mapGet m k = none) : mapDelete m k = m := by
  induction m with
  | nil => rfl
  | cons e m ih =>
    obtain ⟨a, b⟩ := e
    by_cases hak : a = k
    · simp [mapGet, hak] at h
    · simp only [mapGet, hak, if_false] at h
      simp [mapDelete, hak, ih h]

theorem details_apply (ws : List (String × String)) {l : Log} {a : List (String × String)}
    (ha : l.Args = some a) :
    (Effect.details ws).apply l =
      { l with
        Args := some (mapDelete (writeAll a ws) "details-tags")
        Tags := match mapGet (writeAll a ws) "details-tags" with
          | some value => appendNonEmpty l.Tags (Split value ',')
          | none => l.Tags } := by
  unfold Effect.apply
  simp only [ha, Option.getD_some]
  cases hg : mapGet (writeAll a ws) "details-tags" with
  | some value => rfl
  | none =>
    simp only [mapDelete_of_none _ _ hg]

theorem apply_ready (eff : Effect) {l : Log} (h : l.Ready) : (eff.apply l).Ready := by
  obtain ⟨⟨a, ha⟩, ⟨x, hx⟩⟩ := h
  cases eff with
  | setStr c s => cases c <;> exact ⟨⟨a, ha⟩, ⟨x, hx⟩⟩
  | setPtr c p => cases c <;> exact ⟨⟨a, ha⟩, ⟨x, hx⟩⟩
  | setFlag c b => cases c <;> exact ⟨⟨a, ha⟩, ⟨x, hx⟩⟩
  | details ws =>
    rw [details_apply ws ha]
    exact ⟨⟨_, rfl⟩, ⟨x, hx⟩⟩
  | setArgs ws => exact ⟨⟨_, rfl⟩, ⟨x, hx⟩⟩
  | setExtra key s => exact ⟨⟨a, ha⟩, ⟨_, rfl⟩⟩
  | _ => exact ⟨⟨a, ha⟩, ⟨x, hx⟩⟩

theorem applyAll_ready (xs : List Effect) {l : Log} (h : l.Ready) : (applyAll l xs).Ready := by
  induction xs generalizing l with
  | nil => exact h
  | cons x xs ih => exact ih (apply_ready x h)

/-- Why `details-tags` is among the targets of a `details` entry: an `args`
entry that writes `args["details-tags"]` and a `details` entry do not commute.
Visited first, the value of the `args` entry is moved to `tags` by the
`details` entry; visited second, it stays in `args`. -/
theorem details_tags_shared :
    ¬ DistinctTargets exampleEnv
      [("args", .strMap [("details-tags", "a")]), ("details", .strMap [("k", "v")])] ∧
    (∃ r, NewLog exampleEnv
        [("args", .strMap [("details-tags", "a")]), ("details", .strMap [("k", "v")])] = .ok r ∧
      r.Tags = ["a"] ∧ r.Args = some [("details-k", "v")]) ∧
    (∃ r, NewLog exampleEnv
        [("details", .strMap [("k", "v")]), ("args", .strMap [("details-tags", "a")])] = .ok r ∧
      r.Tags = [] ∧ r.Args = some [("details-k", "v"), ("details-tags", "a")]) := by
  refine ⟨by unfold DistinctTargets; decide, ⟨_, rfl, by decide, by decide⟩,
    ⟨_, rfl, by decide, by decide⟩⟩

/-! ### C31: the recovery counter -/

theorem FlushKey_count {r r' : Receiver} {w : WriterFn} {now : Int} {key : String}
    (h : r.FlushKey w now key = .ok r') :
    r'.recoveryCount = r.recoveryCount ∧ r'.config = r.config := by
  rcases FlushKey_cases r w now key with h1 | ⟨ctrl, h1, _⟩ | ⟨h1, _⟩
  · rw [h1] at h; cases h; exact ⟨rfl, rfl⟩
  · rw [h1] at h; cases h; exact ⟨rfl, rfl⟩
  · rw [h1] at h; cases h; exact ⟨rfl, rfl⟩

theorem flushKeys_count (w : WriterFn) (now : Int) (keys : List String) {r r' : Receiver}
    (h : r.flushKeys w now keys = .ok r') :
    r'.recoveryCount = r.recoveryCount ∧ r'.config = r.config := by
  induction keys generalizing r with
  | nil =>
    simp only [Receiver.flushKeys, List.foldlM_nil, pure, Except.pure, Except.ok.injEq] at h
    rw [← h]
    exact ⟨rfl, rfl⟩
  | cons k ks ih =>
    simp only [Receiver.flushKeys, List.foldlM_cons] at h
    obtain ⟨r1, h1, h2⟩ := except_bind_ok h
    obtain ⟨a1, a2⟩ := FlushKey_count h1
    obtain ⟨b1, b2⟩ := ih h2
    exact ⟨b1.trans a1, b2.trans a2⟩

theorem closeKeys_count (w : WriterFn) (now : Int) (keys : List String) {r r' : Receiver}
    (h : r.closeKeys w now keys = .ok r') :
    r'.recoveryCount = r.recoveryCount ∧ r'.config = r.config := by
  induction keys generalizing r with
  | nil =>
    simp only [Receiver.closeKeys, List.foldlM_nil, pure, Except.pure, Except.ok.injEq] at h
    rw [← h]
    exact ⟨rfl, rfl⟩
  | cons k ks ih =>
    simp only [Receiver.closeKeys, List.foldlM_cons] at h
    obtain ⟨r1, h1, h2⟩ := except_bind_ok h
    obtain ⟨b1, b2⟩ := ih h2
    cases hc : mapGet r.control k with
    | none =>
      simp only [hc] at h1
      obtain ⟨a1, a2⟩ := FlushKey_count h1
      exact ⟨b1.trans a1, b2.trans a2⟩
    | some c =>
      simp only [hc] at h1
      obtain ⟨a1, a2⟩ := FlushKey_count h1
      exact ⟨b1.trans a1, b2.trans a2⟩

theorem Write_count {env : Env} {r r' : Receiver} {w : WriterFn} {now : Int} {record : Log}
    {err : Option String} (h : r.Write env w now record = .ok (r', err)) :
    r'.recoveryCount = r.recoveryCount ∧ r'.config = r.config := by
  have hopen := Write_open_of_ok h
  unfold Receiver.Write at h
  simp only [Push_open _ _ hopen] at h
  split at h
  · split at h
    · obtain ⟨r1, h1, h2⟩ := except_bind_ok h
      simp only [pure, Except.pure, Except.ok.injEq, Prod.mk.injEq] at h2
      obtain ⟨a1, a2⟩ := FlushKey_count h1
      rw [← h2.1]
      exact ⟨a1, a2⟩
    · simp only [pure, Except.pure, Except.ok.injEq, Prod.mk.injEq] at h
      rw [← h.1]
      exact ⟨rfl, rfl⟩
  · simp only [pure, Except.pure, Except.ok.injEq, Prod.mk.injEq] at h
    rw [← h.1]
    exact ⟨rfl, rfl⟩

theorem RecoveryWriteError_cases (env : Env) (r : Receiver) (w : WriterFn) (now : Int)
    (writerRet : List WriterReturn) :
    (¬ ((Receiver.pushFailed env r.buffer writerRet).2 = true ∧
        r.recoveryCount < r.config.RecoveryAttempts ∧ r.config.TryAutoRecover = true) ∧
      Receiver.RecoveryWriteError env r w now writerRet =
        .ok { r with buffer := (Receiver.pushFailed env r.buffer writerRet).1 }) ∨
    (((Receiver.pushFailed env r.buffer writerRet).2 = true ∧
        r.recoveryCount < r.config.RecoveryAttempts ∧ r.config.TryAutoRecover = true) ∧
      ∃ r1, (r.resending env writerRet).Flush w now = .ok r1 ∧
        r1.recoveryCount = r.recoveryCount + 1 ∧ r1.config = r.config ∧
        Receiver.RecoveryWriteError env r w now writerRet =
          .ok { r1 with recoveryCount := 0 }) := by
  by_cases hg : (Receiver.pushFailed env r.buffer writerRet).2 = true ∧
      r.recoveryCount < r.config.RecoveryAttempts ∧ r.config.TryAutoRecover = true
  · refine Or.inr ⟨hg, ?_⟩
    obtain ⟨r1, h1⟩ := flushKeys_total w now ((r.resending env writerRet).control.map Prod.fst)
      (r.resending env writerRet)
    obtain ⟨c1, c2⟩ := flushKeys_count w now _ h1
    refine ⟨r1, h1, c1, c2, ?_⟩
    unfold Receiver.RecoveryWriteError
    simp only [hg, and_self, if_true]
    have h2 : ({ r with buffer := (Receiver.pushFailed env r.buffer writerRet).1.RecoveryData,
                        recoveryCount := r.recoveryCount + 1 } : Receiver).Flush w now =
        .ok r1 := h1
    rw [h2]
    rfl
  · refine Or.inl ⟨hg, ?_⟩
    unfold Receiver.RecoveryWriteError
    simp only [hg, if_false]
    rfl

theorem reachable_count {env : Env} {config : Config} {r : Receiver}
    (h : Reachable env config r) : r.recoveryCount = 0 ∧ r.config = config := by
  induction h with
  | init => exact ⟨rfl, rfl⟩
  | write r r' w now record err _ hstep ih =>
    obtain ⟨a1, a2⟩ := Write_count hstep
    exact ⟨a1.trans ih.1, a2.trans ih.2⟩
  | flushKey r r' w now key _ hstep ih =>
    obtain ⟨a1, a2⟩ := FlushKey_count hstep
    exact ⟨a1.trans ih.1, a2.trans ih.2⟩
  | flush r r' w now _ hstep ih =>
    obtain ⟨a1, a2⟩ := flushKeys_count w now _ hstep
    exact ⟨a1.trans ih.1, a2.trans ih.2⟩
  | recovery r r' w now writerRet _ hstep ih =>
    rcases RecoveryWriteError_cases env r w now writerRet with ⟨_, h1⟩ | ⟨_, r1, _, _, c2, h1⟩
    · rw [h1] at hstep
      cases hstep
      exact ih
    · rw [h1] at hstep
      cases hstep
      exact ⟨rfl, c2.trans ih.2⟩
  | close r r' w now _ hstep ih =>
    obtain ⟨a1, a2⟩ := closeKeys_count w now _ hstep
    exact ⟨a1.trans ih.1, a2.trans ih.2⟩
  | worker r _ ih => exact ih
  | timer r r' w now key _ hstep ih =>
    unfold Receiver.timerWake at hstep
    split at hstep
    · obtain ⟨a1, a2⟩ := FlushKey_count hstep
      exact ⟨a1.trans ih.1, a2.trans ih.2⟩
    · cases hstep
      exact ih
  | started r writerRet rest _ _ ih => exact ih

theorem reachable_open {env : Env} {config : Config} {r : Receiver}
    (h : Reachable env config r) : r.buffer.closed = false ∧ r.buffer.dlq = [] := by
  induction h with
  | init => exact ⟨rfl, rfl⟩
  | write r r' w now record err _ hstep ih =>
    obtain ⟨a1, a2⟩ := Write_closed hstep
    exact ⟨a1, a2.trans ih.2⟩
  | flushKey r r' w now key _ hstep ih =>
    obtain ⟨a1, a2⟩ := FlushKey_closed hstep
    exact ⟨a1.trans ih.1, a2.trans ih.2⟩
  | flush r r' w now _ hstep ih =>
    obtain ⟨a1, a2⟩ := flushKeys_closed w now _ hstep
    exact ⟨a1.trans ih.1, a2.trans ih.2⟩
  | recovery r r' w now writerRet _ hstep ih =>
    obtain ⟨a1, a2⟩ := RecoveryWriteError_closed hstep
    exact ⟨a1.trans ih.1, a2.trans ih.2⟩
  | close r r' w now _ hstep ih =>
    obtain ⟨a1, a2⟩ := closeKeys_closed w now _ hstep
    exact ⟨a1.trans ih.1, a2.trans ih.2⟩
  | worker r _ ih =>
    obtain ⟨a1, a2⟩ := worker_closed r.buffer
    exact ⟨a1.trans ih.1, a2.trans ih.2⟩
  | timer r r' w now key _ hstep ih =>
    unfold Receiver.timerWake at hstep
    split at hstep
    · obtain ⟨a1, a2⟩ := FlushKey_closed hstep
      exact ⟨a1.trans ih.1, a2.trans ih.2⟩
    · cases hstep
      exact ih
  | started r writerRet rest _ _ ih => exact ih

theorem run_reachable (env : Env) (config : Config) (es : List Event) {r r' : Receiver}
    (hr : Reachable env config r) (h : r.run env es = .ok r') : Reachable env config r' := by
  induction es generalizing r with
  | nil =>
    simp only [Receiver.run, List.foldlM_nil, pure, Except.pure, Except.ok.injEq] at h
    rw [← h]
    exact hr
  | cons e es ih =>
    simp only [Receiver.run, List.foldlM_cons] at h
    obtain ⟨r1, h1, h2⟩ := except_bind_ok h
    apply ih _ h2
    unfold Receiver.step at h1
    split at h1
    · rename_i record _
      obtain ⟨p, hp1, hp2⟩ := except_bind_ok h1
      simp only [pure, Except.pure, Except.ok.injEq] at hp2
      rw [← hp2]
      exact Reachable.write r p.1 e.w e.now record p.2 hr hp1
    · exact Reachable.flushKey r r1 e.w e.now _ hr h1
    · exact Reachable.flush r r1 e.w e.now hr h1
    · split at h1
      · cases h1
        exact hr
      · rename_i writerRet rest hp
        exact Reachable.recovery _ r1 e.w e.now writerRet
          (Reachable.started r writerRet rest hr hp) h1
    · exact Reachable.close r r1 e.w e.now hr h1
    · cases h1
      exact Reachable.worker r hr
    · exact Reachable.timer r r1 e.w e.now _ hr h1

/-! ### C6: the end of the recovery budget -/

/-- C6, as stated, fails on the code. With `RecoveryAttempts = 1`, in the
recovery scenario of the specification: of three records of one key the writer
fails `r1` and `r2`; `RecoveryWriteError` puts them back and flushes with
`recoveryCount = 1`, the writer fails them again. They are then in no pool:
the DLQ is empty, the recovery and data partitions hold no record, and no
`RecoveryWriteError` is left to run. With `RecoveryAttempts = 2` and a writer
that fails every batch: after the failed flush, each of four recovery passes
hands the record to the writer again and starts one more `RecoveryWriteError`;
the counter is back at 0 and the DLQ is empty. -/
theorem recovery_exhausted_counterexample :
    (∃ r, (NewReceiver ⟨10, 0, true, 1⟩).run exampleEnv
          [⟨.write (exampleRecord "r1"), 0, writerOk⟩, ⟨.worker, 0, writerOk⟩,
           ⟨.write (exampleRecord "r2"), 0, writerOk⟩, ⟨.worker, 0, writerOk⟩,
           ⟨.write (exampleRecord "r3"), 0, writerOk⟩, ⟨.worker, 0, writerOk⟩,
           ⟨.flushKey "|||", 1, writerFailTwo⟩, ⟨.recover, 2, writerFail⟩] = .ok r ∧
      r.calls.map (fun c => (c.data.map (fun l => l.Message), c.recovering)) =
        [(["r1", "r2", "r3"], true), (["r1", "r2"], false)] ∧
      r.buffer.GetDLQ = [] ∧ r.buffer.Get "|||" = [] ∧
      r.buffer.recovery = [("|||", [])] ∧ r.pending = [] ∧ r.recoveryCount = 0) ∧
    (∃ r, (NewReceiver ⟨10, 0, true, 2⟩).run exampleEnv
          [⟨.write (exampleRecord "r1"), 0, writerOk⟩, ⟨.worker, 0, writerOk⟩,
           ⟨.flushKey "|||", 1, writerFail⟩, ⟨.recover, 2, writerFail⟩,
           ⟨.recover, 3, writerFail⟩, ⟨.recover, 4, writerFail⟩,
           ⟨.recover, 5, writerFail⟩] = .ok r ∧
      r.calls.map (fun c => (c.data.map (fun l => l.Message), c.recovering)) =
        [(["r1"], true), (["r1"], true), (["r1"], true), (["r1"], true), (["r1"], true)] ∧
      r.pending.length = 1 ∧ r.buffer.GetDLQ = [] ∧ r.recoveryCount = 0) := by
  refine ⟨⟨_, rfl, ?_⟩, ⟨_, rfl, ?_⟩⟩ <;> decide

/-- C6, amended. The receiver never puts a record into the DLQ, and
`RecoveryAttempts` does not bound the number of recovery passes: it only
decides, through the test `recoveryCount < RecoveryAttempts`, whether a failed
write is retried. Every receiver reachable from `NewReceiver` has an empty DLQ
and `recoveryCount = 0`, and `RecoveryWriteError` runs its `Flush()` with
`recoveryCount = 1` and the DLQ still empty. Whenever `FlushKey` returns, it
leaves the DLQ and `recoveryCount` as they were. If it ran with
`recoveryCount >= RecoveryAttempts` (on a reachable receiver: at any time when
`RecoveryAttempts <= 0`, inside a recovery pass when `RecoveryAttempts <= 1`),
it has started no `RecoveryWriteError`, has left the recovery pool as it was
and, when it called the writer, has cleared the whole batch from the data pool
whatever the reports say: the records of a failed write are then in no pool.
If it ran with `recoveryCount < RecoveryAttempts` and `TryAutoRecover` set (on
a reachable receiver with `RecoveryAttempts >= 2`: always, also inside a
recovery pass) and the writer reported an error, it has started one more
`RecoveryWriteError` for the reports. -/
theorem recovery_exhausted (env : Env) (config : Config) (r : Receiver)
    (hreach : Reachable env config r) :
    (r.buffer.GetDLQ = [] ∧ r.recoveryCount = 0 ∧ r.config = config) ∧
    (∀ writerRet, (r.resending env writerRet).buffer.GetDLQ = [] ∧
      (r.resending env writerRet).recoveryCount = 1 ∧
      (r.resending env writerRet).config = config) ∧
    (config.RecoveryAttempts ≤ 0 → r.config.RecoveryAttempts ≤ r.recoveryCount) ∧
    (config.RecoveryAttempts ≤ 1 → ∀ writerRet,
      (r.resending env writerRet).config.RecoveryAttempts ≤
        (r.resending env writerRet).recoveryCount) ∧
    (2 ≤ config.RecoveryAttempts → r.recoveryCount < r.config.RecoveryAttempts ∧
      ∀ writerRet, (r.resending env writerRet).recoveryCount <
        (r.resending env writerRet).config.RecoveryAttempts) ∧
    (∀ (r0 r' : Receiver) (w : WriterFn) (now : Int) (key : String),
      r0.FlushKey w now key = .ok r' →
        r'.buffer.GetDLQ = r0.buffer.GetDLQ ∧ r'.recoveryCount = r0.recoveryCount ∧
        r'.config = r0.config ∧
        (r0.config.RecoveryAttempts ≤ r0.recoveryCount →
          r'.pending = r0.pending ∧ r'.buffer.recovery = r0.buffer.recovery ∧
          (r'.calls = r0.calls ∨
            (r'.calls = r0.calls ++
                [⟨key, r0.buffer.Get key, w key (r0.buffer.Get key), false⟩] ∧
              r'.buffer.Get key = []))) ∧
        (r0.recoveryCount < r0.config.RecoveryAttempts → r0.config.TryAutoRecover = true →
          r'.calls ≠ r0.calls → CheckWriterError (w key (r0.buffer.Get key)) = true →
          r'.calls = r0.calls ++
              [⟨key, r0.buffer.Get key, w key (r0.buffer.Get key), true⟩] ∧
            r'.pending = r0.pending ++ [w key (r0.buffer.Get key)])) := by
  obtain ⟨h0, hcfg⟩ := reachable_count hreach
  obtain ⟨_, hdlq⟩ := reachable_open hreach
  have hres : ∀ writerRet, (r.resending env writerRet).buffer.GetDLQ = [] ∧
      (r.resending env writerRet).recoveryCount = 1 ∧
      (r.resending env writerRet).config = config := by
    intro writerRet
    refine ⟨(resending_closed env r writerRet).2.trans hdlq, ?_, hcfg⟩
    show r.recoveryCount + 1 = 1
    rw [h0]
    rfl
  refine ⟨⟨hdlq, h0, hcfg⟩, hres, ?_, ?_, ?_, ?_⟩
  · intro h
    rw [h0, hcfg]
    exact h
  · intro h writerRet
    rw [(hres writerRet).2.1, (hres writerRet).2.2]
    exact h
  · intro h
    refine ⟨by rw [h0, hcfg]; omega, fun writerRet => ?_⟩
    rw [(hres writerRet).2.1, (hres writerRet).2.2]
    omega
  · intro r0 r' w now key hf
    obtain ⟨c1, c2⟩ := FlushKey_count hf
    refine ⟨(FlushKey_closed hf).2, c1, c2, ?_, ?_⟩
    · intro hrc
      rcases FlushKey_cases r0 w now key with h | ⟨ctrl, h, _⟩ | ⟨h, _⟩
      · rw [h] at hf; cases hf
        exact ⟨rfl, rfl, Or.inl rfl⟩
      · rw [h] at hf; cases hf
        exact ⟨rfl, rfl, Or.inl rfl⟩
      · rw [h] at hf; cases hf
        have hrec : (CheckWriterError (w key (r0.buffer.Get key)) && r0.config.TryAutoRecover &&
            decide (r0.recoveryCount < r0.config.RecoveryAttempts)) = false := by
          have : ¬ (r0.recoveryCount < r0.config.RecoveryAttempts) := by omega
          simp [this]
        refine ⟨?_, rfl, Or.inr ⟨?_, ?_⟩⟩
        · simp only [Receiver.flushed, hrec, Bool.false_eq_true, if_false]
        · simp only [Receiver.flushed, hrec]
        · simp [Receiver.flushed, Mem.Get_eq, mapGet_mapSet_self]
    · intro hlt htry hcalls herr
      rcases FlushKey_cases r0 w now key with h | ⟨ctrl, h, _⟩ | ⟨h, _⟩
      · rw [h] at hf; cases hf
        exact absurd rfl hcalls
      · rw [h] at hf; cases hf
        exact absurd rfl hcalls
      · rw [h] at hf; cases hf
        have hrec : (CheckWriterError (w key (r0.buffer.Get key)) && r0.config.TryAutoRecover &&
            decide (r0.recoveryCount < r0.config.RecoveryAttempts)) = true := by
          simp [herr, htry, hlt]
        refine ⟨?_, ?_⟩
        · simp only [Receiver.flushed, hrec]
        · simp only [Receiver.flushed, hrec, if_true]

/-- Witness of `recovery_exhausted`: with `RecoveryAttempts = 1`, the record of
a failed flush is put back by `RecoveryWriteError`, which flushes with
`recoveryCount = 1`; the writer fails again and the record is cleared: it is
in no pool. -/
theorem recovery_exhausted_witness :
    ∃ s r', (NewReceiver ⟨10, 0, true, 1⟩).run exampleEnv
          [⟨.write (exampleRecord "r1"), 0, writerOk⟩, ⟨.worker, 0, writerOk⟩,
           ⟨.flushKey "|||", 1, writerFail⟩] = .ok s ∧
      s.pending = [writerFail "|||" [exampleRecord "r1"]] ∧
      (({ s with pending := [] } : Receiver).resending exampleEnv
        (writerFail "|||" [exampleRecord "r1"])).recoveryCount = 1 ∧
      (({ s with pending := [] } : Receiver).resending exampleEnv
        (writerFail "|||" [exampleRecord "r1"])).buffer.Get "|||" = [exampleRecord "r1"] ∧
      (({ s with pending := [] } : Receiver).resending exampleEnv
        (writerFail "|||" [exampleRecord "r1"])).FlushKey writerFail 2 "|||" = .ok r' ∧
      r'.buffer.Get "|||" = [] ∧ r'.buffer.recovered "|||" = [] ∧ r'.buffer.GetDLQ = [] ∧
      r'.pending = [] := by
  have hval : (NewReceiver ⟨10, 0, true, 1⟩).run exampleEnv
      [⟨.write (exampleRecord "r1"), 0, writerOk⟩, ⟨.worker, 0, writerOk⟩,
       ⟨.flushKey "|||", 1, writerFail⟩] =
      .ok { NewReceiver ⟨10, 0, true, 1⟩ with
        buffer := { NewMem ⟨10, 0, true, 1⟩ with data := [("|||", [])] }
        control := [("|||", { Last := 1, Count := 0, running := false })]
        calls := [⟨"|||", [exampleRecord "r1"], writerFail "|||" [exampleRecord "r1"], true⟩]
        pending := [writerFail "|||" [exampleRecord "r1"]]
        timers := ["|||"] } := by decide
  have hreach := Reachable.started _ (writerFail "|||" [exampleRecord "r1"]) []
    (run_reachable exampleEnv ⟨10, 0, true, 1⟩ _ Reachable.init hval) rfl
  obtain ⟨_, hres, _, _, _, hflush⟩ := recovery_exhausted exampleEnv ⟨10, 0, true, 1⟩ _ hreach
  have hf : (({ ({ NewReceiver ⟨10, 0, true, 1⟩ with
        buffer := { NewMem ⟨10, 0, true, 1⟩ with data := [("|||", [])] }
        control := [("|||", { Last := 1, Count := 0, running := false })]
        calls := [⟨"|||", [exampleRecord "r1"], writerFail "|||" [exampleRecord "r1"], true⟩]
        pending := [writerFail "|||" [exampleRecord "r1"]]
        timers := ["|||"] } : Receiver) with pending := [] } : Receiver).resending exampleEnv
      (writerFail "|||" [exampleRecord "r1"])).FlushKey writerFail 2 "|||" = .ok
      ((({ ({ NewReceiver ⟨10, 0, true, 1⟩ with
        buffer := { NewMem ⟨10, 0, true, 1⟩ with data := [("|||", [])] }
        control := [("|||", { Last := 1, Count := 0, running := false })]
        calls := [⟨"|||", [exampleRecord "r1"], writerFail "|||" [exampleRecord "r1"], true⟩]
        pending := [writerFail "|||" [exampleRecord "r1"]]
        timers := ["|||"] } : Receiver) with pending := [] } : Receiver).resending exampleEnv
      (writerFail "|||" [exampleRecord "r1"])).flushed writerFail 2 "|||") := by decide
  obtain ⟨hd, _, _, hlost, _⟩ := hflush _ _ writerFail 2 "|||" hf
  obtain ⟨p1, _, _⟩ := hlost (by decide)
  exact ⟨_, _, hval, rfl, (hres _).2.1, by decide, hf, by decide, by decide,
    hd.trans (hres _).1, p1⟩

/-- C31. With `RecoveryAttempts >= 0`, every receiver reachable from
`NewReceiver` by `Write`, `FlushKey`, `Flush`, `RecoveryWriteError` and `Close`
steps that run one at a time (and by turns of the worker and timer goroutines)
has `0 <= recoveryCount <= RecoveryAttempts`; between two steps the counter is
in fact 0. On such a receiver `RecoveryWriteError` returns, and it either only
pushes the failed records to the recovery pool, or resends: it resends only
when a record was pushed, `recoveryCount < RecoveryAttempts` and
`TryAutoRecover` is set, and then it runs `RecoveryData()` and `Flush()` with
the counter incremented, still within the bounds, and sets the counter back
to 0 after `Flush()`. `FlushKey` starts a `RecoveryWriteError` goroutine only
behind the same test. -/
theorem recovery_count_bounded (env : Env) (config : Config) (r : Receiver)
    (hatt : 0 ≤ config.RecoveryAttempts) (hreach : Reachable env config r) :
    (0 ≤ r.recoveryCount ∧ r.recoveryCount ≤ r.config.RecoveryAttempts) ∧
    r.recoveryCount = 0 ∧
    (∀ (w : WriterFn) (now : Int) (writerRet : List WriterReturn),
      ∃ r', Receiver.RecoveryWriteError env r w now writerRet = .ok r' ∧
        (0 ≤ r'.recoveryCount ∧ r'.recoveryCount ≤ r'.config.RecoveryAttempts) ∧
        (r' = { r with buffer := (Receiver.pushFailed env r.buffer writerRet).1 } ∨
          ((Receiver.pushFailed env r.buffer writerRet).2 = true ∧
            r.recoveryCount < r.config.RecoveryAttempts ∧ r.config.TryAutoRecover = true ∧
            (0 ≤ (r.resending env writerRet).recoveryCount ∧
              (r.resending env writerRet).recoveryCount ≤
                (r.resending env writerRet).config.RecoveryAttempts) ∧
            ∃ r1, (r.resending env writerRet).Flush w now = .ok r1 ∧
              r1.recoveryCount = (r.resending env writerRet).recoveryCount ∧
              r' = { r1 with recoveryCount := 0 })) ∧
        (¬ (r.recoveryCount < r.config.RecoveryAttempts ∧ r.config.TryAutoRecover = true) →
          r' = { r with buffer := (Receiver.pushFailed env r.buffer writerRet).1 })) ∧
    (∀ (w : WriterFn) (now : Int) (key : String) (r' : Receiver),
      r.FlushKey w now key = .ok r' → r'.pending ≠ r.pending →
        r.recoveryCount < r.config.RecoveryAttempts ∧ r.config.TryAutoRecover = true) := by
  obtain ⟨h0, hcfg⟩ := reachable_count hreach
  have hb : 0 ≤ r.recoveryCount ∧ r.recoveryCount ≤ r.config.RecoveryAttempts := by
    rw [h0, hcfg]
    exact ⟨le_refl _, hatt⟩
  refine ⟨hb, h0, ?_, ?_⟩
  · intro w now writerRet
    rcases RecoveryWriteError_cases env r w now writerRet with ⟨hg, h1⟩ |
      ⟨hg, r1, hf, c1, c2, h1⟩
    · refine ⟨_, h1, hb, Or.inl rfl, fun _ => rfl⟩
    · refine ⟨_, h1, ?_, Or.inr ⟨hg.1, hg.2.1, hg.2.2, ?_, r1, hf, c1, rfl⟩, ?_⟩
      · show (0 : Int) ≤ 0 ∧ (0 : Int) ≤ r1.config.RecoveryAttempts
        rw [c2, hcfg]
        exact ⟨le_refl _, hatt⟩
      · show 0 ≤ r.recoveryCount + 1 ∧ r.recoveryCount + 1 ≤ r.config.RecoveryAttempts
        have := hg.2.1
        omega
      · intro hn
        exact absurd ⟨hg.2.1, hg.2.2⟩ hn
  · intro w now key r' hf hne
    rcases FlushKey_cases r w now key with h1 | ⟨ctrl, h1, _⟩ | ⟨h1, _⟩
    · rw [h1] at hf; cases hf
      exact absurd rfl hne
    · rw [h1] at hf; cases hf
      exact absurd rfl hne
    · rw [h1] at hf; cases hf
      cases hrec : (CheckWriterError (w key (r.buffer.Get key)) && r.config.TryAutoRecover &&
          decide (r.recoveryCount < r.config.RecoveryAttempts))
      · exfalso
        apply hne
        simp only [Receiver.flushed, hrec, Bool.false_eq_true, if_false]
      · simp only [Bool.and_eq_true, decide_eq_true_eq] at hrec
        exact ⟨hrec.2, hrec.1.2⟩

theorem recovery_count_bounded_witness :
    ∃ r, (NewReceiver ⟨3, 0, true, 1⟩).run exampleEnv
        [⟨.write (exampleRecord "r1"), 0, writerOk⟩, ⟨.worker, 0, writerOk⟩,
         ⟨.flushKey "|||", 1, writerFail⟩, ⟨.recover, 2, writerFail⟩] = .ok r ∧
      (0 ≤ r.recoveryCount ∧ r.recoveryCount ≤ r.config.RecoveryAttempts) ∧
      r.calls.map (fun c => c.recovering) = [true, false] ∧ r.buffer.recovered "|||" = [] := by
  obtain ⟨r, hr⟩ := run_total exampleEnv
    [⟨.write (exampleRecord "r1"), 0, writerOk⟩, ⟨.worker, 0, writerOk⟩,
     ⟨.flushKey "|||", 1, writerFail⟩, ⟨.recover, 2, writerFail⟩] (NewReceiver ⟨3, 0, true, 1⟩)
    rfl
  have hsum : ((NewReceiver ⟨3, 0, true, 1⟩).run exampleEnv
      [⟨.write (exampleRecord "r1"), 0, writerOk⟩, ⟨.worker, 0, writerOk⟩,
       ⟨.flushKey "|||", 1, writerFail⟩, ⟨.recover, 2, writerFail⟩]).toOption.map
      (fun r => (r.calls.map (fun c => c.recovering), r.buffer.recovered "|||")) =
      some ([true, false], []) := by decide
  rw [hr] at hsum
  simp only [Except.toOption, Option.map_some', Option.some.injEq, Prod.mk.injEq] at hsum
  exact ⟨r, hr,
    (recovery_count_bounded exampleEnv ⟨3, 0, true, 1⟩ r (by decide)
      (run_reachable exampleEnv _ _ Reachable.init hr)).1, hsum.1, hsum.2⟩

end Data2Parquet
